import Mathlib

/-! Library jjc::concurrency: sequential semantics of the primitives and of the MPSC
channel.

The C++ sources under `include/jjc` are embedded as Lean functions on explicit
states.  A call is run on one thread while no other thread makes progress:

* a compare-exchange loop succeeds at its first attempt,
* `detail::concurrency::wait(cell, expected)` returns at once when the cell
  differs from `expected` and otherwise parks the caller for good
  (`Run.blocked`); no spurious wake-up is modelled,
* `detail::concurrency::wait_for` returns after the whole timeout has elapsed,
* a failed `assert` and a dereference of an invalid pointer are `Run.fault`.

Linked nodes live in an explicit heap (`heap`), addressed by natural numbers.
Unsigned 32-bit cells are natural numbers reduced modulo `2^32`.
-/

namespace jjc

/-! ## Outcome of a call -/

/-- Outcome of one call run on the calling thread alone. -/
inductive Run (α : Type) where
  /-- The call returns. -/
  | done (a : α)
  /-- The caller is parked on the wait/wake substrate and nobody is left to wake it. -/
  | blocked
  /-- A failed `assert`, or a dereference of a null, freed or wild pointer. -/
  | fault
  /-- The iteration bound given to a loop of the model has run out. -/
  | nofuel
deriving DecidableEq, Repr

/-- Sequencing: run `f` on the value returned by the first call. -/
def Run.bind {α β : Type} : Run α → (α → Run β) → Run β
  | .done a, f => f a
  | .blocked, _ => .blocked
  | .fault, _ => .fault
  | .nofuel, _ => .nofuel

/-- Post-process the value returned by a call. -/
def Run.map {α β : Type} (f : α → β) : Run α → Run β
  | .done a => .done (f a)
  | .blocked => .blocked
  | .fault => .fault
  | .nofuel => .nofuel

/-- The value a call returned, or `d` when it did not return. -/
def Run.getD {α : Type} (r : Run α) (d : α) : α :=
  match r with
  | .done a => a
  | _ => d

/-- Model of `assert(c)`. -/
def assert (c : Bool) : Run Unit := if c then .done () else .fault

/-- A strong compare-exchange on a cell: success flag, new cell, new `expected`. -/
def cas {α : Type} [DecidableEq α] (cell expected desired : α) : Bool × α × α :=
  if cell = expected then (true, desired, expected) else (false, cell, cell)

/-- Reduction of an integer to `uint32_t`. -/
def to_u32 (n : Int) : Nat := (n % 4294967296).toNat

/-! ## detail/wait.hpp -/

namespace detail.concurrency

/-- A wake request issued to the substrate. -/
inductive wake_call where
  | wake (count : Nat)
  | wake_all
deriving DecidableEq, Repr

/-- Function `wait(obj, expected)`: `cell` is the value held by `*obj` at the call. -/
def wait {α : Type} [DecidableEq α] (cell expected : α) : Run Unit :=
  if cell = expected then .blocked else .done ()

/-- Function `wait_for(obj, expected, d)`: the number of milliseconds that pass
before it returns. -/
def wait_for {α : Type} [DecidableEq α] (cell expected : α) (d : Int) : Int :=
  if cell = expected then d else 0

end detail.concurrency

open detail.concurrency

/-- Expression `duration_cast<milliseconds>(t - Clock::now())`, the clock counting
nanoseconds. -/
def remaining_ms (t now : Int) : Int := Int.tdiv (t - now) 1000000

/-- Clock reading after `ms` milliseconds have passed. -/
def advance (now ms : Int) : Int := now + ms * 1000000

/-! ## event.hpp -/

/-- The auto-reset event: `_value` is the `std::atomic_uint32_t` counter. -/
structure event where
  _value : Nat
deriving DecidableEq, Repr

namespace event

/-- Constructor `event(bool signaled = false)`. -/
def new (signaled : Bool) : event := ⟨if signaled then 1 else 0⟩

/-- Member `is_signaled(uint32_t v)`. -/
def is_signaled (v : Nat) : Bool := 1 == (v &&& 1)

/-- Member `signal()`: the new event and the wake requests it issued. -/
def signal (e : event) : event × List wake_call :=
  let prev := e._value
  let ev := ((prev + 1) % 4294967296) ||| 1
  (⟨ev⟩, if !is_signaled prev then [wake_call.wake_all] else [])

/-- The `do { wait; prev = load } while (prev < event)` loop of `wait()` followed by
the closing compare-exchange. -/
def wait_loop : Nat → event → Nat → Nat → Run event
  | 0, _, _, _ => .nofuel
  | n + 1, e, prev, ev =>
    (detail.concurrency.wait e._value prev).bind fun _ =>
      let prev := e._value
      if prev < ev then wait_loop n e prev ev
      else .done (if e._value = ev then ⟨(ev + 1) % 4294967296⟩ else e)

/-- Member `wait()`. -/
def wait (e : event) : Run event :=
  let prev := e._value
  if is_signaled prev then
    .done ⟨(prev + 1) % 4294967296⟩
  else
    wait_loop 1 e prev ((prev + 1) % 4294967296)

/-- The loop of `wait_until(t)`: the deadline is checked, then the untimed
`wait` of the substrate is called. -/
def wait_until_loop : Nat → event → Nat → Nat → Int → Int → Run (Bool × event)
  | 0, _, _, _, _, _ => .nofuel
  | n + 1, e, prev, ev, t, now =>
    let dt := remaining_ms t now
    if dt ≤ 0 then .done (false, e)
    else
      (detail.concurrency.wait e._value prev).bind fun _ =>
        let prev := e._value
        if prev < ev then wait_until_loop n e prev ev t now
        else .done (true, if e._value = ev then ⟨(ev + 1) % 4294967296⟩ else e)

/-- Member `wait_until(t)`, called when the clock reads `now`. -/
def wait_until (e : event) (t now : Int) : Run (Bool × event) :=
  let prev := e._value
  if is_signaled prev then
    .done (true, ⟨(prev + 1) % 4294967296⟩)
  else
    wait_until_loop 1 e prev ((prev + 1) % 4294967296) t now

/-- Member `wait_for(d)`: the deadline is `d` nanoseconds after the clock reading
`now0` taken on entry; `wait_until` then finds the clock at `now`. -/
def wait_for (e : event) (d now0 now : Int) : Run (Bool × event) :=
  e.wait_until (now0 + d) now

end event

/-! ## semaphore.hpp -/

namespace counting_semaphore

/-- Largest count, `counting_semaphore::max()`. -/
def max : Int := 4294967295

/-- The packed word `struct data { uint32_t value; uint32_t waiting; }`. -/
structure data where
  value : Nat
  waiting : Nat
deriving DecidableEq, Repr

/-- Member `data::add(int v, int w)`. -/
def data.add (d : data) (v w : Int) : data :=
  ⟨to_u32 (d.value + v), to_u32 (d.waiting + w)⟩

/-- Member `data::add_value(uint32_t count)`. -/
def data.add_value (d : data) (count : Nat) : data :=
  ⟨(d.value + count) % 4294967296, d.waiting⟩

end counting_semaphore

/-- The general `counting_semaphore<least_max_value>`. -/
structure counting_semaphore (least_max_value : Int) where
  _data : counting_semaphore.data
deriving DecidableEq, Repr

namespace counting_semaphore

variable {least_max_value : Int}

/-- Constructor `counting_semaphore(desired)`. -/
def new (desired : Int) : Run (counting_semaphore least_max_value) :=
  (assert (decide (0 ≤ desired) && decide (desired ≤ max))).bind fun _ =>
    .done ⟨⟨to_u32 desired, 0⟩⟩

/-- Member `release(update)`: the new semaphore and the wake requests issued. -/
def release (s : counting_semaphore least_max_value) (update : Int) :
    Run (counting_semaphore least_max_value × List wake_call) :=
  if update = 0 then .done (s, [])
  else
    (assert (decide (0 < update) && decide (update < max))).bind fun _ =>
      let count := to_u32 update
      let prev := s._data
      let s1 : counting_semaphore least_max_value := ⟨prev.add_value count⟩
      (assert (decide (((prev.value + count) % 4294967296 : Nat) ≤ least_max_value))).bind fun _ =>
        if prev.waiting = 0 then .done (s1, [])
        else .done (s1, [wake_call.wake (min count prev.waiting)])

/-- The `while (true)` loop of `acquire()`; `cur` is the local copy of the word. -/
def acquire_loop : Nat → counting_semaphore least_max_value → data →
    Run (counting_semaphore least_max_value)
  | 0, _, _ => .nofuel
  | n + 1, s, cur =>
    if cur.value = 0 then
      (detail.concurrency.wait s._data.value cur.value).bind fun _ =>
        acquire_loop n s s._data
    else
      let c := cas s._data cur (cur.add (-1) (-1))
      if c.1 then .done ⟨c.2.1⟩ else acquire_loop n s c.2.2

/-- Member `acquire()`. -/
def acquire (s : counting_semaphore least_max_value) :
    Run (counting_semaphore least_max_value) :=
  let cur := s._data
  if cur.value ≠ 0 then .done ⟨cur.add (-1) 0⟩
  else
    let s1 : counting_semaphore least_max_value := ⟨cur.add 0 1⟩
    acquire_loop 1 s1 cur

/-- Member `try_acquire()`. -/
def try_acquire (s : counting_semaphore least_max_value) :
    Bool × counting_semaphore least_max_value :=
  let cur := s._data
  if cur.value ≠ 0 then (true, ⟨cur.add (-1) 0⟩) else (false, s)

/-- The `while (true)` loop of `try_acquire_until(t)`; returns the result, the
semaphore and the clock reading at return. -/
def try_acquire_until_loop : Nat → counting_semaphore least_max_value → data → Int → Int →
    Run (Bool × counting_semaphore least_max_value × Int)
  | 0, _, _, _, _ => .nofuel
  | n + 1, s, cur, t, now =>
    let dt := remaining_ms t now
    if dt ≤ 0 then .done (false, ⟨s._data.add 0 (-1)⟩, now)
    else if cur.value = 0 then
      let now1 := advance now (detail.concurrency.wait_for s._data.value cur.value dt)
      try_acquire_until_loop n s s._data t now1
    else
      let c := cas s._data cur (cur.add (-1) (-1))
      if c.1 then .done (true, ⟨c.2.1⟩, now) else try_acquire_until_loop n s c.2.2 t now

/-- Member `try_acquire_until(t)`, called when the clock reads `now`. -/
def try_acquire_until (s : counting_semaphore least_max_value) (t now : Int) :
    Run (Bool × counting_semaphore least_max_value × Int) :=
  let cur := s._data
  if cur.value ≠ 0 then .done (true, ⟨cur.add (-1) 0⟩, now)
  else
    let s1 : counting_semaphore least_max_value := ⟨cur.add 0 1⟩
    try_acquire_until_loop 2 s1 cur t now

/-- One call made on a semaphore; the timed acquire carries its deadline and the
clock reading at the call. -/
inductive call where
  | release (update : Int)
  | acquire
  | try_acquire
  | try_acquire_until (t now : Int)
deriving DecidableEq, Repr

/-- Make one call and keep the semaphore it leaves. -/
def call.run (s : counting_semaphore least_max_value) :
    call → Run (counting_semaphore least_max_value)
  | .release update => (s.release update).map Prod.fst
  | .acquire => s.acquire
  | .try_acquire => .done s.try_acquire.2
  | .try_acquire_until t now => (s.try_acquire_until t now).map fun r => r.2.1

/-- Make the calls of the list one after the other. -/
def calls : List call → counting_semaphore least_max_value →
    Run (counting_semaphore least_max_value)
  | [], s => .done s
  | c :: cs, s => (call.run s c).bind (calls cs)

/-- The semaphore as `acquire()` and `try_acquire_until()` leave it when they park
their caller: no permit was at hand and the waiting count has been incremented
(the statement `cur.add(0, 1)`). -/
def parked (s : counting_semaphore least_max_value) : counting_semaphore least_max_value :=
  ⟨s._data.add 0 1⟩

/-- What remains of `acquire()` for a caller woken from the `wait` of its loop: the
word is loaded again and the loop goes on. -/
def acquire_woken (s : counting_semaphore least_max_value) :
    Run (counting_semaphore least_max_value) :=
  acquire_loop 1 s s._data

/-- What remains of `try_acquire_until(t)` for a caller woken from the `wait_for` of
its loop when the clock reads `now`. -/
def try_acquire_until_woken (s : counting_semaphore least_max_value) (t now : Int) :
    Run (Bool × counting_semaphore least_max_value × Int) :=
  try_acquire_until_loop 2 s s._data t now

end counting_semaphore

/-- The specialisation `counting_semaphore<1>`: `_value` is 1 (available),
0 (taken) or -1 (taken, with a waiter). -/
structure binary_semaphore where
  _value : Int
deriving DecidableEq, Repr

namespace binary_semaphore

/-- Constructor `counting_semaphore<1>(desired)`. -/
def new (desired : Int) : Run binary_semaphore :=
  (assert (decide (desired = 0 ∨ desired = 1))).bind fun _ =>
    .done ⟨if desired ≠ 0 then 1 else 0⟩

/-- Member `release(update)`. -/
def release (s : binary_semaphore) (update : Int) : Run (binary_semaphore × List wake_call) :=
  if update = 0 then .done (s, [])
  else
    (assert (decide (update = 1))).bind fun _ =>
      .done (⟨1⟩, if s._value = -1 then [wake_call.wake 1] else [])

/-- The `while (true)` loop of `acquire()` with its locals `next` and `prev`. -/
def acquire_loop : Nat → binary_semaphore → Int → Int → Run binary_semaphore
  | 0, _, _, _ => .nofuel
  | n + 1, s, next, prev =>
    let c1 := if prev = 1 then cas s._value prev next else (false, s._value, prev)
    if c1.1 then .done ⟨c1.2.1⟩
    else
      let prev := c1.2.2
      let c2 := if prev = -1 then (true, s._value, prev) else cas s._value prev (-1)
      if c2.1 then
        (detail.concurrency.wait c2.2.1 c2.2.2).bind fun _ => acquire_loop n ⟨c2.2.1⟩ (-1) c2.2.1
      else acquire_loop n s next c2.2.2

/-- Member `acquire()`. -/
def acquire (s : binary_semaphore) : Run binary_semaphore :=
  acquire_loop 2 s 0 s._value

/-- Member `try_acquire()`. -/
def try_acquire (s : binary_semaphore) : Bool × binary_semaphore :=
  if s._value = 1 then (true, ⟨0⟩) else (false, s)

/-- The `while (true)` loop of `try_acquire_until(t)`. -/
def try_acquire_until_loop : Nat → binary_semaphore → Int → Int → Int → Int →
    Run (Bool × binary_semaphore × Int)
  | 0, _, _, _, _, _ => .nofuel
  | n + 1, s, next, prev, t, now =>
    let c1 := if prev = 1 then cas s._value prev next else (false, s._value, prev)
    if c1.1 then .done (true, ⟨c1.2.1⟩, now)
    else
      let prev := c1.2.2
      let c2 := if prev = -1 then (true, s._value, prev) else cas s._value prev (-1)
      if c2.1 then
        let dt := remaining_ms t now
        if dt ≤ 0 then .done (false, ⟨c2.2.1⟩, now)
        else
          let now1 := advance now (detail.concurrency.wait_for c2.2.1 c2.2.2 dt)
          try_acquire_until_loop n ⟨c2.2.1⟩ (-1) c2.2.1 t now1
      else try_acquire_until_loop n s next c2.2.2 t now

/-- Member `try_acquire_until(t)`, called when the clock reads `now`. -/
def try_acquire_until (s : binary_semaphore) (t now : Int) : Run (Bool × binary_semaphore × Int) :=
  try_acquire_until_loop 3 s 0 s._value t now

/-- One call made on a binary semaphore; the timed acquire carries its deadline and
the clock reading at the call. -/
inductive call where
  | release (update : Int)
  | acquire
  | try_acquire
  | try_acquire_until (t now : Int)
deriving DecidableEq, Repr

/-- Make one call and keep the semaphore it leaves. -/
def call.run (s : binary_semaphore) : call → Run binary_semaphore
  | .release update => (s.release update).map Prod.fst
  | .acquire => s.acquire
  | .try_acquire => .done s.try_acquire.2
  | .try_acquire_until t now => (s.try_acquire_until t now).map fun r => r.2.1

/-- Make the calls of the list one after the other. -/
def calls : List call → binary_semaphore → Run binary_semaphore
  | [], s => .done s
  | c :: cs, s => (call.run s c).bind (calls cs)

/-- What one pass through the body of the loop of `acquire()` comes to: the
semaphore is acquired and the call returns; or the caller sets `next = -1` and
calls `wait(&_value, expected)` on the semaphore as the pass left it, after which
`prev` is loaded again; or both compare-exchanges failed and the loop goes round
with the value `prev` they saw. -/
inductive pass where
  | acquired (s : binary_semaphore)
  | waits (s : binary_semaphore) (expected next : Int)
  | retry (prev : Int)
deriving DecidableEq, Repr

/-- One pass through the body of the loop of `acquire()`, entered with the locals
`next` and `prev`. -/
def acquire_pass (s : binary_semaphore) (next prev : Int) : pass :=
  let c1 := if prev = 1 then cas s._value prev next else (false, s._value, prev)
  if c1.1 then .acquired ⟨c1.2.1⟩
  else
    let prev := c1.2.2
    let c2 := if prev = -1 then (true, s._value, prev) else cas s._value prev (-1)
    if c2.1 then .waits ⟨c2.2.1⟩ c2.2.2 (-1) else .retry c2.2.2

/-- What one pass through the body of the loop of `try_acquire_until(t)` comes to;
`timed_out` is the `return false`, and `waits` is the call of `wait_for`. -/
inductive timed_pass where
  | acquired (s : binary_semaphore)
  | timed_out (s : binary_semaphore)
  | waits (s : binary_semaphore) (expected next : Int)
  | retry (prev : Int)
deriving DecidableEq, Repr

/-- One pass through the body of the loop of `try_acquire_until(t)` when the clock
reads `now`. -/
def try_acquire_until_pass (s : binary_semaphore) (next prev t now : Int) : timed_pass :=
  let c1 := if prev = 1 then cas s._value prev next else (false, s._value, prev)
  if c1.1 then .acquired ⟨c1.2.1⟩
  else
    let prev := c1.2.2
    let c2 := if prev = -1 then (true, s._value, prev) else cas s._value prev (-1)
    if c2.1 then
      if remaining_ms t now ≤ 0 then .timed_out ⟨c2.2.1⟩ else .waits ⟨c2.2.1⟩ c2.2.2 (-1)
    else .retry c2.2.2

/-- The semaphore a pass of `acquire()` leaves. -/
def pass.state (s : binary_semaphore) : pass → binary_semaphore
  | .acquired s1 => s1
  | .waits s1 _ _ => s1
  | .retry _ => s

/-- The semaphore a pass of `try_acquire_until(t)` leaves. -/
def timed_pass.state (s : binary_semaphore) : timed_pass → binary_semaphore
  | .acquired s1 => s1
  | .timed_out s1 => s1
  | .waits s1 _ _ => s1
  | .retry _ => s

/-- What remains of `acquire()` for a caller that returns from the `wait` of its
loop with the local `next`: `prev` is loaded again and the loop goes on. -/
def acquire_woken (s : binary_semaphore) (next : Int) : Run binary_semaphore :=
  acquire_loop 2 s next s._value

/-- What remains of `try_acquire_until(t)` for a caller that returns from the
`wait_for` of its loop with the local `next`, the clock reading `now`. -/
def try_acquire_until_woken (s : binary_semaphore) (next t now : Int) :
    Run (Bool × binary_semaphore × Int) :=
  try_acquire_until_loop 3 s next s._value t now

/-- One step made on a binary semaphore by one of several threads: a call that
returns, or one pass through the loop of an `acquire()` or a
`try_acquire_until(t)` that is under way in some thread, whose local `next` is 0
before its first wait (`waited = false`) and -1 afterwards, and whose local `prev`
is a value it loaded earlier. -/
inductive step where
  | call (c : call)
  | pass (waited : Bool) (prev : Int)
  | timed_pass (waited : Bool) (prev t now : Int)
deriving DecidableEq, Repr

/-- Make one step and keep the semaphore it leaves. -/
def step.run (s : binary_semaphore) : step → Run binary_semaphore
  | .call c => call.run s c
  | .pass waited prev => .done ((acquire_pass s (if waited then -1 else 0) prev).state s)
  | .timed_pass waited prev t now =>
    .done ((try_acquire_until_pass s (if waited then -1 else 0) prev t now).state s)

/-- Make the steps of the list one after the other. -/
def steps : List step → binary_semaphore → Run binary_semaphore
  | [], s => .done s
  | x :: xs, s => (step.run s x).bind (steps xs)

end binary_semaphore

/-! ## mutex.hpp -/

/-- The mutex: a binary semaphore constructed with one permit. -/
structure mutex where
  _sem : binary_semaphore
deriving DecidableEq, Repr

namespace mutex

/-- Default constructor: `_sem = { 1 }`. -/
def new : mutex := ⟨⟨1⟩⟩

/-- Member `unlock()`. -/
def unlock (m : mutex) : Run mutex := (m._sem.release 1).map fun r => ⟨r.1⟩

/-- Member `lock()`. -/
def lock (m : mutex) : Run mutex := m._sem.acquire.map fun s => ⟨s⟩

/-- Member `try_lock()`. -/
def try_lock (m : mutex) : Bool × mutex := (m._sem.try_acquire.1, ⟨m._sem.try_acquire.2⟩)

/-- Member `try_lock_until(t)`. -/
def try_lock_until (m : mutex) (t now : Int) : Run (Bool × mutex × Int) :=
  (m._sem.try_acquire_until t now).map fun r => (r.1, ⟨r.2.1⟩, r.2.2)

end mutex

/-! ## latch.hpp -/

/-- The latch: `_value` is the `std::atomic_uint32_t` counter. -/
structure latch where
  _value : Nat
deriving DecidableEq, Repr

namespace latch

/-- Largest count, `latch::max()`. -/
def max : Int := 4294967295

/-- Constructor `latch(expected)`. -/
def new (expected : Int) : Run latch :=
  (assert (decide (0 ≤ expected) && decide (expected ≤ max))).bind fun _ =>
    .done ⟨to_u32 expected⟩

/-- Expression `_value.fetch_sub(count)`: the latch it leaves, the difference formed
in 32 bits; the value it returns is the old `_value`. -/
def fetch_sub (l : latch) (count : Nat) : latch := ⟨to_u32 ((l._value : Int) - count)⟩

/-- Member `count_down(n)`: the new latch and the wake requests issued. -/
def count_down (l : latch) (n : Int) : Run (latch × List wake_call) :=
  (assert (decide (0 ≤ n) && decide (n ≤ max))).bind fun _ =>
    let prev := l._value
    .done (l.fetch_sub (to_u32 n), if n = (prev : Int) then [wake_call.wake_all] else [])

/-- Member `try_wait()`. -/
def try_wait (l : latch) : Bool := 0 == l._value

/-- The `while (true)` loop of `wait()`. -/
def wait_loop : Nat → latch → Run Unit
  | 0, _ => .nofuel
  | k + 1, l =>
    let cur := l._value
    if cur = 0 then .done ()
    else (detail.concurrency.wait l._value cur).bind fun _ => wait_loop k l

/-- Member `wait()`. -/
def wait (l : latch) : Run Unit := wait_loop 1 l

/-- The loop `do { wait(&_value, cur); cur = _value.load(); } while (cur != 0);` of
`arrive_and_wait`. -/
def arrive_loop : Nat → latch → Nat → Run Unit
  | 0, _, _ => .nofuel
  | k + 1, l, cur =>
    (detail.concurrency.wait l._value cur).bind fun _ =>
      let cur := l._value
      if cur ≠ 0 then arrive_loop k l cur else .done ()

/-- Member `arrive_and_wait(n)`: the new latch and the wake requests issued. -/
def arrive_and_wait (l : latch) (n : Int) : Run (latch × List wake_call) :=
  (assert (decide (0 ≤ n) && decide (n ≤ max))).bind fun _ =>
    let count := to_u32 n
    let prev := l._value
    let l1 := l.fetch_sub count
    let cur := to_u32 ((prev : Int) - count)
    if cur = 0 then .done (l1, [wake_call.wake_all])
    else (arrive_loop 1 l1 cur).map fun _ => (l1, [])

/-- One arrival at the latch, made by some thread. -/
inductive call where
  | count_down (n : Int)
  | arrive_and_wait (n : Int)
deriving DecidableEq, Repr

/-- The amount a call subtracts. -/
def call.amount : call → Int
  | .count_down n => n
  | .arrive_and_wait n => n

/-- The latch once a call has made its `fetch_sub`, which both functions start with
after their assertion: the counter is changed at that point whether the caller
goes on to return or is parked in `arrive_and_wait`. -/
def call.arrive (l : latch) (c : call) : Run latch :=
  (assert (decide (0 ≤ c.amount) && decide (c.amount ≤ max))).bind fun _ =>
    .done (l.fetch_sub (to_u32 c.amount))

/-- The latch after the arrivals of the list, first one first. -/
def arrivals : List call → latch → Run latch
  | [], l => .done l
  | c :: cs, l => (call.arrive l c).bind (arrivals cs)

/-- Sum of the amounts of a list of calls. -/
def total : List call → Int
  | [] => 0
  | c :: cs => c.amount + total cs

/-- Make one call and keep the latch it leaves when the call returns. -/
def call.run (l : latch) : call → Run latch
  | .count_down n => (l.count_down n).map Prod.fst
  | .arrive_and_wait n => (l.arrive_and_wait n).map Prod.fst

/-- Make the calls of the list one after the other. -/
def runs : List call → latch → Run latch
  | [], l => .done l
  | c :: cs, l => (call.run l c).bind (runs cs)

end latch

/-! ## detail/mpsc_common.hpp -/

namespace mpsc

/-- The `enum class status`. -/
inductive status where
  | OK
  | WOULD_BLOCK
  | TIMEOUT
  | CLOSED
deriving DecidableEq, Repr

/-- The `struct send_result<T>`. -/
structure send_result (T : Type) where
  result : status
  item : Option T
deriving DecidableEq, Repr

/-- The `struct recv_result<T> : std::optional<T>`; `value` is the optional base. -/
structure recv_result (T : Type) where
  value : Option T
  result : status
deriving DecidableEq, Repr

/-- Constructor `recv_result(T&& v)`. -/
def recv_result.of_value {T : Type} (v : T) : recv_result T := ⟨some v, status.OK⟩

/-- Constructor `recv_result(status s)`. -/
def recv_result.of_status {T : Type} (s : status) : recv_result T := ⟨none, s⟩

/-- The result `pop()` builds from the payload of the node it advances to: the value
when there is one, `CLOSED` otherwise. -/
def recv_result.of_payload {T : Type} : Option T → recv_result T
  | some v => recv_result.of_value v
  | none => recv_result.of_status status.CLOSED

/-- The `enum class blocking`. -/
inductive blocking where
  | NEVER
  | SOMETIMES
  | ALWAYS
deriving DecidableEq, Repr

namespace detail

variable {T : Type}

/-! ### Nodes and the heap they are allocated in -/

/-- The `struct node` of both linked transports; `next = none` is `nullptr`. -/
structure node (T : Type) where
  value : Option T
  next : Option Nat
deriving DecidableEq, Repr

/-- The heap: cell `p` is `some n` while the node at address `p` is allocated and
`none` once it has been deleted. -/
abbrev heap (T : Type) := List (Option (node T))

/-- Read through a node pointer. -/
def heap.load (h : heap T) (p : Nat) : Run (node T) :=
  match h[p]? with
  | some (some n) => .done n
  | _ => .fault

/-- Write through a node pointer. -/
def heap.store (h : heap T) (p : Nat) (n : node T) : Run (heap T) :=
  (heap.load h p).bind fun _ => .done (h.set p (some n))

/-- Statement `p->next.store(q)`. -/
def heap.set_next (h : heap T) (p : Nat) (q : Option Nat) : Run (heap T) :=
  (heap.load h p).bind fun n => .done (h.set p (some ⟨n.value, q⟩))

/-- Expression `new node(...)`: the grown heap and the address of the new node. -/
def heap.alloc (h : heap T) (n : node T) : heap T × Nat := (h ++ [some n], h.length)

/-- Statement `delete p`. -/
def heap.free (h : heap T) (p : Nat) : Run (heap T) :=
  (heap.load h p).bind fun _ => .done (h.set p none)

/-- Which addresses of the heap hold a node: one flag for each address handed out so
far, `true` while the node at it is allocated.  An allocation lengthens the list,
a deletion clears a flag. -/
def heap.footprint (h : heap T) : List Bool := h.map Option.isSome

/-! ### detail/mpsc_unbounded.hpp -/

/-- State of `unbounded_channel<T>`: `first` is `_consumer.first`, `is_open` and
`ready` are `_shared.open` and `_shared.ready`, `last` and `count` are
`_producer.last` and `_producer.count`. -/
structure unbounded_channel (T : Type) where
  mem : heap T
  first : Nat
  is_open : Bool
  ready : event
  last : Nat
  count : Int
deriving DecidableEq, Repr

namespace unbounded_channel

/-- Constructor: one dummy node, shared by `_consumer.first` and `_producer.last`. -/
def new : unbounded_channel T :=
  let a := heap.alloc ([] : heap T) ⟨none, none⟩
  { mem := a.1, first := a.2, is_open := true, ready := event.new false, last := a.2, count := 1 }

/-- Member `send_blocks()`. -/
def send_blocks (_ : unbounded_channel T) : blocking := blocking.NEVER

/-- Member `recv_blocks()`. -/
def recv_blocks (_ : unbounded_channel T) : blocking := blocking.SOMETIMES

/-- Member `pop()`. -/
def pop (s : unbounded_channel T) : Run (recv_result T × unbounded_channel T) :=
  (heap.load s.mem s.first).bind fun t =>
    match t.next with
    | none => .fault
    | some p =>
      (heap.load s.mem p).bind fun n =>
        (heap.free s.mem s.first).bind fun mem1 =>
          .done (recv_result.of_payload n.value, { s with mem := mem1, first := p })

/-- The loop `while (first->next == nullptr) ready.wait();` of `receive()`. -/
def await : Nat → unbounded_channel T → Run (unbounded_channel T)
  | 0, _ => .nofuel
  | k + 1, s =>
    (heap.load s.mem s.first).bind fun h =>
      match h.next with
      | some _ => .done s
      | none => s.ready.wait.bind fun e => await k { s with ready := e }

/-- Member `receive()`. -/
def receive (s : unbounded_channel T) : Run (recv_result T × unbounded_channel T) :=
  (await 2 s).bind pop

/-- Member `try_receive()`. -/
def try_receive (s : unbounded_channel T) : Run (recv_result T × unbounded_channel T) :=
  (heap.load s.mem s.first).bind fun h =>
    match h.next with
    | some _ => pop s
    | none => .done (recv_result.of_status status.WOULD_BLOCK, s)

/-- The loop of `try_receive_until(tp)`; the flag is false when `wait_until` timed out. -/
def await_until : Nat → unbounded_channel T → Int → Int → Run (Bool × unbounded_channel T)
  | 0, _, _, _ => .nofuel
  | k + 1, s, tp, now =>
    (heap.load s.mem s.first).bind fun h =>
      match h.next with
      | some _ => .done (true, s)
      | none =>
        (s.ready.wait_until tp now).bind fun r =>
          if !r.1 then .done (false, { s with ready := r.2 })
          else await_until k { s with ready := r.2 } tp now

/-- Member `try_receive_until(tp)`, called when the clock reads `now`. -/
def try_receive_until (s : unbounded_channel T) (tp now : Int) :
    Run (recv_result T × unbounded_channel T) :=
  (await_until 2 s tp now).bind fun r =>
    if r.1 then pop r.2 else .done (recv_result.of_status status.TIMEOUT, r.2)

/-- Member `send(T&& v)`. -/
def send (s : unbounded_channel T) (v : T) : Run (send_result T × unbounded_channel T) :=
  if !s.is_open then .done (⟨status.CLOSED, some v⟩, s)
  else
    let a := heap.alloc s.mem ⟨some v, none⟩
    let last := s.last
    (heap.set_next a.1 last (some a.2)).bind fun mem1 =>
      .done (⟨status.OK, none⟩, { s with mem := mem1, last := a.2, ready := s.ready.signal.1 })

/-- Member `try_send(T&& v)`, inherited from `detail::sender<T>`. -/
def try_send (s : unbounded_channel T) (v : T) : Run (send_result T × unbounded_channel T) :=
  send s v

/-- Member `try_send_until(T&& v, tp)`, inherited from `detail::sender<T>`. -/
def try_send_until (s : unbounded_channel T) (v : T) (_tp _now : Int) :
    Run (send_result T × unbounded_channel T) :=
  send s v

/-- Member `connect()`. -/
def connect (s : unbounded_channel T) : unbounded_channel T := { s with count := s.count + 1 }

/-- Member `disconnect()`. -/
def disconnect (s : unbounded_channel T) : Run (unbounded_channel T) :=
  let s1 := { s with count := s.count - 1 }
  if s.count = 1 then
    let a := heap.alloc s1.mem ⟨none, none⟩
    (heap.set_next a.1 s1.last (some a.2)).bind fun mem1 =>
      .done { s1 with mem := mem1, ready := s1.ready.signal.1 }
  else .done s1

/-- Member `close()`. -/
def close (s : unbounded_channel T) : unbounded_channel T := { s with is_open := false }

end unbounded_channel

/-! ### detail/mpsc_bounded.hpp -/

/-- State of `bounded_channel<T>`: `first`, `retired` are the `_consumer` fields,
`producer_sem`, `ready`, `is_open` the `_shared` fields (`is_open` is `open`),
`last`, `available`, `count` the `_producer` fields. -/
structure bounded_channel (T : Type) where
  mem : heap T
  first : Nat
  retired : Nat
  producer_sem : counting_semaphore 4294967295
  ready : event
  is_open : Bool
  last : Nat
  available : Option Nat
  count : Int
deriving DecidableEq, Repr

namespace bounded_channel

/-- The `for` loop of the constructor: `i` nodes are allocated and chained behind `p`. -/
def init_free : Nat → heap T → Nat → Run (heap T × Nat)
  | 0, h, p => .done (h, p)
  | i + 1, h, p =>
    let a := heap.alloc h ⟨none, none⟩
    (heap.set_next a.1 p (some a.2)).bind fun h1 => init_free i h1 a.2

/-- Constructor `bounded_channel(capacity)`. -/
def new (capacity : Nat) : Run (bounded_channel T) :=
  let a := heap.alloc ([] : heap T) ⟨none, none⟩
  (counting_semaphore.new (capacity : Int)).bind fun sem =>
    let b := heap.alloc a.1 ⟨none, none⟩
    (init_free capacity b.1 b.2).bind fun r =>
      .done { mem := r.1, first := a.2, retired := r.2, producer_sem := sem,
              ready := event.new false, is_open := true, last := a.2,
              available := some b.2, count := 1 }

/-- Member `send_blocks()`. -/
def send_blocks (_ : bounded_channel T) : blocking := blocking.SOMETIMES

/-- Member `recv_blocks()`. -/
def recv_blocks (_ : bounded_channel T) : blocking := blocking.SOMETIMES

/-- Member `recycle(n, v)`. -/
def recycle (h : heap T) (n : Nat) (v : Option T) : Run (heap T) :=
  heap.store h n ⟨v, none⟩

/-- Member `pop()`. -/
def pop (s : bounded_channel T) : Run (recv_result T × bounded_channel T) :=
  let t := s.first
  (heap.load s.mem t).bind fun tn =>
    match tn.next with
    | none => .fault
    | some p =>
      (heap.set_next s.mem t none).bind fun mem1 =>
        (heap.set_next mem1 s.retired (some t)).bind fun mem2 =>
          (s.producer_sem.release 1).bind fun rel =>
            (heap.load mem2 p).bind fun n =>
              .done (recv_result.of_payload n.value,
                     { s with mem := mem2, first := p, retired := t, producer_sem := rel.1 })

/-- Member `push(T&& v)`. -/
def push (s : bounded_channel T) (v : T) : Run (send_result T × bounded_channel T) :=
  match s.available with
  | none => .fault
  | some n =>
    (heap.load s.mem n).bind fun nd =>
      (recycle s.mem n (some v)).bind fun mem1 =>
        let last := s.last
        (heap.set_next mem1 last (some n)).bind fun mem2 =>
          .done (⟨status.OK, none⟩,
                 { s with mem := mem2, available := nd.next, last := n,
                          ready := s.ready.signal.1 })

/-- The loop `while (first->next == nullptr) ready.wait();` of `receive()`. -/
def await : Nat → bounded_channel T → Run (bounded_channel T)
  | 0, _ => .nofuel
  | k + 1, s =>
    (heap.load s.mem s.first).bind fun h =>
      match h.next with
      | some _ => .done s
      | none => s.ready.wait.bind fun e => await k { s with ready := e }

/-- Member `receive()`. -/
def receive (s : bounded_channel T) : Run (recv_result T × bounded_channel T) :=
  (await 2 s).bind pop

/-- Member `try_receive()`. -/
def try_receive (s : bounded_channel T) : Run (recv_result T × bounded_channel T) :=
  (heap.load s.mem s.first).bind fun h =>
    match h.next with
    | some _ => pop s
    | none => .done (recv_result.of_status status.WOULD_BLOCK, s)

/-- The loop of `try_receive_until(tp)`; the flag is false when `wait_until` timed out. -/
def await_until : Nat → bounded_channel T → Int → Int → Run (Bool × bounded_channel T)
  | 0, _, _, _ => .nofuel
  | k + 1, s, tp, now =>
    (heap.load s.mem s.first).bind fun h =>
      match h.next with
      | some _ => .done (true, s)
      | none =>
        (s.ready.wait_until tp now).bind fun r =>
          if !r.1 then .done (false, { s with ready := r.2 })
          else await_until k { s with ready := r.2 } tp now

/-- Member `try_receive_until(tp)`, called when the clock reads `now`. -/
def try_receive_until (s : bounded_channel T) (tp now : Int) :
    Run (recv_result T × bounded_channel T) :=
  (await_until 2 s tp now).bind fun r =>
    if r.1 then pop r.2 else .done (recv_result.of_status status.TIMEOUT, r.2)

/-- Member `send(T&& v)`. -/
def send (s : bounded_channel T) (v : T) : Run (send_result T × bounded_channel T) :=
  if !s.is_open then .done (⟨status.CLOSED, some v⟩, s)
  else s.producer_sem.acquire.bind fun sem => push { s with producer_sem := sem } v

/-- Member `try_send(T&& v)`. -/
def try_send (s : bounded_channel T) (v : T) : Run (send_result T × bounded_channel T) :=
  if !s.is_open then .done (⟨status.CLOSED, some v⟩, s)
  else
    let r := s.producer_sem.try_acquire
    if !r.1 then .done (⟨status.WOULD_BLOCK, some v⟩, { s with producer_sem := r.2 })
    else push { s with producer_sem := r.2 } v

/-- Member `try_send_until(T&& v, tp)`, called when the clock reads `now`. -/
def try_send_until (s : bounded_channel T) (v : T) (tp now : Int) :
    Run (send_result T × bounded_channel T) :=
  if !s.is_open then .done (⟨status.CLOSED, some v⟩, s)
  else
    (s.producer_sem.try_acquire_until tp now).bind fun r =>
      if !r.1 then .done (⟨status.TIMEOUT, some v⟩, { s with producer_sem := r.2.1 })
      else push { s with producer_sem := r.2.1 } v

/-- Member `connect()`. -/
def connect (s : bounded_channel T) : bounded_channel T := { s with count := s.count + 1 }

/-- Member `disconnect()`. -/
def disconnect (s : bounded_channel T) : Run (bounded_channel T) :=
  let s1 := { s with count := s.count - 1 }
  if s.count = 1 then
    let r := s1.producer_sem.try_acquire
    let s2 := { s1 with producer_sem := r.2 }
    if r.1 then
      match s2.available with
      | none => .fault
      | some n =>
        (heap.load s2.mem n).bind fun nd =>
          (recycle s2.mem n none).bind fun mem1 =>
            (heap.set_next mem1 s2.last (some n)).bind fun mem2 =>
              .done { s2 with mem := mem2, available := nd.next, ready := s2.ready.signal.1 }
    else
      let a := heap.alloc s2.mem ⟨none, none⟩
      (heap.set_next a.1 s2.last (some a.2)).bind fun mem1 =>
        .done { s2 with mem := mem1, ready := s2.ready.signal.1 }
  else .done s1

/-- Member `close()`: `std::exchange(n, n->next.load())` yields the old `n`, which
is `_consumer.first`. -/
def close (s : bounded_channel T) : Run (bounded_channel T) :=
  let s1 := { s with is_open := false }
  (heap.load s1.mem s1.first).bind fun _ =>
    (s1.producer_sem.release 1).bind fun rel => .done { s1 with producer_sem := rel.1 }

/-- The transport while a producer is parked in `send` or `try_send_until`: it has
passed the test of `open` and found no permit. -/
def send_parked (s : bounded_channel T) : bounded_channel T :=
  { s with producer_sem := s.producer_sem.parked }

/-- The rest of `send(v)` for a producer woken in `producer_sem.acquire()`: the
acquire completes and `push` follows. -/
def send_woken (s : bounded_channel T) (v : T) : Run (send_result T × bounded_channel T) :=
  s.producer_sem.acquire_woken.bind fun sem => push { s with producer_sem := sem } v

/-- The rest of `try_send_until(v, tp)` for a producer woken in
`producer_sem.try_acquire_until(tp)` when the clock reads `now`. -/
def try_send_until_woken (s : bounded_channel T) (v : T) (tp now : Int) :
    Run (send_result T × bounded_channel T) :=
  (s.producer_sem.try_acquire_until_woken tp now).bind fun r =>
    if !r.1 then .done (⟨status.TIMEOUT, some v⟩, { s with producer_sem := r.2.1 })
    else push { s with producer_sem := r.2.1 } v

end bounded_channel

/-! ### detail/mpsc_rendezvous.hpp -/

/-- State of `rendezvous_channel<T>`: `throttle`, `count` are the `_producer` fields,
the others the `_shared` fields (`is_open` is `open`). -/
structure rendezvous_channel (T : Type) where
  throttle : mutex
  count : Int
  is_open : Bool
  item_lock : mutex
  item_ready : event
  item : Option T
  can_leave : event
deriving DecidableEq, Repr

namespace rendezvous_channel

/-- Constructor: all members default, then `_shared.item_lock.lock()`. -/
def new : Run (rendezvous_channel T) :=
  mutex.new.lock.bind fun il =>
    .done { throttle := mutex.new, count := 1, is_open := true, item_lock := il,
            item_ready := event.new false, item := none, can_leave := event.new false }

/-- Member `send_blocks()`. -/
def send_blocks (_ : rendezvous_channel T) : blocking := blocking.ALWAYS

/-- Member `recv_blocks()`. -/
def recv_blocks (_ : rendezvous_channel T) : blocking := blocking.ALWAYS

/-- The tail shared by `receive()` and `try_receive_until()`: take the item out of
the slot. -/
def take (s : rendezvous_channel T) : Run (recv_result T × rendezvous_channel T) :=
  match s.item with
  | some v => .done (recv_result.of_value v, { s with item := none })
  | none =>
    s.item_lock.unlock.bind fun il =>
      .done (recv_result.of_status status.CLOSED, { s with item := none, item_lock := il })

/-- Member `receive()`. -/
def receive (s : rendezvous_channel T) : Run (recv_result T × rendezvous_channel T) :=
  s.item_lock.unlock.bind fun il1 =>
    s.item_ready.wait.bind fun ir =>
      il1.lock.bind fun il2 =>
        take { s with item_lock := il2, item_ready := ir, can_leave := s.can_leave.signal.1 }

/-- Member `try_receive()`. -/
def try_receive (s : rendezvous_channel T) : Run (recv_result T × rendezvous_channel T) :=
  .done (recv_result.of_status status.WOULD_BLOCK, s)

/-- Member `try_receive_until(tp)`, called when the clock reads `now`. -/
def try_receive_until (s : rendezvous_channel T) (tp now : Int) :
    Run (recv_result T × rendezvous_channel T) :=
  s.item_lock.unlock.bind fun il1 =>
    (s.item_ready.wait_until tp now).bind fun w =>
      il1.lock.bind fun il2 =>
        let s1 := { s with item_lock := il2, item_ready := w.2, can_leave := s.can_leave.signal.1 }
        if !w.1 then .done (recv_result.of_status status.TIMEOUT, s1)
        else take s1

/-- The part of `send` and `try_send_until` that runs with both locks held: place
the item, release `item_lock`, signal, wait for the consumer, release `throttle`. -/
def hand_over (s : rendezvous_channel T) (v : T) : Run (send_result T × rendezvous_channel T) :=
  s.item_lock.unlock.bind fun il =>
    s.can_leave.wait.bind fun cl =>
      s.throttle.unlock.bind fun th =>
        .done (⟨status.OK, none⟩,
               { s with item := some v, item_lock := il, item_ready := s.item_ready.signal.1,
                        can_leave := cl, throttle := th })

/-- Member `send(T&& v)`. -/
def send (s : rendezvous_channel T) (v : T) : Run (send_result T × rendezvous_channel T) :=
  if !s.is_open then .done (⟨status.CLOSED, some v⟩, s)
  else
    s.throttle.lock.bind fun th =>
      s.item_lock.lock.bind fun il =>
        hand_over { s with throttle := th, item_lock := il } v

/-- Member `try_send(T&& v)`. -/
def try_send (s : rendezvous_channel T) (v : T) : Run (send_result T × rendezvous_channel T) :=
  if !s.is_open then .done (⟨status.CLOSED, some v⟩, s)
  else .done (⟨status.WOULD_BLOCK, some v⟩, s)

/-- Member `try_send_until(T&& v, tp)`, called when the clock reads `now`. -/
def try_send_until (s : rendezvous_channel T) (v : T) (tp now : Int) :
    Run (send_result T × rendezvous_channel T) :=
  if !s.is_open then .done (⟨status.CLOSED, some v⟩, s)
  else
    (s.throttle.try_lock_until tp now).bind fun r1 =>
      if !r1.1 then .done (⟨status.TIMEOUT, some v⟩, { s with throttle := r1.2.1 })
      else
        (s.item_lock.try_lock_until tp r1.2.2).bind fun r2 =>
          if !r2.1 then
            r1.2.1.unlock.bind fun th =>
              .done (⟨status.TIMEOUT, some v⟩, { s with throttle := th, item_lock := r2.2.1 })
          else hand_over { s with throttle := r1.2.1, item_lock := r2.2.1 } v

/-- Member `connect()`. -/
def connect (s : rendezvous_channel T) : rendezvous_channel T := { s with count := s.count + 1 }

/-- Member `disconnect()`. -/
def disconnect (s : rendezvous_channel T) : rendezvous_channel T :=
  let s1 := { s with count := s.count - 1 }
  if s.count = 1 then { s1 with item_ready := s1.item_ready.signal.1 } else s1

/-- Member `close()`. -/
def close (s : rendezvous_channel T) : rendezvous_channel T := { s with is_open := false }

/-- The transport while the consumer is parked in `receive()` at
`item_ready.wait()`: `item_lock` has been released. -/
def receive_parked (s : rendezvous_channel T) : Run (rendezvous_channel T) :=
  s.item_lock.unlock.map fun il => { s with item_lock := il }

/-- The rest of `send(v)` from `can_leave.wait()` on: the wait, the release of
`throttle` on leaving the scope, and the result. -/
def send_woken (s : rendezvous_channel T) : Run (send_result T × rendezvous_channel T) :=
  s.can_leave.wait.bind fun cl =>
    s.throttle.unlock.bind fun th =>
      .done (⟨status.OK, none⟩, { s with can_leave := cl, throttle := th })

end rendezvous_channel

/-! ### The polymorphic transport behind a handle

`detail::sender<T>` and `detail::receiver<T>` are abstract interfaces; a handle
calls through a `shared_ptr` to one of the three implementations. -/

/-- The object a `shared_ptr<detail::sender<T>>` points to. -/
inductive transport (T : Type) where
  | unbounded (ch : unbounded_channel T)
  | bounded (ch : bounded_channel T)
  | rendezvous (ch : rendezvous_channel T)
deriving DecidableEq, Repr

namespace transport

/-- Virtual call `send(T&&)`. -/
def send : transport T → T → Run (send_result T × transport T)
  | unbounded ch, v => (ch.send v).map fun r => (r.1, unbounded r.2)
  | bounded ch, v => (ch.send v).map fun r => (r.1, bounded r.2)
  | rendezvous ch, v => (ch.send v).map fun r => (r.1, rendezvous r.2)

/-- Virtual call `try_send(T&&)`. -/
def try_send : transport T → T → Run (send_result T × transport T)
  | unbounded ch, v => (ch.try_send v).map fun r => (r.1, unbounded r.2)
  | bounded ch, v => (ch.try_send v).map fun r => (r.1, bounded r.2)
  | rendezvous ch, v => (ch.try_send v).map fun r => (r.1, rendezvous r.2)

/-- Virtual call `try_send_until(T&&, tp)`. -/
def try_send_until : transport T → T → Int → Int → Run (send_result T × transport T)
  | unbounded ch, v, tp, now => (ch.try_send_until v tp now).map fun r => (r.1, unbounded r.2)
  | bounded ch, v, tp, now => (ch.try_send_until v tp now).map fun r => (r.1, bounded r.2)
  | rendezvous ch, v, tp, now => (ch.try_send_until v tp now).map fun r => (r.1, rendezvous r.2)

/-- Virtual call `receive()`. -/
def receive : transport T → Run (recv_result T × transport T)
  | unbounded ch => ch.receive.map fun r => (r.1, unbounded r.2)
  | bounded ch => ch.receive.map fun r => (r.1, bounded r.2)
  | rendezvous ch => ch.receive.map fun r => (r.1, rendezvous r.2)

/-- Virtual call `try_receive()`. -/
def try_receive : transport T → Run (recv_result T × transport T)
  | unbounded ch => ch.try_receive.map fun r => (r.1, unbounded r.2)
  | bounded ch => ch.try_receive.map fun r => (r.1, bounded r.2)
  | rendezvous ch => ch.try_receive.map fun r => (r.1, rendezvous r.2)

/-- Virtual call `try_receive_until(tp)`. -/
def try_receive_until : transport T → Int → Int → Run (recv_result T × transport T)
  | unbounded ch, tp, now => (ch.try_receive_until tp now).map fun r => (r.1, unbounded r.2)
  | bounded ch, tp, now => (ch.try_receive_until tp now).map fun r => (r.1, bounded r.2)
  | rendezvous ch, tp, now => (ch.try_receive_until tp now).map fun r => (r.1, rendezvous r.2)

/-- Virtual call `connect()`. -/
def connect : transport T → transport T
  | unbounded ch => unbounded ch.connect
  | bounded ch => bounded ch.connect
  | rendezvous ch => rendezvous ch.connect

/-- Virtual call `disconnect()`. -/
def disconnect : transport T → Run (transport T)
  | unbounded ch => ch.disconnect.map unbounded
  | bounded ch => ch.disconnect.map bounded
  | rendezvous ch => .done (rendezvous ch.disconnect)

/-- Virtual call `close()`. -/
def close : transport T → Run (transport T)
  | unbounded ch => .done (unbounded ch.close)
  | bounded ch => ch.close.map bounded
  | rendezvous ch => .done (rendezvous ch.close)

/-- Virtual call `send_blocks()`. -/
def send_blocks : transport T → blocking
  | unbounded ch => ch.send_blocks
  | bounded ch => ch.send_blocks
  | rendezvous ch => ch.send_blocks

/-- Virtual call `recv_blocks()`. -/
def recv_blocks : transport T → blocking
  | unbounded ch => ch.recv_blocks
  | bounded ch => ch.recv_blocks
  | rendezvous ch => ch.recv_blocks

/-- The producer count `_producer.count` of the transport. -/
def count : transport T → Int
  | unbounded ch => ch.count
  | bounded ch => ch.count
  | rendezvous ch => ch.count

/-- The flag `_shared.open` of the transport. -/
def is_open : transport T → Bool
  | unbounded ch => ch.is_open
  | bounded ch => ch.is_open
  | rendezvous ch => ch.is_open

/-- Footprint of the heap of a linked transport. -/
def footprint : transport T → List Bool
  | unbounded ch => heap.footprint ch.mem
  | bounded ch => heap.footprint ch.mem
  | rendezvous _ => []

end transport

/-- A bounded channel of capacity 1 holding the value 42, with a producer parked in
`send(43)`. -/
def parked_producer : Run (bounded_channel Nat) :=
  (bounded_channel.new 1).bind fun s => (s.send 42).map fun r => r.2.send_parked

end detail

/-! ## channel.hpp -/

open detail

variable {T : Type}

/-- The constant `jjc::mpsc::unbounded`. -/
def unbounded : Int := -1

/-- A `sender<T>` handle on the one transport under study: `_channel` tells whether
its `shared_ptr` refers to the transport (`true`) or is empty (`false`, the
moved-from state). -/
structure sender where
  _channel : Bool
deriving DecidableEq, Repr

/-- A `receiver<T>` handle, as for `sender`. -/
structure receiver where
  _channel : Bool
deriving DecidableEq, Repr

/-- What a call of `channel<T>(capacity)` produces: the handle pair together with
the transport both handles share, or the exception `invalid_capacity`. -/
inductive channel_result (T : Type) where
  | pair (tx : transport T) (s : sender) (r : receiver)
  | invalid_capacity
deriving DecidableEq, Repr

/-- Function `channel<T>(capacity)`. -/
def channel (capacity : Int) : Run (channel_result T) :=
  if capacity = unbounded then
    .done (.pair (.unbounded unbounded_channel.new) ⟨true⟩ ⟨true⟩)
  else if capacity = 0 then
    rendezvous_channel.new.map fun ch => .pair (.rendezvous ch) ⟨true⟩ ⟨true⟩
  else if capacity > 0 then
    (bounded_channel.new capacity.toNat).map fun ch => .pair (.bounded ch) ⟨true⟩ ⟨true⟩
  else .done .invalid_capacity

/-- The sender handles alive at some moment together with the transport they share. -/
structure handles (T : Type) where
  tx : transport T
  senders : List sender
deriving DecidableEq, Repr

namespace sender

/-- Destructor `~sender()` of the handle at position `i`. -/
def destroy (w : handles T) (i : Nat) : Run (handles T) :=
  match w.senders[i]? with
  | none => .fault
  | some h =>
    if h._channel then w.tx.disconnect.map fun tx => ⟨tx, w.senders.eraseIdx i⟩
    else .done ⟨w.tx, w.senders.eraseIdx i⟩

/-- Copy constructor `sender(const sender& other)`, `other` at position `i`; the new
handle is added at the end. -/
def copy_construct (w : handles T) (i : Nat) : Run (handles T) :=
  match w.senders[i]? with
  | none => .fault
  | some other =>
    if other._channel then .done ⟨w.tx.connect, w.senders ++ [⟨other._channel⟩]⟩
    else .fault

/-- Copy assignment `operator=(const sender& rhs)`: position `i` is assigned from
position `j`. -/
def copy_assign (w : handles T) (i j : Nat) : Run (handles T) :=
  match w.senders[i]?, w.senders[j]? with
  | some _, some rhs =>
    if rhs._channel then .done ⟨w.tx.connect, w.senders.set i ⟨rhs._channel⟩⟩
    else .fault
  | _, _ => .fault

/-- Move constructor `sender(sender&&)`, defaulted: the pointer moves to the new
handle, added at the end, and the source is left empty. -/
def move_construct (w : handles T) (i : Nat) : Run (handles T) :=
  match w.senders[i]? with
  | none => .fault
  | some other => .done ⟨w.tx, (w.senders.set i ⟨false⟩) ++ [⟨other._channel⟩]⟩

/-- Move assignment `operator=(sender&&)`, defaulted: position `i` takes the pointer
of position `j`, which is left empty. -/
def move_assign (w : handles T) (i j : Nat) : Run (handles T) :=
  match w.senders[i]?, w.senders[j]? with
  | some _, some rhs =>
    if i = j then .done w
    else .done ⟨w.tx, (w.senders.set j ⟨false⟩).set i ⟨rhs._channel⟩⟩
  | _, _ => .fault

/-- Number of live handles whose pointer refers to the transport. -/
def live (w : handles T) : Nat := (w.senders.filter fun h => h._channel).length

end sender

/-- The handles right after `channel<T>()` returned an unbounded channel: one
sender, referring to the transport. -/
def sender.fresh : handles Nat := ⟨.unbounded unbounded_channel.new, [⟨true⟩]⟩

/-- The statements `sender s2 = s; s = s2;` followed by the destruction of both
handles: a copy construction, a copy assignment onto the live handle `s`, two
destructor calls. -/
def sender.copy_assign_scenario : Run (handles Nat) :=
  (sender.copy_construct sender.fresh 0).bind fun w1 =>
    (sender.copy_assign w1 0 1).bind fun w2 =>
      (sender.destroy w2 0).bind fun w3 => sender.destroy w3 0

/-- The statements `sender s2 = s; s = std::move(s2);` followed by the destruction
of both handles. -/
def sender.move_assign_scenario : Run (handles Nat) :=
  (sender.copy_construct sender.fresh 0).bind fun w1 =>
    (sender.move_assign w1 0 1).bind fun w2 =>
      (sender.destroy w2 0).bind fun w3 => sender.destroy w3 0

/-- Destructor `~receiver()`. -/
def receiver.destroy (tx : transport T) (r : receiver) : Run (transport T) :=
  if r._channel then tx.close else .done tx

/-- Member `sender::blocks()`: the call `_channel->send_blocks()`; a call through
an empty pointer is a fault. -/
def sender.blocks (tx : transport T) (h : sender) : Run blocking :=
  if h._channel then .done tx.send_blocks else .fault

/-- Member `receiver::blocks()`: the call `_channel->recv_blocks()`. -/
def receiver.blocks (tx : transport T) (h : receiver) : Run blocking :=
  if h._channel then .done tx.recv_blocks else .fault

/-- The `receiver<T>::iterator`: `_channel` tells whether the raw pointer refers to
the transport (`false` is `nullptr`), `_result` is the receive result it holds. -/
structure receiver.iterator (T : Type) where
  _channel : Bool
  _result : recv_result T
deriving DecidableEq, Repr

namespace receiver.iterator

/-- Member `operator*()`, the expression `*_result`; reading an empty optional is a
fault. -/
def deref (it : receiver.iterator T) : Run T :=
  match it._result.value with
  | some v => .done v
  | none => .fault

/-- Member `operator++()`: `_result = _channel->receive()`. -/
def increment (it : receiver.iterator T) (tx : transport T) :
    Run (receiver.iterator T × transport T) :=
  if it._channel then tx.receive.map fun r => ({ it with _result := r.1 }, r.2)
  else .fault

/-- Member `operator!=(rhs)`. -/
def ne (it rhs : receiver.iterator T) : Bool :=
  it._result.value.isSome || rhs._result.value.isSome

end receiver.iterator

/-- Friend `begin(receiver& r)`: one `receive()`, kept in the iterator. -/
def receiver.begin (tx : transport T) (r : receiver) :
    Run (receiver.iterator T × transport T) :=
  if r._channel then tx.receive.map fun x => (⟨true, x.1⟩, x.2) else .fault

/-- Friend `end(const receiver&)`: the default-constructed iterator, a null pointer
and the result `{ status::CLOSED }`. -/
def receiver.end_ : receiver.iterator T := ⟨false, recv_result.of_status status.CLOSED⟩

/-- The loop `for (; it != last; ++it) seen.push_back(*it);` that a range-based `for`
over the receiver expands to; `seen` collects the values visited. -/
def receiver.for_loop : Nat → receiver.iterator T → receiver.iterator T → transport T →
    List T → Run (List T × receiver.iterator T × transport T)
  | 0, _, _, _, _ => .nofuel
  | n + 1, it, last, tx, seen =>
    if it.ne last then
      it.deref.bind fun v =>
        (it.increment tx).bind fun r => receiver.for_loop n r.1 last r.2 (seen ++ [v])
    else .done (seen, it, tx)

/-- The statement `for (auto&& value : recv) seen.push_back(value);` of the
test-suite: the values visited, the iterator the loop stopped at and the transport.
The loop is given `fuel` iterations. -/
def receiver.range_for (fuel : Nat) (tx : transport T) (r : receiver) :
    Run (List T × receiver.iterator T × transport T) :=
  (receiver.begin tx r).bind fun b => receiver.for_loop fuel b.1 receiver.end_ b.2 []

/-! ## A single-threaded client

A client owns the receiver and some sender handles of one channel and calls them
one after the other.  Every handle forwards to the shared transport, so a script
only says which call is made; `clone` copy-constructs a live sender and `drop`
destroys one. -/

/-- One call made by the client. -/
inductive op (T : Type) where
  | send (v : T)
  | try_send (v : T)
  | receive
  | try_receive
  | clone
  | drop
deriving DecidableEq, Repr

/-- Whether a call is a send or a receive, of either kind. -/
def op.is_transfer : op T → Bool
  | .send _ => true
  | .try_send _ => true
  | .receive => true
  | .try_receive => true
  | .clone => false
  | .drop => false

/-- What a call gave back to the client. -/
inductive outcome (T : Type) where
  | sent (v : T) (r : send_result T)
  | received (r : recv_result T)
  | handle
deriving DecidableEq, Repr

/-- The client: the shared transport, the number of live sender handles and the
results observed so far, oldest first. -/
structure client (T : Type) where
  tx : transport T
  senders : Nat
  log : List (outcome T)
deriving DecidableEq, Repr

namespace client

/-- The client right after `channel<T>(capacity)` returned `tx`. -/
def start (tx : transport T) : client T := ⟨tx, 1, []⟩

/-- Run one call.  A call through a sender handle when none is alive is a fault. -/
def step (c : client T) : op T → Run (client T)
  | .send v =>
    if c.senders = 0 then .fault
    else (c.tx.send v).map fun r => { c with tx := r.2, log := c.log ++ [.sent v r.1] }
  | .try_send v =>
    if c.senders = 0 then .fault
    else (c.tx.try_send v).map fun r => { c with tx := r.2, log := c.log ++ [.sent v r.1] }
  | .receive =>
    c.tx.receive.map fun r => { c with tx := r.2, log := c.log ++ [.received r.1] }
  | .try_receive =>
    c.tx.try_receive.map fun r => { c with tx := r.2, log := c.log ++ [.received r.1] }
  | .clone =>
    if c.senders = 0 then .fault
    else .done { c with tx := c.tx.connect, senders := c.senders + 1, log := c.log ++ [.handle] }
  | .drop =>
    if c.senders = 0 then .fault
    else c.tx.disconnect.map fun tx =>
      { c with tx := tx, senders := c.senders - 1, log := c.log ++ [.handle] }

/-- Run a script, first call first. -/
def exec : List (op T) → client T → Run (client T)
  | [], c => .done c
  | o :: os, c => (c.step o).bind (exec os)

end client

/-- A whole run: `channel<T>(capacity)` is called and the script is run on the pair
it returns. -/
def client.run (capacity : Int) (script : List (op T)) : Run (client T) :=
  (channel capacity).bind fun r =>
    match r with
    | .pair tx _ _ => client.exec script (client.start tx)
    | .invalid_capacity => .fault

/-- A receive call of any of the three kinds; the timed one carries its deadline and
the clock reading at the call. -/
inductive attempt where
  | receive
  | try_receive
  | try_receive_until (tp now : Int)
deriving DecidableEq, Repr

/-- Make one receive call on the transport. -/
def attempt.call (tx : transport T) : attempt → Run (recv_result T × transport T)
  | .receive => tx.receive
  | .try_receive => tx.try_receive
  | .try_receive_until tp now => tx.try_receive_until tp now

/-- Make the receive calls of the list one after the other and collect the results. -/
def attempt.calls : List attempt → transport T → Run (List (recv_result T) × transport T)
  | [], tx => .done ([], tx)
  | a :: as, tx =>
    (attempt.call tx a).bind fun r =>
      (attempt.calls as r.2).map fun rs => (r.1 :: rs.1, rs.2)

/-- The state a run ends in, or the freshly started client of an unbounded channel
when the run does not return. -/
def client.final (capacity : Int) (script : List (op T)) : client T :=
  (client.run capacity script).getD (client.start (.unbounded unbounded_channel.new))

/-- Scenario 2 of the test-suite up to the point where the senders go out of scope:
two senders on one thread fill a channel of capacity 2, one value is received and
one more is sent, so the queue is full again. -/
def scenario_full : List (op Nat) :=
  [.clone, .send 1, .send 2, .try_send 3, .try_send 4, .receive, .send 5]

/-- A run that leaves room in the queue: one value is queued out of two. -/
def scenario_room : List (op Nat) := [.clone, .send 7, .send 8, .receive]

/-- A run of sends and receives only on a channel of capacity 2: the queue fills, a
`try_send` is refused, two values are received and one more is sent. -/
def scenario_transfer : List (op Nat) :=
  [.send 1, .send 2, .try_send 3, .receive, .try_receive, .send 5]

/-- The values whose send returned `OK`, oldest first. -/
def sent_values : List (outcome T) → List T
  | [] => []
  | .sent v r :: l => if r.result = status.OK then v :: sent_values l else sent_values l
  | _ :: l => sent_values l

/-- The values handed out by the receive calls, oldest first. -/
def received_values : List (outcome T) → List T
  | [] => []
  | .received r :: l =>
    match r.value with
    | some v => v :: received_values l
    | none => received_values l
  | _ :: l => received_values l

/-- The values sent with `OK` and not yet received. -/
def pending (l : List (outcome T)) : List T := (sent_values l).drop (received_values l).length

/-! ## Shape of the linked lists -/

namespace detail

/-- Address found in the `next` field of the node before the list `l`: the address
of its first node, or `nxt` when `l` is empty. -/
def hd (l : List (Nat × Option T)) (nxt : Option Nat) : Option Nat :=
  match l with
  | [] => nxt
  | y :: _ => some y.1

/-- The heap holds the nodes listed in `l` (address and payload), each linked to the
following one and the final one to `nxt`. -/
def seg (h : heap T) : List (Nat × Option T) → Option Nat → Prop
  | [], _ => True
  | x :: rest, nxt => h[x.1]? = some (some ⟨x.2, hd rest nxt⟩) ∧ seg h rest nxt

/-- Address of the final node of `l`, or `d` when `l` is empty. -/
def last_addr (l : List (Nat × Option T)) (d : Nat) : Nat :=
  match l.getLast? with
  | some x => x.1
  | none => d

/-- Payloads of the disconnect marker, when one is queued. -/
def marks (marker : Bool) : List (Option T) := if marker then [none] else []

/-- The unbounded transport `s` holds the queue `q`: behind the dummy head come the
nodes `L`, carrying the values of `q` and then the disconnect marker if `marker`;
`k` sender handles are connected. -/
structure unbounded_channel.holds (s : unbounded_channel T) (v0 : Option T)
    (L : List (Nat × Option T)) (q : List T) (k : Nat) (marker : Bool) : Prop where
  chain : seg s.mem ((s.first, v0) :: L) none
  nodup : (s.first :: L.map Prod.fst).Nodup
  vals : L.map Prod.snd = q.map some ++ marks marker
  opened : s.is_open = true
  cnt : s.count = k
  tail : 1 ≤ k → marker = false ∧ s.last = last_addr L s.first

/-- The bounded transport `s` of capacity `c` holds the queue `q`: the live list is
the dummy head followed by `L`, the free list is `F`, ending in the retired node. -/
structure bounded_channel.holds (c : Nat) (s : bounded_channel T) (v0 : Option T)
    (L F : List (Nat × Option T)) (q : List T) (k : Nat) (marker : Bool) : Prop where
  chain : seg s.mem ((s.first, v0) :: L) none
  free : seg s.mem F none
  ret : F.getLast?.map Prod.fst = some s.retired
  nodup : ((s.first :: L.map Prod.fst) ++ F.map Prod.fst).Nodup
  vals : L.map Prod.snd = q.map some ++ marks marker
  opened : s.is_open = true
  cnt : s.count = k
  cap : c ≤ 4294967295
  tail : 1 ≤ k → marker = false ∧ s.last = last_addr L s.first ∧
    s.available = F.head?.map Prod.fst ∧
    F.length = s.producer_sem._data.value + 1 ∧
    s.producer_sem._data.value + q.length = c

/-- The transport holds the queue `q` with `k` connected senders; `cap` is the
capacity of a bounded transport and `none` for the unbounded one. -/
def transport.holds (tx : transport T) (cap : Option Nat) (q : List T) (k : Nat)
    (marker : Bool) : Prop :=
  match tx with
  | .unbounded s => cap = none ∧ ∃ v0 L, s.holds v0 L q k marker
  | .bounded s => ∃ c v0 L F, cap = some c ∧ bounded_channel.holds c s v0 L F q k marker
  | .rendezvous _ => False

end detail

/-- What a run of the client maintains: the transport holds a queue `q` which is
exactly what was sent with `OK` and not yet handed out. -/
def client.inv (cap : Option Nat) (c : client T) : Prop :=
  ∃ q m, c.tx.holds cap q c.senders m ∧ sent_values c.log = received_values c.log ++ q

/-- Whether a node is linked after the head node, the test `first->next != nullptr`
made by `try_receive()`. -/
def detail.transport.linked : transport T → Bool
  | .unbounded s =>
    match s.mem[s.first]? with
    | some (some n) => n.next.isSome
    | _ => false
  | .bounded s =>
    match s.mem[s.first]? with
    | some (some n) => n.next.isSome
    | _ => false
  | .rendezvous _ => false

end mpsc

/-! # Theorems -/

/-! ## Outcomes -/

@[simp] theorem Run.done_bind {α β : Type} (a : α) (f : α → Run β) :
    (Run.done a).bind f = f a := rfl

@[simp] theorem Run.blocked_bind {α β : Type} (f : α → Run β) :
    (Run.blocked : Run α).bind f = Run.blocked := rfl

@[simp] theorem Run.fault_bind {α β : Type} (f : α → Run β) :
    (Run.fault : Run α).bind f = Run.fault := rfl

@[simp] theorem Run.nofuel_bind {α β : Type} (f : α → Run β) :
    (Run.nofuel : Run α).bind f = Run.nofuel := rfl

@[simp] theorem Run.map_done {α β : Type} (a : α) (f : α → β) :
    (Run.done a).map f = Run.done (f a) := rfl

@[simp] theorem Run.map_blocked {α β : Type} (f : α → β) :
    (Run.blocked : Run α).map f = Run.blocked := rfl

@[simp] theorem Run.map_fault {α β : Type} (f : α → β) :
    (Run.fault : Run α).map f = Run.fault := rfl

@[simp] theorem Run.map_nofuel {α β : Type} (f : α → β) :
    (Run.nofuel : Run α).map f = Run.nofuel := rfl

theorem Run.map_eq_done {α β : Type} {f : α → β} {r : Run α} {b : β}
    (h : r.map f = Run.done b) : ∃ a, r = Run.done a ∧ f a = b := by
  cases r with
  | done a => exact ⟨a, rfl, by simpa using h⟩
  | blocked => simp at h
  | fault => simp at h
  | nofuel => simp at h

theorem Run.bind_eq_done {α β : Type} {f : α → Run β} {r : Run α} {b : β}
    (h : r.bind f = Run.done b) : ∃ a, r = Run.done a ∧ f a = Run.done b := by
  cases r with
  | done a => exact ⟨a, rfl, by simpa using h⟩
  | blocked => simp at h
  | fault => simp at h
  | nofuel => simp at h

/-! ## Event -/

theorem event.is_signaled_iff (v : Nat) : event.is_signaled v = true ↔ v % 2 = 1 := by
  unfold event.is_signaled
  rw [Nat.and_one_is_mod]
  constructor
  · intro h
    have := eq_of_beq h
    omega
  · intro h
    simp [h]

theorem event.not_signaled_succ {v : Nat} (h : event.is_signaled v = true) :
    event.is_signaled ((v + 1) % 4294967296) = false := by
  rw [event.is_signaled_iff] at h
  cases hs : event.is_signaled ((v + 1) % 4294967296) with
  | false => rfl
  | true =>
    rw [event.is_signaled_iff] at hs
    omega

theorem event.wait_signaled {e : event} (h : event.is_signaled e._value = true) :
    e.wait = Run.done ⟨(e._value + 1) % 4294967296⟩ := by
  simp [event.wait, h]

theorem event.wait_unsignaled {e : event} (h : event.is_signaled e._value = false) :
    e.wait = Run.blocked := by
  simp [event.wait, h, event.wait_loop, detail.concurrency.wait]

theorem event.wait_until_signaled {e : event} (t now : Int)
    (h : event.is_signaled e._value = true) :
    e.wait_until t now = Run.done (true, ⟨(e._value + 1) % 4294967296⟩) := by
  simp [event.wait_until, h]

theorem event.wait_until_unsignaled {e : event} (t now : Int)
    (h : event.is_signaled e._value = false) :
    e.wait_until t now =
      if remaining_ms t now ≤ 0 then Run.done (false, e) else Run.blocked := by
  simp [event.wait_until, h, event.wait_until_loop, detail.concurrency.wait]

theorem event.signal_signaled (e : event) : event.is_signaled e.signal.1._value = true := by
  rw [event.is_signaled_iff]
  simp [event.signal]

/-! ## Counting semaphore -/

theorem to_u32_pred {v : Nat} (h1 : v ≠ 0) (h2 : v ≤ 4294967296) :
    to_u32 ((v : Int) + -1) = v - 1 := by
  unfold to_u32
  omega

theorem counting_semaphore.release_one {lmv : Int} (s : counting_semaphore lmv)
    (h : 4294967295 ≤ lmv) :
    ∃ w, s.release 1 = Run.done (⟨⟨(s._data.value + 1) % 4294967296, s._data.waiting⟩⟩, w) := by
  have e : to_u32 1 = 1 := by decide
  have hle : ((s._data.value : Int) + 1) % 4294967296 ≤ lmv := by omega
  by_cases hw : s._data.waiting = 0
  · exact ⟨[], by simp [release, assert, max, e, data.add_value, hw, hle]⟩
  · exact ⟨[detail.concurrency.wake_call.wake (min 1 s._data.waiting)],
      by simp [release, assert, max, e, data.add_value, hw, hle]⟩

theorem counting_semaphore.try_acquire_zero {lmv : Int} (s : counting_semaphore lmv)
    (h : s._data.value = 0) : s.try_acquire = (false, s) := by
  simp [try_acquire, h]

theorem counting_semaphore.try_acquire_pos {lmv : Int} (s : counting_semaphore lmv)
    (h : s._data.value ≠ 0) :
    s.try_acquire = (true, ⟨s._data.add (-1) 0⟩) := by
  simp [try_acquire, h]

theorem counting_semaphore.acquire_zero {lmv : Int} (s : counting_semaphore lmv)
    (h : s._data.value = 0) : s.acquire = Run.blocked := by
  simp [acquire, h, acquire_loop, detail.concurrency.wait, data.add, to_u32]

theorem counting_semaphore.acquire_pos {lmv : Int} (s : counting_semaphore lmv)
    (h : s._data.value ≠ 0) : s.acquire = Run.done ⟨s._data.add (-1) 0⟩ := by
  simp [acquire, h]

theorem counting_semaphore.add_value_pred {d : counting_semaphore.data} (h1 : d.value ≠ 0)
    (h2 : d.value ≤ 4294967296) : (d.add (-1) 0).value = d.value - 1 := by
  simp only [data.add]
  exact to_u32_pred h1 h2

/-! ## The fixed loop bounds are enough

Each loop of the model is run with the number of iterations after which, on one
thread, it has returned or parked; none of the member functions runs out. -/

theorem Run.bind_ne_nofuel {α β : Type} {r : Run α} {f : α → Run β}
    (h1 : r ≠ Run.nofuel) (h2 : ∀ a, f a ≠ Run.nofuel) : r.bind f ≠ Run.nofuel := by
  cases r with
  | done a => exact h2 a
  | blocked => simp
  | fault => simp
  | nofuel => exact absurd rfl h1

theorem Run.map_ne_nofuel {α β : Type} {r : Run α} {f : α → β}
    (h1 : r ≠ Run.nofuel) : r.map f ≠ Run.nofuel := by
  cases r with
  | done a => simp
  | blocked => simp
  | fault => simp
  | nofuel => exact absurd rfl h1

theorem remaining_after (t now : Int) (h : 0 < remaining_ms t now) :
    remaining_ms t (advance now (remaining_ms t now)) ≤ 0 := by
  unfold remaining_ms advance at *
  have hd : 0 ≤ t - now := by
    by_contra hneg
    have hlt : t - now < 0 := by omega
    have e : t - now = -(-(t - now)) := by omega
    rw [e, Int.neg_tdiv, Int.tdiv_eq_ediv (by omega) (by norm_num)] at h
    omega
  rw [Int.tdiv_eq_ediv hd (by norm_num)] at h ⊢
  have h2 : 0 ≤ t - (now + (t - now) / 1000000 * 1000000) := by omega
  rw [Int.tdiv_eq_ediv h2 (by norm_num)]
  omega

theorem event.wait_cases (e : event) :
    e.wait = (if event.is_signaled e._value then Run.done ⟨(e._value + 1) % 4294967296⟩
      else Run.blocked) := by
  cases h : event.is_signaled e._value with
  | true => simp [event.wait_signaled h]
  | false => simp [event.wait_unsignaled h]

theorem event.wait_ne_nofuel (e : event) : e.wait ≠ Run.nofuel := by
  rw [event.wait_cases]
  split <;> simp

theorem event.wait_until_ne_nofuel (e : event) (t now : Int) :
    e.wait_until t now ≠ Run.nofuel := by
  cases h : event.is_signaled e._value with
  | true => simp [event.wait_until_signaled t now h]
  | false =>
    rw [event.wait_until_unsignaled t now h]
    split <;> simp

theorem counting_semaphore.acquire_cases {lmv : Int} (s : counting_semaphore lmv) :
    s.acquire = (if s._data.value ≠ 0 then Run.done ⟨s._data.add (-1) 0⟩ else Run.blocked) := by
  by_cases h : s._data.value = 0
  · simp [counting_semaphore.acquire_zero s h, h]
  · simp [counting_semaphore.acquire_pos s h, h]

/-- On one thread `try_acquire_until` always returns: with a permit at hand it
takes it, otherwise it times out (at once when the deadline is reached, after the
timed wait otherwise) and puts the waiting count back. -/
theorem counting_semaphore.try_acquire_until_eq {lmv : Int} (s : counting_semaphore lmv)
    (t now : Int) :
    s.try_acquire_until t now =
      if s._data.value ≠ 0 then Run.done (true, ⟨s._data.add (-1) 0⟩, now)
      else Run.done (false, ⟨(s._data.add 0 1).add 0 (-1)⟩,
        if remaining_ms t now ≤ 0 then now else advance now (remaining_ms t now)) := by
  by_cases h : s._data.value = 0
  · have hz : to_u32 ((0 : Nat) + (0 : Int)) = 0 := by decide
    by_cases hdt : remaining_ms t now ≤ 0
    · simp [try_acquire_until, h, try_acquire_until_loop, hdt]
    · have h2 := remaining_after t now (by omega)
      simp only [try_acquire_until, h, ne_eq, not_true_eq_false, if_false,
        try_acquire_until_loop, hdt, if_true, data.add, hz, detail.concurrency.wait_for, h2]
  · simp [try_acquire_until, h]

theorem binary_semaphore.bin_acquire_cases (s : binary_semaphore) :
    s.acquire = (if s._value = 1 then Run.done ⟨0⟩ else Run.blocked) := by
  by_cases h1 : s._value = 1
  · simp [binary_semaphore.acquire, binary_semaphore.acquire_loop, cas, h1]
  · by_cases h2 : s._value = -1
    · simp [binary_semaphore.acquire, binary_semaphore.acquire_loop, cas, h2,
        detail.concurrency.wait]
    · have h3 : ¬ (-1 : Int) = s._value := fun e => h2 e.symm
      simp [binary_semaphore.acquire, binary_semaphore.acquire_loop, cas, h1, h2, h3,
        detail.concurrency.wait]

/-- On one thread the timed acquire of the binary semaphore always returns: `true`
when the semaphore was available, otherwise `false`, leaving it in the waiting
state. -/
theorem binary_semaphore.bin_try_acquire_until_eq (s : binary_semaphore) (t now : Int) :
    s.try_acquire_until t now =
      if s._value = 1 then Run.done (true, ⟨0⟩, now)
      else Run.done (false, ⟨-1⟩,
        if remaining_ms t now ≤ 0 then now else advance now (remaining_ms t now)) := by
  by_cases h1 : s._value = 1
  · simp [binary_semaphore.try_acquire_until, binary_semaphore.try_acquire_until_loop,
      cas, h1]
  · by_cases hdt : remaining_ms t now ≤ 0
    · by_cases h2 : s._value = -1
      · simp [binary_semaphore.try_acquire_until,
          binary_semaphore.try_acquire_until_loop, cas, h2, hdt]
      · simp [binary_semaphore.try_acquire_until,
          binary_semaphore.try_acquire_until_loop, cas, h1, h2, hdt]
    · have h4 := remaining_after t now (by omega)
      by_cases h2 : s._value = -1
      · simp [binary_semaphore.try_acquire_until, binary_semaphore.try_acquire_until_loop,
          cas, h2, hdt, detail.concurrency.wait_for, h4]
      · have h3 : ¬ (-1 : Int) = s._value := fun e => h2 e.symm
        have h5 : advance now 0 = now := by simp [advance]
        simp [binary_semaphore.try_acquire_until, binary_semaphore.try_acquire_until_loop,
          cas, h1, h2, h3, hdt, detail.concurrency.wait_for, h4, h5]

/-! ## Heap and list segments -/

namespace mpsc

namespace detail

variable {T : Type}

theorem heap.load_of_get {h : heap T} {p : Nat} {n : node T} (hp : h[p]? = some (some n)) :
    heap.load h p = Run.done n := by
  simp [heap.load, hp]

theorem heap.get_of_load {h : heap T} {p : Nat} {n : node T} (hp : heap.load h p = Run.done n) :
    h[p]? = some (some n) := by
  unfold heap.load at hp
  split at hp
  · rename_i m hm
    rw [hm]
    simpa using hp
  · simp at hp

theorem heap.set_next_of_get {h : heap T} {p : Nat} {n : node T} (q : Option Nat)
    (hp : h[p]? = some (some n)) :
    heap.set_next h p q = Run.done (h.set p (some ⟨n.value, q⟩)) := by
  simp [heap.set_next, heap.load_of_get hp]

theorem heap.store_of_get {h : heap T} {p : Nat} {n : node T} (m : node T)
    (hp : h[p]? = some (some n)) :
    heap.store h p m = Run.done (h.set p (some m)) := by
  simp [heap.store, heap.load_of_get hp]

theorem heap.free_of_get {h : heap T} {p : Nat} {n : node T}
    (hp : h[p]? = some (some n)) :
    heap.free h p = Run.done (h.set p none) := by
  simp [heap.free, heap.load_of_get hp]

theorem heap.lt_of_get {h : heap T} {p : Nat} {x : Option (node T)} (hp : h[p]? = some x) :
    p < h.length := by
  rcases List.getElem?_eq_some.mp hp with ⟨hlt, _⟩
  exact hlt

theorem heap.get_set_self {h : heap T} {p : Nat} {x y : Option (node T)}
    (hp : h[p]? = some x) : (h.set p y)[p]? = some y := by
  have := heap.lt_of_get hp
  simp [List.getElem?_set, this]

theorem heap.get_set_ne {h : heap T} {p a : Nat} (y : Option (node T)) (hne : p ≠ a) :
    (h.set p y)[a]? = h[a]? := by
  simp [List.getElem?_set, hne]

theorem heap.get_alloc_old {h : heap T} {a : Nat} {x : Option (node T)} (y : Option (node T))
    (hp : h[a]? = some x) : (h ++ [y])[a]? = some x := by
  rw [List.getElem?_append_left (heap.lt_of_get hp)]
  exact hp

theorem heap.get_alloc_new (h : heap T) (y : Option (node T)) :
    (h ++ [y])[h.length]? = some y := by
  simp

theorem seg_lt {h : heap T} {l : List (Nat × Option T)} {nxt : Option Nat}
    (hs : seg h l nxt) : ∀ a ∈ l.map Prod.fst, a < h.length := by
  induction l with
  | nil => simp
  | cons x rest ih =>
    intro a ha
    simp only [List.map_cons, List.mem_cons] at ha
    rcases ha with rfl | ha
    · exact heap.lt_of_get hs.1
    · exact ih hs.2 a ha

theorem seg_alloc {h : heap T} {l : List (Nat × Option T)} {nxt : Option Nat}
    (y : Option (node T)) (hs : seg h l nxt) : seg (h ++ [y]) l nxt := by
  induction l with
  | nil => trivial
  | cons x rest ih => exact ⟨heap.get_alloc_old y hs.1, ih hs.2⟩

theorem seg_set {h : heap T} {l : List (Nat × Option T)} {nxt : Option Nat} {p : Nat}
    (y : Option (node T)) (hp : p ∉ l.map Prod.fst) (hs : seg h l nxt) :
    seg (h.set p y) l nxt := by
  induction l with
  | nil => trivial
  | cons x rest ih =>
    simp only [List.map_cons, List.mem_cons, not_or] at hp
    refine ⟨?_, ih hp.2 hs.2⟩
    rw [heap.get_set_ne y hp.1]
    exact hs.1

theorem seg_append {h : heap T} {l1 l2 : List (Nat × Option T)} {nxt : Option Nat} :
    seg h (l1 ++ l2) nxt ↔ seg h l1 (hd l2 nxt) ∧ seg h l2 nxt := by
  induction l1 with
  | nil => simp [seg]
  | cons x rest ih =>
    cases rest with
    | nil =>
      cases l2 with
      | nil => simp [seg, hd]
      | cons y l2 => simp [seg, hd]
    | cons z rest =>
      simp only [List.cons_append, seg, hd] at ih ⊢
      rw [ih]
      tauto

theorem seg_snoc {h : heap T} {X : List (Nat × Option T)} {r t : Nat} {vr w : Option T}
    (hs : seg h (X ++ [(r, vr)]) none) (hr : r ∉ X.map Prod.fst) (htr : t ≠ r)
    (ht : h[t]? = some (some ⟨w, none⟩)) :
    seg (h.set r (some ⟨vr, some t⟩)) (X ++ [(r, vr)] ++ [(t, w)]) none := by
  rw [seg_append] at hs
  rw [List.append_assoc, seg_append]
  refine ⟨seg_set _ hr (by simpa [hd] using hs.1), ?_, ?_, trivial⟩
  · simpa [hd] using heap.get_set_self hs.2.1
  · simp only [hd]
    rw [heap.get_set_ne _ (Ne.symm htr)]
    exact ht

theorem full_split (a : Nat) (v0 : Option T) (L : List (Nat × Option T)) :
    ∃ X r vr, (a, v0) :: L = X ++ [(r, vr)] ∧ last_addr L a = r := by
  rcases List.eq_nil_or_concat L with rfl | ⟨L1, b, rfl⟩
  · exact ⟨[], a, v0, rfl, rfl⟩
  · refine ⟨(a, v0) :: L1, b.1, b.2, by simp, ?_⟩
    simp [last_addr]

theorem last_addr_cons (x : Nat × Option T) (L : List (Nat × Option T)) (a : Nat) :
    last_addr (x :: L) a = last_addr L x.1 := by
  rcases List.eq_nil_or_concat L with rfl | ⟨L1, b, rfl⟩
  · simp [last_addr]
  · have e1 : (x :: L1.concat b).getLast? = some b := by
      rw [List.concat_eq_append, ← List.cons_append, List.getLast?_concat]
    have e2 : (L1.concat b).getLast? = some b := by
      rw [List.concat_eq_append, List.getLast?_concat]
    unfold last_addr
    rw [e1, e2]

theorem last_addr_snoc (L : List (Nat × Option T)) (x : Nat × Option T) (a : Nat) :
    last_addr (L ++ [x]) a = x.1 := by
  simp [last_addr]

/-! ## Unbounded transport -/

namespace unbounded_channel

theorem ub_holds_new : (new : unbounded_channel T).holds none [] [] 1 false where
  chain := by simp [new, heap.alloc, seg, hd]
  nodup := by simp
  vals := by simp [marks]
  opened := rfl
  cnt := rfl
  tail := fun _ => ⟨rfl, rfl⟩

/-- Appending a node behind the tail, as `send` and `disconnect` do. -/
theorem link_tail {s : unbounded_channel T} {v0 : Option T} {L : List (Nat × Option T)}
    (w : Option T) (hc : seg s.mem ((s.first, v0) :: L) none)
    (hn : (s.first :: L.map Prod.fst).Nodup) :
    ∃ mem1, heap.set_next (heap.alloc s.mem ⟨w, none⟩).1 (last_addr L s.first)
        (some (heap.alloc s.mem ⟨w, none⟩).2) = Run.done mem1 ∧
      seg mem1 ((s.first, v0) :: (L ++ [(s.mem.length, w)])) none ∧
      (s.first :: (L ++ [(s.mem.length, w)]).map Prod.fst).Nodup := by
  obtain ⟨X, r, vr, hX, hr⟩ := full_split s.first v0 L
  have hlt := seg_lt hc
  have hn2 : (X ++ [(r, vr)]).map Prod.fst = s.first :: L.map Prod.fst := by
    rw [← hX]; rfl
  have hnd : (X.map Prod.fst ++ [r]).Nodup := by
    have := hn
    rw [← hn2] at this
    simpa using this
  have hrX : r ∉ X.map Prod.fst := by
    rw [List.nodup_append] at hnd
    intro hmem
    exact hnd.2.2 hmem (by simp)
  rw [hX] at hc
  have hcell : s.mem[r]? = some (some ⟨vr, none⟩) := by
    have := (seg_append.mp hc).2.1
    simpa [hd] using this
  have hrlt : r < s.mem.length := heap.lt_of_get hcell
  simp only [heap.alloc, hr]
  refine ⟨_, heap.set_next_of_get _ (heap.get_alloc_old _ hcell), ?_, ?_⟩
  · have h1 := seg_alloc (some (⟨w, none⟩ : node T)) hc
    have h2 := seg_snoc (t := s.mem.length) (w := w) h1 hrX (by omega)
      (heap.get_alloc_new s.mem _)
    have e : (s.first, v0) :: (L ++ [(s.mem.length, w)]) = X ++ [(r, vr)] ++ [(s.mem.length, w)] := by
      rw [← hX]; rfl
    rw [e]
    exact h2
  · have hfresh : s.mem.length ∉ s.first :: L.map Prod.fst := by
      intro hmem
      have := hlt _ (by simpa using hmem)
      omega
    have e : s.first :: (L ++ [(s.mem.length, w)]).map Prod.fst
        = (s.first :: L.map Prod.fst) ++ [s.mem.length] := by simp
    rw [e, List.nodup_append]
    refine ⟨hn, by simp, ?_⟩
    intro a ha hb
    simp only [List.mem_singleton] at hb
    subst hb
    exact hfresh ha

theorem ub_send_holds {s : unbounded_channel T} {v0 : Option T} {L : List (Nat × Option T)}
    {q : List T} {k : Nat} (h : s.holds v0 L q k false) (hk : 1 ≤ k) (v : T) :
    ∃ s1, s.send v = Run.done (⟨status.OK, none⟩, s1) ∧
      s1.holds v0 (L ++ [(s.mem.length, some v)]) (q ++ [v]) k false := by
  obtain ⟨mem1, e1, hc, hn⟩ := link_tail (some v) h.chain h.nodup
  have hl := (h.tail hk).2
  refine ⟨{ s with mem := mem1, last := s.mem.length, ready := s.ready.signal.1 }, ?_, ?_⟩
  · simp only [heap.alloc] at e1
    simp [send, h.opened, hl, e1, heap.alloc]
  · exact {
      chain := hc
      nodup := hn
      vals := by simp [h.vals, marks]
      opened := h.opened
      cnt := h.cnt
      tail := fun _ => ⟨rfl, by simp [last_addr_snoc, heap.alloc]⟩ }

theorem ub_connect_holds {s : unbounded_channel T} {v0 : Option T} {L : List (Nat × Option T)}
    {q : List T} {k : Nat} {m : Bool} (h : s.holds v0 L q k m) (hk : 1 ≤ k) :
    s.connect.holds v0 L q (k + 1) m where
  chain := h.chain
  nodup := h.nodup
  vals := h.vals
  opened := h.opened
  cnt := by simp [connect, h.cnt]
  tail := fun _ => h.tail hk

theorem ub_disconnect_holds {s : unbounded_channel T} {v0 : Option T} {L : List (Nat × Option T)}
    {q : List T} {k : Nat} (h : s.holds v0 L q (k + 1) false) :
    ∃ s1 L1, s.disconnect = Run.done s1 ∧ s1.holds v0 L1 q k (decide (k = 0)) := by
  by_cases hk : k = 0
  · subst hk
    obtain ⟨mem1, e1, hc, hn⟩ := link_tail (none : Option T) h.chain h.nodup
    have hl := (h.tail (by omega)).2
    have hcnt : s.count = 1 := by simpa using h.cnt
    refine ⟨{ s with count := s.count - 1, mem := mem1, ready := s.ready.signal.1 },
      L ++ [(s.mem.length, none)], ?_, ?_⟩
    · simp only [heap.alloc] at e1
      simp [disconnect, hcnt, hl, e1, heap.alloc]
    · exact {
        chain := hc
        nodup := hn
        vals := by simp [h.vals, marks]
        opened := h.opened
        cnt := by simp [hcnt]
        tail := fun hk => by omega }
  · have hcnt : s.count ≠ 1 := by
      rw [h.cnt]
      omega
    refine ⟨{ s with count := s.count - 1 }, L, by simp [disconnect, hcnt], ?_⟩
    exact {
      chain := h.chain
      nodup := h.nodup
      vals := by simpa [hk, marks] using h.vals
      opened := h.opened
      cnt := by simp [h.cnt]
      tail := fun _ => by simpa [hk] using (h.tail (by omega)).2 }

/-- Result built by `pop` from the payload of the node it advances to. -/
theorem ub_pop_step {s : unbounded_channel T} {v0 w : Option T} {p : Nat}
    {L : List (Nat × Option T)} (hc : seg s.mem ((s.first, v0) :: (p, w) :: L) none)
    (hn : (s.first :: p :: L.map Prod.fst).Nodup) :
    s.pop = Run.done (recv_result.of_payload w,
                      { s with mem := s.mem.set s.first none, first := p }) ∧
      seg (s.mem.set s.first none) ((p, w) :: L) none := by
  have h0 : s.mem[s.first]? = some (some ⟨v0, some p⟩) := hc.1
  have h1 : s.mem[p]? = some (some ⟨w, hd L none⟩) := hc.2.1
  have hnot : s.first ∉ ((p, w) :: L).map Prod.fst := by
    simpa using (List.nodup_cons.mp hn).1
  refine ⟨?_, seg_set _ hnot hc.2⟩
  simp [pop, heap.load_of_get h0, heap.load_of_get h1, heap.free_of_get h0]

theorem ub_await_ready {s : unbounded_channel T} {v0 : Option T} {p : Nat}
    (h0 : s.mem[s.first]? = some (some ⟨v0, some p⟩)) (n : Nat) :
    await (n + 1) s = Run.done s := by
  simp [await, heap.load_of_get h0]

theorem ub_await_empty {s : unbounded_channel T} {v0 : Option T}
    (h0 : s.mem[s.first]? = some (some ⟨v0, none⟩)) :
    await 2 s = Run.blocked := by
  cases hs : event.is_signaled s.ready._value with
  | false =>
    simp [await, heap.load_of_get h0, event.wait_unsignaled hs]
  | true =>
    have h2 := event.not_signaled_succ hs
    have h3 : (⟨(s.ready._value + 1) % 4294967296⟩ : event).wait = Run.blocked :=
      event.wait_unsignaled h2
    simp [await, heap.load_of_get h0, event.wait_signaled hs, h3]

theorem ub_receive_value {s : unbounded_channel T} {v0 : Option T} {L : List (Nat × Option T)}
    {q : List T} {k : Nat} {m : Bool} {x : T} (h : s.holds v0 L (x :: q) k m) :
    ∃ s1 v1 L1, s.receive = Run.done (recv_result.of_value x, s1) ∧
      s.try_receive = Run.done (recv_result.of_value x, s1) ∧ s1.holds v1 L1 q k m := by
  have hv := h.vals
  cases L with
  | nil => simp at hv
  | cons y L1 =>
    obtain ⟨p, w⟩ := y
    simp only [List.map_cons, List.cons_append, List.cons.injEq] at hv
    obtain ⟨hw, hv⟩ := hv
    subst hw
    have hc := h.chain
    obtain ⟨e, hc1⟩ := ub_pop_step hc (by simpa using h.nodup)
    refine ⟨{ s with mem := s.mem.set s.first none, first := p }, some x, L1, ?_, ?_, ?_⟩
    · simp [receive, ub_await_ready hc.1, e, recv_result.of_payload]
    · simp [try_receive, heap.load_of_get hc.1, e, recv_result.of_payload, hd]
    · exact {
        chain := hc1
        nodup := by
          have := h.nodup
          simp only [List.map_cons] at this
          exact (List.nodup_cons.mp this).2
        vals := hv
        opened := h.opened
        cnt := h.cnt
        tail := fun hk => by
          have := h.tail hk
          rw [last_addr_cons] at this
          exact this }

theorem ub_receive_marker {s : unbounded_channel T} {v0 : Option T} {L : List (Nat × Option T)}
    {k : Nat} (h : s.holds v0 L [] k true) :
    ∃ s1 v1, s.receive = Run.done (recv_result.of_status status.CLOSED, s1) ∧
      s.try_receive = Run.done (recv_result.of_status status.CLOSED, s1) ∧
      s1.holds v1 [] [] k false := by
  have hv := h.vals
  have hk0 : ¬ 1 ≤ k := fun hk => by simpa using (h.tail hk).1
  cases L with
  | nil => simp [marks] at hv
  | cons y L1 =>
    obtain ⟨p, w⟩ := y
    simp only [List.map_cons, List.map_nil, List.nil_append, marks, if_true,
      List.cons.injEq, List.map_eq_nil_iff] at hv
    obtain ⟨hw, hv⟩ := hv
    subst hw hv
    have hc := h.chain
    obtain ⟨e, hc1⟩ := ub_pop_step hc (by simpa using h.nodup)
    refine ⟨{ s with mem := s.mem.set s.first none, first := p }, none, ?_, ?_, ?_⟩
    · simp [receive, ub_await_ready hc.1, e, recv_result.of_payload]
    · simp [try_receive, heap.load_of_get hc.1, e, recv_result.of_payload, hd]
    · exact {
        chain := hc1
        nodup := by simp
        vals := by simp [marks]
        opened := h.opened
        cnt := h.cnt
        tail := fun hk => absurd hk hk0 }

theorem ub_receive_empty {s : unbounded_channel T} {v0 : Option T} {L : List (Nat × Option T)}
    {k : Nat} (h : s.holds v0 L [] k false) :
    s.receive = Run.blocked ∧
      s.try_receive = Run.done (recv_result.of_status status.WOULD_BLOCK, s) := by
  have hv := h.vals
  simp only [List.map_nil, marks, List.append_nil, List.map_eq_nil_iff] at hv
  simp at hv
  subst hv
  have h0 : s.mem[s.first]? = some (some ⟨v0, none⟩) := h.chain.1
  constructor
  · simp [receive, ub_await_empty h0]
  · simp [try_receive, heap.load_of_get h0]

theorem ub_try_receive_until_empty {s : unbounded_channel T} {v0 : Option T}
    {L : List (Nat × Option T)} {k : Nat} (h : s.holds v0 L [] k false) (tp now : Int) :
    (remaining_ms tp now ≤ 0 →
      ∃ s1, s.try_receive_until tp now = Run.done (recv_result.of_status status.TIMEOUT, s1) ∧
        s1.holds v0 L [] k false) ∧
    (0 < remaining_ms tp now → s.try_receive_until tp now = Run.blocked) := by
  have hv := h.vals
  simp only [List.map_nil, marks, List.append_nil] at hv
  simp at hv
  subst hv
  have h0 : s.mem[s.first]? = some (some ⟨v0, none⟩) := h.chain.1
  cases hs : event.is_signaled s.ready._value with
  | false =>
    constructor
    · intro hdt
      refine ⟨{ s with ready := s.ready }, ?_, h⟩
      simp [try_receive_until, await_until, heap.load_of_get h0,
        event.wait_until_unsignaled tp now hs, hdt]
    · intro hdt
      have : ¬ remaining_ms tp now ≤ 0 := by omega
      simp [try_receive_until, await_until, heap.load_of_get h0,
        event.wait_until_unsignaled tp now hs, this]
  | true =>
    have h2 := event.not_signaled_succ hs
    have h3 := event.wait_until_unsignaled (e := ⟨(s.ready._value + 1) % 4294967296⟩) tp now h2
    constructor
    · intro hdt
      refine ⟨{ s with ready := ⟨(s.ready._value + 1) % 4294967296⟩ }, ?_, ?_⟩
      · simp [try_receive_until, await_until, heap.load_of_get h0,
          event.wait_until_signaled tp now hs, h3, hdt]
      · exact { chain := h.chain, nodup := h.nodup, vals := h.vals, opened := h.opened,
                cnt := h.cnt, tail := h.tail }
    · intro hdt
      have : ¬ remaining_ms tp now ≤ 0 := by omega
      simp [try_receive_until, await_until, heap.load_of_get h0,
        event.wait_until_signaled tp now hs, h3, this]

end unbounded_channel

/-! ## Bounded transport -/

theorem hd_eq_head (l : List (Nat × Option T)) : hd l none = l.head?.map Prod.fst := by
  cases l <;> rfl

theorem getLast_cons_addr (x : Nat × Option T) (L : List (Nat × Option T)) :
    ((x :: L).getLast?).map Prod.fst = some (last_addr L x.1) := by
  rcases List.eq_nil_or_concat L with rfl | ⟨L1, b, rfl⟩
  · simp [last_addr]
  · have e1 : (x :: L1.concat b).getLast? = some b := by
      rw [List.concat_eq_append, ← List.cons_append, List.getLast?_concat]
    have e2 : (L1.concat b).getLast? = some b := by
      rw [List.concat_eq_append, List.getLast?_concat]
    unfold last_addr
    rw [e1, e2]
    rfl

theorem split_last {F : List (Nat × Option T)} {r : Nat}
    (h : F.getLast?.map Prod.fst = some r) : ∃ X vr, F = X ++ [(r, vr)] := by
  rcases List.eq_nil_or_concat F with rfl | ⟨L1, b, rfl⟩
  · simp at h
  · rw [List.concat_eq_append, List.getLast?_concat] at h
    simp only [Option.map_some', Option.some.injEq] at h
    refine ⟨L1, b.2, ?_⟩
    rw [List.concat_eq_append, ← h]

namespace bounded_channel

theorem init_free_spec (i : Nat) : ∀ (h : heap T) (p : Nat) (vp : Option T)
    (X G : List (Nat × Option T)),
    seg h (X ++ [(p, vp)]) none → ((X ++ [(p, vp)]).map Prod.fst).Nodup →
    seg h G none → (∀ a ∈ G.map Prod.fst, a ∉ (X ++ [(p, vp)]).map Prod.fst) →
    ∃ h1 F1, init_free i h p = Run.done (h1, last_addr F1 p) ∧
      seg h1 (X ++ [(p, vp)] ++ F1) none ∧
      ((X ++ [(p, vp)] ++ F1).map Prod.fst).Nodup ∧
      F1.length = i ∧ seg h1 G none ∧
      (∀ a ∈ F1.map Prod.fst, h.length ≤ a) := by
  induction i with
  | zero =>
    intro h p vp X G hs hn hg _
    exact ⟨h, [], rfl, by simpa using hs, by simpa using hn, rfl, hg, by simp⟩
  | succ i ih =>
    intro h p vp X G hs hn hg hd1
    have hcell : h[p]? = some (some ⟨vp, none⟩) := by
      have := (seg_append.mp hs).2.1
      simpa [hd] using this
    have hplt : p < h.length := heap.lt_of_get hcell
    have hpX : p ∉ X.map Prod.fst := by
      have hn1 : (X.map Prod.fst ++ [p]).Nodup := by simpa using hn
      rw [List.nodup_append] at hn1
      intro hmem
      exact hn1.2.2 hmem (by simp)
    have hlt := seg_lt hs
    have hgl := seg_lt hg
    have h2 := seg_snoc (t := h.length) (w := (none : Option T))
      (seg_alloc (some (⟨none, none⟩ : node T)) hs) hpX (by omega) (heap.get_alloc_new h _)
    have hn2 : ((X ++ [(p, vp)] ++ [(h.length, (none : Option T))]).map Prod.fst).Nodup := by
      rw [List.map_append, List.nodup_append]
      refine ⟨hn, by simp, ?_⟩
      intro a ha hb
      simp only [List.map_cons, List.map_nil, List.mem_singleton] at hb
      subst hb
      have := hlt _ ha
      omega
    have hpG : p ∉ G.map Prod.fst := by
      intro hmem
      exact hd1 p hmem (by simp)
    have hg2 : seg ((h ++ [some (⟨none, none⟩ : node T)]).set p (some ⟨vp, some h.length⟩)) G none :=
      seg_set _ hpG (seg_alloc _ hg)
    have hd2 : ∀ a ∈ G.map Prod.fst,
        a ∉ (X ++ [(p, vp)] ++ [(h.length, (none : Option T))]).map Prod.fst := by
      intro a ha hb
      rw [List.map_append, List.mem_append] at hb
      rcases hb with hb | hb
      · exact hd1 a ha hb
      · simp only [List.map_cons, List.map_nil, List.mem_singleton] at hb
        have := hgl a ha
        omega
    obtain ⟨h1, F2, e, hs1, hn1, hl1, hg1, hge⟩ :=
      ih _ h.length none (X ++ [(p, vp)]) G h2 hn2 hg2 hd2
    refine ⟨h1, (h.length, none) :: F2, ?_, ?_, ?_, by simp [hl1], hg1, ?_⟩
    · simp only [init_free, heap.alloc]
      rw [heap.set_next_of_get _ (heap.get_alloc_old _ hcell)]
      simp only [Run.done_bind]
      rw [e, last_addr_cons]
    · simpa using hs1
    · simpa using hn1
    · intro a ha
      simp only [List.map_cons, List.mem_cons] at ha
      rcases ha with rfl | ha
      · exact Nat.le_refl _
      · have := hge a ha
        simp at this
        omega

theorem bd_holds_new {c : Nat} (hc : c ≤ 4294967295) :
    ∃ (s : bounded_channel T) (F : List (Nat × Option T)),
      new c = Run.done s ∧ holds c s none [] F [] 1 false := by
  have hsem : (counting_semaphore.new (c : Int) : Run (counting_semaphore 4294967295))
      = Run.done ⟨⟨c, 0⟩⟩ := by
    have e : to_u32 (c : Int) = c := by
      unfold to_u32
      omega
    have h1 : (c : Int) ≤ 4294967295 := by omega
    simp [counting_semaphore.new, assert, counting_semaphore.max, e, h1]
  have hs0 : seg [some (⟨none, none⟩ : node T), some ⟨none, none⟩] ([] ++ [(1, none)]) none := by
    simp [seg, hd]
  have hg0 : seg [some (⟨none, none⟩ : node T), some ⟨none, none⟩] [(0, none)] none := by
    simp [seg, hd]
  obtain ⟨h1, F1, e, hs1, hn1, hl1, hg1, hge⟩ :=
    init_free_spec c [some (⟨none, none⟩ : node T), some ⟨none, none⟩] 1 none [] [(0, none)]
      hs0 (by simp) hg0 (by simp)
  refine ⟨{ mem := h1, first := 0, retired := last_addr F1 1, producer_sem := ⟨⟨c, 0⟩⟩,
            ready := event.new false, is_open := true, last := 0, available := some 1,
            count := 1 }, (1, none) :: F1, ?_, ?_⟩
  · simp only [new, heap.alloc, hsem, Run.done_bind]
    simp only [List.nil_append, List.length_nil, List.length_singleton]
    have e2 : init_free c ([some (⟨none, none⟩ : node T)] ++ [some ⟨none, none⟩]) (0 + 1)
        = Run.done (h1, last_addr F1 1) := e
    rw [e2]
    rfl
  · exact {
      chain := hg1
      free := by simpa using hs1
      ret := getLast_cons_addr _ _
      nodup := by
        simp only [List.map_nil, List.append_nil, List.nil_append, List.map_cons,
          List.cons_append] at hn1 ⊢
        rw [List.nodup_cons]
        refine ⟨?_, hn1⟩
        intro hmem
        simp only [List.mem_cons] at hmem
        rcases hmem with hmem | hmem
        · omega
        · have := hge 0 hmem
          simp at this
      vals := by simp [marks]
      opened := rfl
      cnt := rfl
      cap := hc
      tail := fun _ => ⟨rfl, rfl, rfl, by simp [hl1], by simp⟩ }

theorem new_fault {c : Nat} (hc : 4294967295 < c) :
    (new c : Run (bounded_channel T)) = Run.fault := by
  have h1 : ¬ ((c : Int) ≤ 4294967295) := by omega
  simp [new, counting_semaphore.new, assert, counting_semaphore.max, h1]

/-- Taking the first free node, filling it with `w` and linking it behind the tail,
as `push` and `disconnect` do. -/
theorem take_free {mem : heap T} {first n : Nat} {v0 vn : Option T}
    {L F2 : List (Nat × Option T)} (w : Option T)
    (hc : seg mem ((first, v0) :: L) none) (hf : seg mem ((n, vn) :: F2) none)
    (hn : ((first :: L.map Prod.fst) ++ (n :: F2.map Prod.fst)).Nodup) :
    ∃ mem2, heap.load mem n = Run.done ⟨vn, hd F2 none⟩ ∧
      (recycle mem n w).bind (fun mem1 => heap.set_next mem1 (last_addr L first) (some n))
        = Run.done mem2 ∧
      seg mem2 ((first, v0) :: (L ++ [(n, w)])) none ∧ seg mem2 F2 none := by
  obtain ⟨X, r, vr, hX, hr⟩ := full_split first v0 L
  have hcell_n : mem[n]? = some (some ⟨vn, hd F2 none⟩) := hf.1
  rw [List.nodup_append] at hn
  obtain ⟨hnL, hnF, hdis⟩ := hn
  have hmap : (X ++ [(r, vr)]).map Prod.fst = first :: L.map Prod.fst := by
    rw [← hX]; rfl
  have hnX : (X.map Prod.fst ++ [r]).Nodup := by
    rw [← hmap] at hnL
    simpa using hnL
  have hrX : r ∉ X.map Prod.fst := by
    rw [List.nodup_append] at hnX
    intro hmem
    exact hnX.2.2 hmem (by simp)
  have hr_live : r ∈ first :: L.map Prod.fst := by
    rw [← hmap]; simp
  have hn_notlive : n ∉ ((first, v0) :: L).map Prod.fst := by
    intro hmem
    exact hdis (by simpa using hmem) (by simp)
  have hnr : n ≠ r := by
    intro e
    subst e
    exact hdis hr_live (by simp)
  have hnF2 : n ∉ F2.map Prod.fst := (List.nodup_cons.mp hnF).1
  have hrF2 : r ∉ F2.map Prod.fst := by
    intro hmem
    exact hdis hr_live (by simp [hmem])
  rw [hX] at hc
  have hcell_r : mem[r]? = some (some ⟨vr, none⟩) := by
    have := (seg_append.mp hc).2.1
    simpa [hd] using this
  have hcell_r1 : (mem.set n (some ⟨w, none⟩))[r]? = some (some ⟨vr, none⟩) := by
    rw [heap.get_set_ne _ hnr]
    exact hcell_r
  refine ⟨(mem.set n (some ⟨w, none⟩)).set r (some ⟨vr, some n⟩), heap.load_of_get hcell_n,
    ?_, ?_, ?_⟩
  · rw [hr]
    simp only [recycle, heap.store_of_get _ hcell_n, Run.done_bind]
    exact heap.set_next_of_get _ hcell_r1
  · have hn_X : n ∉ (X ++ [(r, vr)]).map Prod.fst := by
      rw [← hX] at *
      exact hn_notlive
    have h1 : seg (mem.set n (some ⟨w, none⟩)) (X ++ [(r, vr)]) none := seg_set _ hn_X hc
    have h2 := seg_snoc (t := n) (w := w) h1 hrX hnr (heap.get_set_self hcell_n)
    have e : (first, v0) :: (L ++ [(n, w)]) = X ++ [(r, vr)] ++ [(n, w)] := by
      rw [← hX]; rfl
    rw [e]
    exact h2
  · exact seg_set _ hrF2 (seg_set _ hnF2 hf.2)

theorem bd_send_holds {c : Nat} {s : bounded_channel T} {v0 : Option T}
    {L F : List (Nat × Option T)} {q : List T} {k : Nat}
    (h : holds c s v0 L F q k false) (hk : 1 ≤ k) (hq : q.length < c) (v : T) :
    ∃ s1 L1 F1, s.send v = Run.done (⟨status.OK, none⟩, s1) ∧
      s.try_send v = Run.done (⟨status.OK, none⟩, s1) ∧
      holds c s1 v0 L1 F1 (q ++ [v]) k false := by
  obtain ⟨_, hlast, havail, hlen, hval⟩ := h.tail hk
  have hv0 : s.producer_sem._data.value ≠ 0 := by omega
  have hvle : s.producer_sem._data.value ≤ 4294967296 := by
    have := h.cap
    omega
  have hpred := counting_semaphore.add_value_pred hv0 hvle
  cases F with
  | nil => simp at hlen
  | cons y F2 =>
    obtain ⟨n, vn⟩ := y
    obtain ⟨mem2, e1, e2, hc2, hf2⟩ :=
      take_free (some v) h.chain h.free (by simpa using h.nodup)
    have hF2 : F2 ≠ [] := by
      intro e
      subst e
      simp at hlen
      omega
    have hav : s.available = some n := by simpa using havail
    simp only [recycle] at e2
    obtain ⟨mem1, e3, e4⟩ := Run.bind_eq_done e2
    rw [← hlast] at e4
    refine ⟨{ s with producer_sem := ⟨s.producer_sem._data.add (-1) 0⟩, mem := mem2,
                     available := hd F2 none, last := n, ready := s.ready.signal.1 },
      L ++ [(n, some v)], F2, ?_, ?_, ?_⟩
    · simp [send, h.opened, counting_semaphore.acquire_pos _ hv0, push, hav, e1, recycle,
        e3, e4]
    · simp [try_send, h.opened, counting_semaphore.try_acquire_pos _ hv0, push, hav, e1,
        recycle, e3, e4]
    · exact {
        chain := hc2
        free := hf2
        ret := by
          have := h.ret
          cases F2 with
          | nil => exact absurd rfl hF2
          | cons z F3 => simpa [List.getLast?_cons_cons] using this
        nodup := by
          have := h.nodup
          simpa using this
        vals := by simp [h.vals, marks]
        opened := h.opened
        cnt := h.cnt
        cap := h.cap
        tail := fun _ => by
          refine ⟨rfl, by simp [last_addr_snoc], hd_eq_head F2, ?_, ?_⟩
          · simp only [hpred]
            simp at hlen
            omega
          · simp only [hpred, List.length_append, List.length_singleton]
            omega }

theorem bd_send_full {c : Nat} {s : bounded_channel T} {v0 : Option T}
    {L F : List (Nat × Option T)} {q : List T} {k : Nat}
    (h : holds c s v0 L F q k false) (hk : 1 ≤ k) (hq : c ≤ q.length) (v : T) :
    s.send v = Run.blocked ∧
      s.try_send v = Run.done (⟨status.WOULD_BLOCK, some v⟩, s) ∧ q.length = c := by
  obtain ⟨_, _, _, _, hval⟩ := h.tail hk
  have hv0 : s.producer_sem._data.value = 0 := by omega
  refine ⟨?_, ?_, by omega⟩
  · simp [send, h.opened, counting_semaphore.acquire_zero _ hv0]
  · have ho := h.opened
    have e := counting_semaphore.try_acquire_zero _ hv0
    cases s
    simp only at ho e
    subst ho
    simp [try_send, e]

theorem bd_connect_holds {c : Nat} {s : bounded_channel T} {v0 : Option T}
    {L F : List (Nat × Option T)} {q : List T} {k : Nat} {m : Bool}
    (h : holds c s v0 L F q k m) (hk : 1 ≤ k) :
    holds c s.connect v0 L F q (k + 1) m where
  chain := h.chain
  free := h.free
  ret := h.ret
  nodup := h.nodup
  vals := h.vals
  opened := h.opened
  cnt := by simp [connect, h.cnt]
  cap := h.cap
  tail := fun _ => h.tail hk

theorem bd_pop_step {s : bounded_channel T} {v0 w : Option T} {p : Nat}
    {L F : List (Nat × Option T)}
    (hc : seg s.mem ((s.first, v0) :: (p, w) :: L) none) (hf : seg s.mem F none)
    (hret : F.getLast?.map Prod.fst = some s.retired)
    (hn : ((s.first :: p :: L.map Prod.fst) ++ F.map Prod.fst).Nodup) :
    ∃ mem2, s.pop = Run.done (recv_result.of_payload w,
        { s with mem := mem2, first := p, retired := s.first,
                 producer_sem := ⟨⟨(s.producer_sem._data.value + 1) % 4294967296,
                                   s.producer_sem._data.waiting⟩⟩ }) ∧
      seg mem2 ((p, w) :: L) none ∧ seg mem2 (F ++ [(s.first, v0)]) none := by
  obtain ⟨X, vr, hX⟩ := split_last hret
  subst hX
  have h0 : s.mem[s.first]? = some (some ⟨v0, some p⟩) := hc.1
  have h1 : s.mem[p]? = some (some ⟨w, hd L none⟩) := hc.2.1
  have hr : s.mem[s.retired]? = some (some ⟨vr, none⟩) := by
    have := (seg_append.mp hf).2.1
    simpa [hd] using this
  rw [List.nodup_append] at hn
  obtain ⟨hnL, hnF, hdis⟩ := hn
  have hr_free : s.retired ∈ (X ++ [(s.retired, vr)]).map Prod.fst := by simp
  have hfr : s.first ≠ s.retired := by
    intro e
    have hm : s.retired ∈ s.first :: p :: L.map Prod.fst := by
      rw [← e]; simp
    exact hdis hm hr_free
  have hpr : s.retired ≠ p := by
    intro e
    have hm : s.retired ∈ s.first :: p :: L.map Prod.fst := by
      rw [e]; simp
    exact hdis hm hr_free
  have hfp : s.first ≠ p := by
    intro e
    have := (List.nodup_cons.mp hnL).1
    exact this (by simp [e])
  have hrX : s.retired ∉ X.map Prod.fst := by
    have hnX : (X.map Prod.fst ++ [s.retired]).Nodup := by simpa using hnF
    rw [List.nodup_append] at hnX
    intro hmem
    exact hnX.2.2 hmem (by simp)
  have hf_notfree : s.first ∉ (X ++ [(s.retired, vr)]).map Prod.fst := fun hmem =>
    hdis (List.mem_cons_self _ _) hmem
  have hf_notlive : s.first ∉ ((p, w) :: L).map Prod.fst := by
    simpa using (List.nodup_cons.mp hnL).1
  have hr_notlive : s.retired ∉ ((p, w) :: L).map Prod.fst := by
    intro hmem
    exact hdis (List.mem_cons_of_mem _ (by simpa using hmem)) hr_free
  have hr1 : (s.mem.set s.first (some ⟨v0, none⟩))[s.retired]? = some (some ⟨vr, none⟩) := by
    rw [heap.get_set_ne _ hfr]
    exact hr
  have hp2 : ((s.mem.set s.first (some ⟨v0, none⟩)).set s.retired
      (some ⟨vr, some s.first⟩))[p]? = some (some ⟨w, hd L none⟩) := by
    rw [heap.get_set_ne _ hpr, heap.get_set_ne _ hfp]
    exact h1
  obtain ⟨wk, hrel⟩ := counting_semaphore.release_one s.producer_sem (le_refl _)
  refine ⟨(s.mem.set s.first (some ⟨v0, none⟩)).set s.retired (some ⟨vr, some s.first⟩),
    ?_, ?_, ?_⟩
  · simp [pop, heap.load_of_get h0, heap.set_next_of_get _ h0, heap.set_next_of_get _ hr1,
      hrel, heap.load_of_get hp2]
  · exact seg_set _ hr_notlive (seg_set _ hf_notlive hc.2)
  · exact seg_snoc (seg_set _ hf_notfree hf) hrX hfr (heap.get_set_self h0)

theorem bd_await_ready {s : bounded_channel T} {v0 : Option T} {p : Nat}
    (h0 : s.mem[s.first]? = some (some ⟨v0, some p⟩)) (n : Nat) :
    await (n + 1) s = Run.done s := by
  simp [await, heap.load_of_get h0]

theorem bd_await_empty {s : bounded_channel T} {v0 : Option T}
    (h0 : s.mem[s.first]? = some (some ⟨v0, none⟩)) :
    await 2 s = Run.blocked := by
  cases hs : event.is_signaled s.ready._value with
  | false =>
    simp [await, heap.load_of_get h0, event.wait_unsignaled hs]
  | true =>
    have h2 := event.not_signaled_succ hs
    have h3 : (⟨(s.ready._value + 1) % 4294967296⟩ : event).wait = Run.blocked :=
      event.wait_unsignaled h2
    simp [await, heap.load_of_get h0, event.wait_signaled hs, h3]

theorem nodup_rotate {a : Nat} {A B : List Nat} (h : ((a :: A) ++ B).Nodup) :
    (A ++ (B ++ [a])).Nodup := by
  have hp : (A ++ (B ++ [a])).Perm ((a :: A) ++ B) := by
    rw [← List.append_assoc]
    exact List.perm_append_singleton a (A ++ B)
  exact hp.nodup_iff.mpr h

theorem bd_receive_value {c : Nat} {s : bounded_channel T} {v0 : Option T}
    {L F : List (Nat × Option T)} {q : List T} {k : Nat} {m : Bool} {x : T}
    (h : holds c s v0 L F (x :: q) k m) :
    ∃ s1 v1 L1 F1, s.receive = Run.done (recv_result.of_value x, s1) ∧
      s.try_receive = Run.done (recv_result.of_value x, s1) ∧
      holds c s1 v1 L1 F1 q k m := by
  have hv := h.vals
  cases L with
  | nil => simp at hv
  | cons y L1 =>
    obtain ⟨p, w⟩ := y
    simp only [List.map_cons, List.cons_append, List.cons.injEq] at hv
    obtain ⟨hw, hv⟩ := hv
    subst hw
    have hc := h.chain
    obtain ⟨mem2, e, hc1, hf1⟩ := bd_pop_step hc h.free h.ret (by simpa using h.nodup)
    have hFne : F ≠ [] := by
      intro e0
      have := h.ret
      simp [e0] at this
    refine ⟨{ s with
        mem := mem2, first := p, retired := s.first,
        producer_sem := ⟨⟨(s.producer_sem._data.value + 1) % 4294967296,
          s.producer_sem._data.waiting⟩⟩ }, some x, L1, F ++ [(s.first, v0)], ?_, ?_, ?_⟩
    · simp only [receive, bd_await_ready hc.1, Run.done_bind, e]
      rfl
    · simp only [try_receive, heap.load_of_get hc.1, Run.done_bind, hd, e]
      rfl
    · exact {
        chain := hc1
        free := hf1
        ret := by simp
        nodup := by
          have := h.nodup
          simp only [List.map_cons, List.map_append, List.map_nil] at this ⊢
          exact nodup_rotate this
        vals := hv
        opened := h.opened
        cnt := h.cnt
        cap := h.cap
        tail := fun hk => by
          obtain ⟨hm, hlast, havail, hlen, hval⟩ := h.tail hk
          have hcap := h.cap
          simp only [List.length_cons] at hval
          have hmod : (s.producer_sem._data.value + 1) % 4294967296
              = s.producer_sem._data.value + 1 := by omega
          refine ⟨hm, ?_, ?_, ?_, ?_⟩
          · rw [last_addr_cons] at hlast
            exact hlast
          · cases F with
            | nil => exact absurd rfl hFne
            | cons z F2 => simpa using havail
          · simp only [List.length_append, List.length_singleton, hmod]
            omega
          · simp only [hmod]
            omega }

theorem bd_receive_marker {c : Nat} {s : bounded_channel T} {v0 : Option T}
    {L F : List (Nat × Option T)} {k : Nat} (h : holds c s v0 L F [] k true) :
    ∃ s1 v1 F1, s.receive = Run.done (recv_result.of_status status.CLOSED, s1) ∧
      s.try_receive = Run.done (recv_result.of_status status.CLOSED, s1) ∧
      holds c s1 v1 [] F1 [] k false := by
  have hv := h.vals
  have hk0 : ¬ 1 ≤ k := fun hk => by simpa using (h.tail hk).1
  cases L with
  | nil => simp [marks] at hv
  | cons y L1 =>
    obtain ⟨p, w⟩ := y
    simp only [List.map_cons, List.map_nil, List.nil_append, marks, if_true,
      List.cons.injEq, List.map_eq_nil_iff] at hv
    obtain ⟨hw, hv⟩ := hv
    subst hw hv
    have hc := h.chain
    obtain ⟨mem2, e, hc1, hf1⟩ := bd_pop_step hc h.free h.ret (by simpa using h.nodup)
    refine ⟨{ s with
        mem := mem2, first := p, retired := s.first,
        producer_sem := ⟨⟨(s.producer_sem._data.value + 1) % 4294967296,
          s.producer_sem._data.waiting⟩⟩ }, none, F ++ [(s.first, v0)], ?_, ?_, ?_⟩
    · simp only [receive, bd_await_ready hc.1, Run.done_bind, e]
      rfl
    · simp only [try_receive, heap.load_of_get hc.1, Run.done_bind, hd, e]
      rfl
    · exact {
        chain := hc1
        free := hf1
        ret := by simp
        nodup := by
          have := h.nodup
          simp only [List.map_cons, List.map_append, List.map_nil] at this ⊢
          exact nodup_rotate this
        vals := by simp [marks]
        opened := h.opened
        cnt := h.cnt
        cap := h.cap
        tail := fun hk => absurd hk hk0 }

theorem bd_receive_empty {c : Nat} {s : bounded_channel T} {v0 : Option T}
    {L F : List (Nat × Option T)} {k : Nat} (h : holds c s v0 L F [] k false) :
    s.receive = Run.blocked ∧
      s.try_receive = Run.done (recv_result.of_status status.WOULD_BLOCK, s) := by
  have hv := h.vals
  simp only [List.map_nil, marks, List.append_nil] at hv
  simp at hv
  subst hv
  have h0 : s.mem[s.first]? = some (some ⟨v0, none⟩) := h.chain.1
  constructor
  · simp [receive, bd_await_empty h0]
  · simp [try_receive, heap.load_of_get h0]

theorem bd_try_receive_until_empty {c : Nat} {s : bounded_channel T} {v0 : Option T}
    {L F : List (Nat × Option T)} {k : Nat} (h : holds c s v0 L F [] k false)
    (tp now : Int) :
    (remaining_ms tp now ≤ 0 →
      ∃ s1, s.try_receive_until tp now = Run.done (recv_result.of_status status.TIMEOUT, s1) ∧
        holds c s1 v0 L F [] k false) ∧
    (0 < remaining_ms tp now → s.try_receive_until tp now = Run.blocked) := by
  have hv := h.vals
  simp only [List.map_nil, marks, List.append_nil] at hv
  simp at hv
  subst hv
  have h0 : s.mem[s.first]? = some (some ⟨v0, none⟩) := h.chain.1
  cases hs : event.is_signaled s.ready._value with
  | false =>
    constructor
    · intro hdt
      refine ⟨{ s with ready := s.ready }, ?_, h⟩
      simp [try_receive_until, await_until, heap.load_of_get h0,
        event.wait_until_unsignaled tp now hs, hdt]
    · intro hdt
      have : ¬ remaining_ms tp now ≤ 0 := by omega
      simp [try_receive_until, await_until, heap.load_of_get h0,
        event.wait_until_unsignaled tp now hs, this]
  | true =>
    have h2 := event.not_signaled_succ hs
    have h3 := event.wait_until_unsignaled (e := ⟨(s.ready._value + 1) % 4294967296⟩) tp now h2
    constructor
    · intro hdt
      refine ⟨{ s with ready := ⟨(s.ready._value + 1) % 4294967296⟩ }, ?_, ?_⟩
      · simp [try_receive_until, await_until, heap.load_of_get h0,
          event.wait_until_signaled tp now hs, h3, hdt]
      · exact { chain := h.chain, free := h.free, ret := h.ret, nodup := h.nodup,
                vals := h.vals, opened := h.opened, cnt := h.cnt, cap := h.cap,
                tail := h.tail }
    · intro hdt
      have : ¬ remaining_ms tp now ≤ 0 := by omega
      simp [try_receive_until, await_until, heap.load_of_get h0,
        event.wait_until_signaled tp now hs, h3, this]

/-- Allocating a node and linking it behind the tail, as `disconnect` does when no
free node is at hand. -/
theorem link_fresh {mem : heap T} {first : Nat} {v0 : Option T}
    {L F : List (Nat × Option T)} (w : Option T)
    (hc : seg mem ((first, v0) :: L) none) (hf : seg mem F none)
    (hn : ((first :: L.map Prod.fst) ++ F.map Prod.fst).Nodup) :
    ∃ mem1, heap.set_next (mem ++ [some ⟨w, none⟩]) (last_addr L first) (some mem.length)
        = Run.done mem1 ∧
      seg mem1 ((first, v0) :: (L ++ [(mem.length, w)])) none ∧ seg mem1 F none ∧
      ((first :: (L ++ [(mem.length, w)]).map Prod.fst) ++ F.map Prod.fst).Nodup := by
  obtain ⟨X, r, vr, hX, hr⟩ := full_split first v0 L
  have hlt := seg_lt hc
  have hflt := seg_lt hf
  have hn0 := hn
  rw [List.nodup_append] at hn
  obtain ⟨hnL, hnF, hdis⟩ := hn
  have hmap : (X ++ [(r, vr)]).map Prod.fst = first :: L.map Prod.fst := by
    rw [← hX]; rfl
  have hnX : (X.map Prod.fst ++ [r]).Nodup := by
    rw [← hmap] at hnL
    simpa using hnL
  have hrX : r ∉ X.map Prod.fst := by
    rw [List.nodup_append] at hnX
    intro hmem
    exact hnX.2.2 hmem (by simp)
  have hr_live : r ∈ first :: L.map Prod.fst := by
    rw [← hmap]; simp
  have hrF : r ∉ F.map Prod.fst := fun hmem => hdis hr_live hmem
  rw [hX] at hc
  have hcell : mem[r]? = some (some ⟨vr, none⟩) := by
    have := (seg_append.mp hc).2.1
    simpa [hd] using this
  have hrlt : r < mem.length := heap.lt_of_get hcell
  rw [hr]
  refine ⟨_, heap.set_next_of_get _ (heap.get_alloc_old _ hcell), ?_, ?_, ?_⟩
  · have h1 := seg_alloc (some (⟨w, none⟩ : node T)) hc
    have h2 := seg_snoc (t := mem.length) (w := w) h1 hrX (by omega)
      (heap.get_alloc_new mem _)
    have e : (first, v0) :: (L ++ [(mem.length, w)]) = X ++ [(r, vr)] ++ [(mem.length, w)] := by
      rw [← hX]; rfl
    rw [e]
    exact h2
  · exact seg_set _ hrF (seg_alloc _ hf)
  · have e : (first :: (L ++ [(mem.length, w)]).map Prod.fst) ++ F.map Prod.fst
        = (first :: L.map Prod.fst) ++ (mem.length :: F.map Prod.fst) := by simp
    rw [e]
    have hp : ((first :: L.map Prod.fst) ++ (mem.length :: F.map Prod.fst)).Perm
        (mem.length :: ((first :: L.map Prod.fst) ++ F.map Prod.fst)) := List.perm_middle
    rw [hp.nodup_iff, List.nodup_cons]
    refine ⟨?_, hn0⟩
    intro hmem
    rw [List.mem_append] at hmem
    rcases hmem with hmem | hmem
    · have := hlt mem.length (by simpa using hmem)
      omega
    · have := hflt mem.length hmem
      omega

theorem bd_disconnect_holds {c : Nat} {s : bounded_channel T} {v0 : Option T}
    {L F : List (Nat × Option T)} {q : List T} {k : Nat}
    (h : holds c s v0 L F q (k + 1) false) :
    ∃ s1 L1 F1, s.disconnect = Run.done s1 ∧ holds c s1 v0 L1 F1 q k (decide (k = 0)) := by
  by_cases hk : k = 0
  · subst hk
    obtain ⟨_, hlast, havail, hlen, hval⟩ := h.tail (by omega)
    have hcnt : s.count = 1 := by simpa using h.cnt
    by_cases hv0 : s.producer_sem._data.value = 0
    · obtain ⟨mem1, e1, hc1, hf1, hn1⟩ := link_fresh (none : Option T) h.chain h.free h.nodup
      rw [← hlast] at e1
      refine ⟨{ s with count := s.count - 1, mem := mem1, ready := s.ready.signal.1 },
        L ++ [(s.mem.length, none)], F, ?_, ?_⟩
      · simp [disconnect, hcnt, counting_semaphore.try_acquire_zero _ hv0, heap.alloc, e1]
      · exact {
          chain := hc1
          free := hf1
          ret := h.ret
          nodup := hn1
          vals := by simp [h.vals, marks]
          opened := h.opened
          cnt := by simp [hcnt]
          cap := h.cap
          tail := fun hk => by omega }
    · cases F with
      | nil => simp at hlen
      | cons y F2 =>
        obtain ⟨n, vn⟩ := y
        obtain ⟨mem2, e1, e2, hc2, hf2⟩ :=
          take_free (none : Option T) h.chain h.free (by simpa using h.nodup)
        have hF2 : F2 ≠ [] := by
          intro e
          subst e
          simp at hlen
          omega
        have hav : s.available = some n := by simpa using havail
        obtain ⟨mem1, e3, e4⟩ := Run.bind_eq_done e2
        rw [← hlast] at e4
        refine ⟨{ s with
                  count := s.count - 1, producer_sem := ⟨s.producer_sem._data.add (-1) 0⟩,
                  mem := mem2, available := hd F2 none, ready := s.ready.signal.1 },
          L ++ [(n, none)], F2, ?_, ?_⟩
        · simp [disconnect, hcnt, counting_semaphore.try_acquire_pos _ hv0, hav, e1, e3, e4]
        · exact {
            chain := hc2
            free := hf2
            ret := by
              have := h.ret
              cases F2 with
              | nil => exact absurd rfl hF2
              | cons z F3 => simpa [List.getLast?_cons_cons] using this
            nodup := by
              have := h.nodup
              simpa using this
            vals := by simp [h.vals, marks]
            opened := h.opened
            cnt := by simp [hcnt]
            cap := h.cap
            tail := fun hk => by omega }
  · have hcnt : s.count ≠ 1 := by
      rw [h.cnt]
      omega
    refine ⟨{ s with count := s.count - 1 }, L, F, by simp [disconnect, hcnt], ?_⟩
    exact {
      chain := h.chain
      free := h.free
      ret := h.ret
      nodup := h.nodup
      vals := by simpa [hk, marks] using h.vals
      opened := h.opened
      cnt := by simp [h.cnt]
      cap := h.cap
      tail := fun _ => by simpa [hk] using (h.tail (by omega)).2 }

end bounded_channel

/-! ## The two linked transports behind one interface -/

namespace transport

theorem holds_marker {tx : transport T} {cap : Option Nat} {q : List T} {k : Nat}
    (h : tx.holds cap q k true) : k = 0 := by
  by_contra hk
  have hk1 : 1 ≤ k := by omega
  cases tx with
  | unbounded s =>
    obtain ⟨_, v0, L, hh⟩ := h
    simpa using (hh.tail hk1).1
  | bounded s =>
    obtain ⟨c, v0, L, F, _, hh⟩ := h
    simpa using (hh.tail hk1).1
  | rendezvous s => exact h

theorem holds_length_le {tx : transport T} {c : Nat} {q : List T} {k : Nat} {m : Bool}
    (h : tx.holds (some c) q k m) (hk : 1 ≤ k) : q.length ≤ c := by
  cases tx with
  | unbounded s =>
    obtain ⟨hc, _⟩ := h
    simp at hc
  | bounded s =>
    obtain ⟨c1, v0, L, F, hc, hh⟩ := h
    simp only [Option.some.injEq] at hc
    subst hc
    have := (hh.tail hk).2.2.2.2
    omega
  | rendezvous s => exact h.elim

theorem send_ok {tx : transport T} {cap : Option Nat} {q : List T} {k : Nat}
    (h : tx.holds cap q k false) (hk : 1 ≤ k) (hroom : ∀ c, cap = some c → q.length < c)
    (v : T) :
    ∃ tx1, tx.send v = Run.done (⟨status.OK, none⟩, tx1) ∧
      tx.try_send v = Run.done (⟨status.OK, none⟩, tx1) ∧ tx1.holds cap (q ++ [v]) k false := by
  cases tx with
  | unbounded s =>
    obtain ⟨hc, v0, L, hh⟩ := h
    obtain ⟨s1, e, h1⟩ := unbounded_channel.ub_send_holds hh hk v
    exact ⟨.unbounded s1, by simp [send, e], by simp [try_send, unbounded_channel.try_send, e],
      hc, v0, _, h1⟩
  | bounded s =>
    obtain ⟨c, v0, L, F, hc, hh⟩ := h
    obtain ⟨s1, L1, F1, e1, e2, h1⟩ := bounded_channel.bd_send_holds hh hk (hroom c hc) v
    exact ⟨.bounded s1, by simp [send, e1], by simp [try_send, e2], c, v0, L1, F1, hc, h1⟩
  | rendezvous s => exact h.elim

theorem tx_send_full {tx : transport T} {c : Nat} {q : List T} {k : Nat}
    (h : tx.holds (some c) q k false) (hk : 1 ≤ k) (hfull : c ≤ q.length) (v : T) :
    tx.send v = Run.blocked ∧ tx.try_send v = Run.done (⟨status.WOULD_BLOCK, some v⟩, tx) := by
  cases tx with
  | unbounded s =>
    obtain ⟨hc, _⟩ := h
    simp at hc
  | bounded s =>
    obtain ⟨c1, v0, L, F, hc, hh⟩ := h
    simp only [Option.some.injEq] at hc
    subst hc
    obtain ⟨e1, e2, _⟩ := bounded_channel.bd_send_full hh hk hfull v
    exact ⟨by simp [send, e1], by simp [try_send, e2]⟩
  | rendezvous s => exact h.elim

theorem tx_receive_value {tx : transport T} {cap : Option Nat} {q : List T} {k : Nat} {m : Bool}
    {x : T} (h : tx.holds cap (x :: q) k m) :
    ∃ tx1, tx.receive = Run.done (recv_result.of_value x, tx1) ∧
      tx.try_receive = Run.done (recv_result.of_value x, tx1) ∧ tx1.holds cap q k m := by
  cases tx with
  | unbounded s =>
    obtain ⟨hc, v0, L, hh⟩ := h
    obtain ⟨s1, v1, L1, e1, e2, h1⟩ := unbounded_channel.ub_receive_value hh
    exact ⟨.unbounded s1, by simp [receive, e1], by simp [try_receive, e2], hc, v1, L1, h1⟩
  | bounded s =>
    obtain ⟨c, v0, L, F, hc, hh⟩ := h
    obtain ⟨s1, v1, L1, F1, e1, e2, h1⟩ := bounded_channel.bd_receive_value hh
    exact ⟨.bounded s1, by simp [receive, e1], by simp [try_receive, e2], c, v1, L1, F1, hc, h1⟩
  | rendezvous s => exact h.elim

theorem tx_receive_marker {tx : transport T} {cap : Option Nat} {k : Nat}
    (h : tx.holds cap [] k true) :
    ∃ tx1, tx.receive = Run.done (recv_result.of_status status.CLOSED, tx1) ∧
      tx.try_receive = Run.done (recv_result.of_status status.CLOSED, tx1) ∧
      tx1.holds cap [] k false := by
  cases tx with
  | unbounded s =>
    obtain ⟨hc, v0, L, hh⟩ := h
    obtain ⟨s1, v1, e1, e2, h1⟩ := unbounded_channel.ub_receive_marker hh
    exact ⟨.unbounded s1, by simp [receive, e1], by simp [try_receive, e2], hc, v1, [], h1⟩
  | bounded s =>
    obtain ⟨c, v0, L, F, hc, hh⟩ := h
    obtain ⟨s1, v1, F1, e1, e2, h1⟩ := bounded_channel.bd_receive_marker hh
    exact ⟨.bounded s1, by simp [receive, e1], by simp [try_receive, e2], c, v1, [], F1, hc, h1⟩
  | rendezvous s => exact h.elim

theorem tx_receive_empty {tx : transport T} {cap : Option Nat} {k : Nat}
    (h : tx.holds cap [] k false) :
    tx.receive = Run.blocked ∧
      tx.try_receive = Run.done (recv_result.of_status status.WOULD_BLOCK, tx) := by
  cases tx with
  | unbounded s =>
    obtain ⟨hc, v0, L, hh⟩ := h
    obtain ⟨e1, e2⟩ := unbounded_channel.ub_receive_empty hh
    exact ⟨by simp [receive, e1], by simp [try_receive, e2]⟩
  | bounded s =>
    obtain ⟨c, v0, L, F, hc, hh⟩ := h
    obtain ⟨e1, e2⟩ := bounded_channel.bd_receive_empty hh
    exact ⟨by simp [receive, e1], by simp [try_receive, e2]⟩
  | rendezvous s => exact h.elim

theorem tx_try_receive_until_empty {tx : transport T} {cap : Option Nat} {k : Nat}
    (h : tx.holds cap [] k false) (tp now : Int) :
    (remaining_ms tp now ≤ 0 →
      ∃ tx1, tx.try_receive_until tp now
          = Run.done (recv_result.of_status status.TIMEOUT, tx1) ∧ tx1.holds cap [] k false) ∧
    (0 < remaining_ms tp now → tx.try_receive_until tp now = Run.blocked) := by
  cases tx with
  | unbounded s =>
    obtain ⟨hc, v0, L, hh⟩ := h
    obtain ⟨h1, h2⟩ := unbounded_channel.ub_try_receive_until_empty hh tp now
    refine ⟨fun hdt => ?_, fun hdt => by simp [try_receive_until, h2 hdt]⟩
    obtain ⟨s1, e, hh1⟩ := h1 hdt
    exact ⟨.unbounded s1, by simp [try_receive_until, e], hc, v0, L, hh1⟩
  | bounded s =>
    obtain ⟨c, v0, L, F, hc, hh⟩ := h
    obtain ⟨h1, h2⟩ := bounded_channel.bd_try_receive_until_empty hh tp now
    refine ⟨fun hdt => ?_, fun hdt => by simp [try_receive_until, h2 hdt]⟩
    obtain ⟨s1, e, hh1⟩ := h1 hdt
    exact ⟨.bounded s1, by simp [try_receive_until, e], c, v0, L, F, hc, hh1⟩
  | rendezvous s => exact h.elim

theorem tx_connect_holds {tx : transport T} {cap : Option Nat} {q : List T} {k : Nat} {m : Bool}
    (h : tx.holds cap q k m) (hk : 1 ≤ k) : tx.connect.holds cap q (k + 1) m := by
  cases tx with
  | unbounded s =>
    obtain ⟨hc, v0, L, hh⟩ := h
    exact ⟨hc, v0, L, unbounded_channel.ub_connect_holds hh hk⟩
  | bounded s =>
    obtain ⟨c, v0, L, F, hc, hh⟩ := h
    exact ⟨c, v0, L, F, hc, bounded_channel.bd_connect_holds hh hk⟩
  | rendezvous s => exact h.elim

theorem tx_disconnect_holds {tx : transport T} {cap : Option Nat} {q : List T} {k : Nat}
    (h : tx.holds cap q (k + 1) false) :
    ∃ tx1, tx.disconnect = Run.done tx1 ∧ tx1.holds cap q k (decide (k = 0)) := by
  cases tx with
  | unbounded s =>
    obtain ⟨hc, v0, L, hh⟩ := h
    obtain ⟨s1, L1, e, h1⟩ := unbounded_channel.ub_disconnect_holds hh
    exact ⟨.unbounded s1, by simp [disconnect, e], hc, v0, L1, h1⟩
  | bounded s =>
    obtain ⟨c, v0, L, F, hc, hh⟩ := h
    obtain ⟨s1, L1, F1, e, h1⟩ := bounded_channel.bd_disconnect_holds hh
    exact ⟨.bounded s1, by simp [disconnect, e], c, v0, L1, F1, hc, h1⟩
  | rendezvous s => exact h.elim

end transport

end detail

/-! ## No member function of a transport runs out of iterations -/

namespace detail

theorem heap.load_ne_nofuel (h : heap T) (p : Nat) : heap.load h p ≠ Run.nofuel := by
  unfold heap.load
  split <;> simp

theorem heap.set_next_ne_nofuel (h : heap T) (p : Nat) (q : Option Nat) :
    heap.set_next h p q ≠ Run.nofuel :=
  Run.bind_ne_nofuel (heap.load_ne_nofuel h p) (fun _ => by simp)

theorem heap.store_ne_nofuel (h : heap T) (p : Nat) (n : node T) :
    heap.store h p n ≠ Run.nofuel :=
  Run.bind_ne_nofuel (heap.load_ne_nofuel h p) (fun _ => by simp)

theorem heap.free_ne_nofuel (h : heap T) (p : Nat) : heap.free h p ≠ Run.nofuel :=
  Run.bind_ne_nofuel (heap.load_ne_nofuel h p) (fun _ => by simp)

theorem release_ne_nofuel {lmv : Int} (s : counting_semaphore lmv) (u : Int) :
    s.release u ≠ Run.nofuel := by
  unfold counting_semaphore.release
  split
  · simp
  · refine Run.bind_ne_nofuel (by unfold assert; split <;> simp) (fun _ => ?_)
    refine Run.bind_ne_nofuel (by unfold assert; split <;> simp) (fun _ => ?_)
    split <;> simp

theorem unlock_ne_nofuel (m : mutex) : m.unlock ≠ Run.nofuel := by
  unfold mutex.unlock binary_semaphore.release
  apply Run.map_ne_nofuel
  split
  · simp
  · exact Run.bind_ne_nofuel (by unfold assert; split <;> simp) (fun _ => by simp)

theorem lock_ne_nofuel (m : mutex) : m.lock ≠ Run.nofuel := by
  unfold mutex.lock
  apply Run.map_ne_nofuel
  rw [binary_semaphore.bin_acquire_cases]
  split <;> simp

theorem try_lock_until_ne_nofuel (m : mutex) (t now : Int) :
    m.try_lock_until t now ≠ Run.nofuel := by
  unfold mutex.try_lock_until
  apply Run.map_ne_nofuel
  rw [binary_semaphore.bin_try_acquire_until_eq]
  split <;> simp

theorem ub_pop_ne_nofuel (s : unbounded_channel T) : s.pop ≠ Run.nofuel := by
  unfold unbounded_channel.pop
  refine Run.bind_ne_nofuel (heap.load_ne_nofuel _ _) (fun t => ?_)
  split
  · simp
  · refine Run.bind_ne_nofuel (heap.load_ne_nofuel _ _) (fun _ => ?_)
    exact Run.bind_ne_nofuel (heap.free_ne_nofuel _ _) (fun _ => by simp)

theorem ub_await_ne_nofuel (s : unbounded_channel T) :
    unbounded_channel.await 2 s ≠ Run.nofuel := by
  simp only [unbounded_channel.await]
  refine Run.bind_ne_nofuel (heap.load_ne_nofuel _ _) (fun h => ?_)
  split
  · simp
  · rw [event.wait_cases]
    split
    · rename_i hs
      simp only [Run.done_bind]
      refine Run.bind_ne_nofuel (heap.load_ne_nofuel _ _) (fun h2 => ?_)
      split
      · simp
      · have h3 : (⟨(s.ready._value + 1) % 4294967296⟩ : event).wait = Run.blocked :=
          event.wait_unsignaled (event.not_signaled_succ hs)
        simp only [h3, Run.blocked_bind]
        simp
    · simp

theorem ub_await_until_ne_nofuel (s : unbounded_channel T) (tp now : Int) :
    unbounded_channel.await_until 2 s tp now ≠ Run.nofuel := by
  simp only [unbounded_channel.await_until]
  refine Run.bind_ne_nofuel (heap.load_ne_nofuel _ _) (fun h => ?_)
  split
  · simp
  · cases hs : event.is_signaled s.ready._value with
    | false =>
      rw [event.wait_until_unsignaled tp now hs]
      split <;> simp
    | true =>
      rw [event.wait_until_signaled tp now hs]
      simp only [Run.done_bind, Bool.not_true, Bool.false_eq_true, if_false]
      refine Run.bind_ne_nofuel (heap.load_ne_nofuel _ _) (fun h2 => ?_)
      split
      · simp
      · rw [event.wait_until_unsignaled tp now (event.not_signaled_succ hs)]
        split <;> simp

theorem bd_pop_ne_nofuel (s : bounded_channel T) : s.pop ≠ Run.nofuel := by
  unfold bounded_channel.pop
  refine Run.bind_ne_nofuel (heap.load_ne_nofuel _ _) (fun t => ?_)
  split
  · simp
  · refine Run.bind_ne_nofuel (heap.set_next_ne_nofuel _ _ _) (fun _ => ?_)
    refine Run.bind_ne_nofuel (heap.set_next_ne_nofuel _ _ _) (fun _ => ?_)
    refine Run.bind_ne_nofuel (release_ne_nofuel _ _) (fun _ => ?_)
    exact Run.bind_ne_nofuel (heap.load_ne_nofuel _ _) (fun _ => by simp)

theorem bd_push_ne_nofuel (s : bounded_channel T) (v : T) : s.push v ≠ Run.nofuel := by
  unfold bounded_channel.push
  split
  · simp
  · refine Run.bind_ne_nofuel (heap.load_ne_nofuel _ _) (fun _ => ?_)
    refine Run.bind_ne_nofuel (heap.store_ne_nofuel _ _ _) (fun _ => ?_)
    exact Run.bind_ne_nofuel (heap.set_next_ne_nofuel _ _ _) (fun _ => by simp)

theorem bd_await_ne_nofuel (s : bounded_channel T) :
    bounded_channel.await 2 s ≠ Run.nofuel := by
  simp only [bounded_channel.await]
  refine Run.bind_ne_nofuel (heap.load_ne_nofuel _ _) (fun h => ?_)
  split
  · simp
  · rw [event.wait_cases]
    split
    · rename_i hs
      simp only [Run.done_bind]
      refine Run.bind_ne_nofuel (heap.load_ne_nofuel _ _) (fun h2 => ?_)
      split
      · simp
      · have h3 : (⟨(s.ready._value + 1) % 4294967296⟩ : event).wait = Run.blocked :=
          event.wait_unsignaled (event.not_signaled_succ hs)
        simp only [h3, Run.blocked_bind]
        simp
    · simp

theorem bd_await_until_ne_nofuel (s : bounded_channel T) (tp now : Int) :
    bounded_channel.await_until 2 s tp now ≠ Run.nofuel := by
  simp only [bounded_channel.await_until]
  refine Run.bind_ne_nofuel (heap.load_ne_nofuel _ _) (fun h => ?_)
  split
  · simp
  · cases hs : event.is_signaled s.ready._value with
    | false =>
      rw [event.wait_until_unsignaled tp now hs]
      split <;> simp
    | true =>
      rw [event.wait_until_signaled tp now hs]
      simp only [Run.done_bind, Bool.not_true, Bool.false_eq_true, if_false]
      refine Run.bind_ne_nofuel (heap.load_ne_nofuel _ _) (fun h2 => ?_)
      split
      · simp
      · rw [event.wait_until_unsignaled tp now (event.not_signaled_succ hs)]
        split <;> simp

theorem rv_take_ne_nofuel (s : rendezvous_channel T) : s.take ≠ Run.nofuel := by
  unfold rendezvous_channel.take
  split
  · simp
  · exact Run.bind_ne_nofuel (unlock_ne_nofuel _) (fun _ => by simp)

theorem rv_hand_over_ne_nofuel (s : rendezvous_channel T) (v : T) :
    s.hand_over v ≠ Run.nofuel := by
  unfold rendezvous_channel.hand_over
  refine Run.bind_ne_nofuel (unlock_ne_nofuel _) (fun _ => ?_)
  refine Run.bind_ne_nofuel (event.wait_ne_nofuel _) (fun _ => ?_)
  exact Run.bind_ne_nofuel (unlock_ne_nofuel _) (fun _ => by simp)

/-- In every state, no send or receive call of a transport, and neither `disconnect`
nor `close`, runs out of iterations: each returns, parks or faults. -/
theorem transport.never_out_of_fuel (tx : transport T) (v : T) (tp now : Int) :
    tx.send v ≠ Run.nofuel ∧ tx.try_send v ≠ Run.nofuel ∧
    tx.try_send_until v tp now ≠ Run.nofuel ∧ tx.receive ≠ Run.nofuel ∧
    tx.try_receive ≠ Run.nofuel ∧ tx.try_receive_until tp now ≠ Run.nofuel ∧
    tx.disconnect ≠ Run.nofuel ∧ tx.close ≠ Run.nofuel := by
  cases tx with
  | unbounded s =>
    have hsend : s.send v ≠ Run.nofuel := by
      unfold unbounded_channel.send
      split
      · simp
      · exact Run.bind_ne_nofuel (heap.set_next_ne_nofuel _ _ _) (fun _ => by simp)
    refine ⟨Run.map_ne_nofuel hsend, Run.map_ne_nofuel hsend, Run.map_ne_nofuel hsend,
      Run.map_ne_nofuel ?_, Run.map_ne_nofuel ?_, Run.map_ne_nofuel ?_,
      Run.map_ne_nofuel ?_, by simp [transport.close]⟩
    · exact Run.bind_ne_nofuel (ub_await_ne_nofuel s) (fun _ => ub_pop_ne_nofuel _)
    · unfold unbounded_channel.try_receive
      refine Run.bind_ne_nofuel (heap.load_ne_nofuel _ _) (fun _ => ?_)
      split
      · exact ub_pop_ne_nofuel _
      · simp
    · unfold unbounded_channel.try_receive_until
      refine Run.bind_ne_nofuel (ub_await_until_ne_nofuel s tp now) (fun r => ?_)
      split
      · exact ub_pop_ne_nofuel _
      · simp
    · unfold unbounded_channel.disconnect
      simp only
      split
      · exact Run.bind_ne_nofuel (heap.set_next_ne_nofuel _ _ _) (fun _ => by simp)
      · simp
  | bounded s =>
    refine ⟨Run.map_ne_nofuel ?_, Run.map_ne_nofuel ?_, Run.map_ne_nofuel ?_,
      Run.map_ne_nofuel ?_, Run.map_ne_nofuel ?_, Run.map_ne_nofuel ?_,
      Run.map_ne_nofuel ?_, Run.map_ne_nofuel ?_⟩
    · unfold bounded_channel.send
      split
      · simp
      · rw [counting_semaphore.acquire_cases]
        split
        · exact bd_push_ne_nofuel _ _
        · simp
    · unfold bounded_channel.try_send
      split
      · simp
      · simp only
        split
        · simp
        · exact bd_push_ne_nofuel _ _
    · unfold bounded_channel.try_send_until
      split
      · simp
      · rw [counting_semaphore.try_acquire_until_eq]
        split
        · simp only [Run.done_bind]
          split
          · simp
          · exact bd_push_ne_nofuel _ _
        · simp only [Run.done_bind]
          split
          · simp
          · exact bd_push_ne_nofuel _ _
    · exact Run.bind_ne_nofuel (bd_await_ne_nofuel s) (fun _ => bd_pop_ne_nofuel _)
    · unfold bounded_channel.try_receive
      refine Run.bind_ne_nofuel (heap.load_ne_nofuel _ _) (fun _ => ?_)
      split
      · exact bd_pop_ne_nofuel _
      · simp
    · unfold bounded_channel.try_receive_until
      refine Run.bind_ne_nofuel (bd_await_until_ne_nofuel s tp now) (fun r => ?_)
      split
      · exact bd_pop_ne_nofuel _
      · simp
    · unfold bounded_channel.disconnect
      simp only
      split
      · split
        · split
          · simp
          · refine Run.bind_ne_nofuel (heap.load_ne_nofuel _ _) (fun _ => ?_)
            refine Run.bind_ne_nofuel (heap.store_ne_nofuel _ _ _) (fun _ => ?_)
            exact Run.bind_ne_nofuel (heap.set_next_ne_nofuel _ _ _) (fun _ => by simp)
        · exact Run.bind_ne_nofuel (heap.set_next_ne_nofuel _ _ _) (fun _ => by simp)
      · simp
    · unfold bounded_channel.close
      refine Run.bind_ne_nofuel (heap.load_ne_nofuel _ _) (fun _ => ?_)
      exact Run.bind_ne_nofuel (release_ne_nofuel _ _) (fun _ => by simp)
  | rendezvous s =>
    refine ⟨Run.map_ne_nofuel ?_, Run.map_ne_nofuel ?_, Run.map_ne_nofuel ?_,
      Run.map_ne_nofuel ?_,
      by simp [transport.try_receive, rendezvous_channel.try_receive],
      Run.map_ne_nofuel ?_, by simp [transport.disconnect], by simp [transport.close]⟩
    · unfold rendezvous_channel.send
      split
      · simp
      · refine Run.bind_ne_nofuel (lock_ne_nofuel _) (fun _ => ?_)
        exact Run.bind_ne_nofuel (lock_ne_nofuel _) (fun _ => rv_hand_over_ne_nofuel _ _)
    · unfold rendezvous_channel.try_send
      split <;> simp
    · unfold rendezvous_channel.try_send_until
      split
      · simp
      · refine Run.bind_ne_nofuel (try_lock_until_ne_nofuel _ _ _) (fun _ => ?_)
        split
        · simp
        · refine Run.bind_ne_nofuel (try_lock_until_ne_nofuel _ _ _) (fun _ => ?_)
          split
          · exact Run.bind_ne_nofuel (unlock_ne_nofuel _) (fun _ => by simp)
          · exact rv_hand_over_ne_nofuel _ _
    · unfold rendezvous_channel.receive
      refine Run.bind_ne_nofuel (unlock_ne_nofuel _) (fun _ => ?_)
      refine Run.bind_ne_nofuel (event.wait_ne_nofuel _) (fun _ => ?_)
      exact Run.bind_ne_nofuel (lock_ne_nofuel _) (fun _ => rv_take_ne_nofuel _)
    · unfold rendezvous_channel.try_receive_until
      refine Run.bind_ne_nofuel (unlock_ne_nofuel _) (fun _ => ?_)
      refine Run.bind_ne_nofuel (event.wait_until_ne_nofuel _ _ _) (fun _ => ?_)
      refine Run.bind_ne_nofuel (lock_ne_nofuel _) (fun _ => ?_)
      simp only
      split
      · simp
      · exact rv_take_ne_nofuel _

end detail

/-! ## Runs of the client -/

open detail

variable {T : Type}

theorem sent_values_append (l1 l2 : List (outcome T)) :
    sent_values (l1 ++ l2) = sent_values l1 ++ sent_values l2 := by
  induction l1 with
  | nil => rfl
  | cons x l ih =>
    cases x with
    | sent v r =>
      by_cases hr : r.result = status.OK
      · simp [sent_values, hr, ih]
      · simp [sent_values, hr, ih]
    | received r => simpa [sent_values] using ih
    | handle => simpa [sent_values] using ih

theorem received_values_append (l1 l2 : List (outcome T)) :
    received_values (l1 ++ l2) = received_values l1 ++ received_values l2 := by
  induction l1 with
  | nil => rfl
  | cons x l ih =>
    cases x with
    | sent v r => simpa [received_values] using ih
    | received r =>
      cases hv : r.value with
      | none => simp [received_values, hv, ih]
      | some v => simp [received_values, hv, ih]
    | handle => simpa [received_values] using ih

theorem pending_eq {l : List (outcome T)} {q : List T}
    (h : sent_values l = received_values l ++ q) : pending l = q := by
  simp [pending, h]

namespace client

theorem exec_append (a b : List (op T)) (c : client T) :
    exec (a ++ b) c = (exec a c).bind (exec b) := by
  induction a generalizing c with
  | nil => rfl
  | cons o os ih =>
    simp only [List.cons_append, exec]
    cases h : c.step o with
    | done c1 => simp [ih]
    | blocked => rfl
    | fault => rfl
    | nofuel => rfl

theorem step_inv {cap : Option Nat} {c c1 : client T} (h : c.inv cap) (o : op T)
    (e : c.step o = Run.done c1) : c1.inv cap := by
  obtain ⟨q, m, hh, hl⟩ := h
  cases o with
  | send v =>
    by_cases hs : c.senders = 0
    · simp [step, hs] at e
    have hk : 1 ≤ c.senders := by omega
    have hm : m = false := by
      cases m with
      | false => rfl
      | true => exact absurd (transport.holds_marker hh) hs
    subst hm
    by_cases hroom : ∀ n, cap = some n → q.length < n
    · obtain ⟨tx1, e1, _, h1⟩ := transport.send_ok hh hk hroom v
      simp only [step, hs, if_false, e1, Run.map_done, Run.done.injEq] at e
      subst e
      exact ⟨q ++ [v], false, h1, by simp [sent_values_append, received_values_append,
        sent_values, received_values, hl]⟩
    · push_neg at hroom
      obtain ⟨n, hn, hfull⟩ := hroom
      subst hn
      have := (transport.tx_send_full hh hk hfull v).1
      simp [step, hs, this] at e
  | try_send v =>
    by_cases hs : c.senders = 0
    · simp [step, hs] at e
    have hk : 1 ≤ c.senders := by omega
    have hm : m = false := by
      cases m with
      | false => rfl
      | true => exact absurd (transport.holds_marker hh) hs
    subst hm
    by_cases hroom : ∀ n, cap = some n → q.length < n
    · obtain ⟨tx1, _, e1, h1⟩ := transport.send_ok hh hk hroom v
      simp only [step, hs, if_false, e1, Run.map_done, Run.done.injEq] at e
      subst e
      exact ⟨q ++ [v], false, h1, by simp [sent_values_append, received_values_append,
        sent_values, received_values, hl]⟩
    · push_neg at hroom
      obtain ⟨n, hn, hfull⟩ := hroom
      subst hn
      have e1 := (transport.tx_send_full hh hk hfull v).2
      simp only [step, hs, if_false, e1, Run.map_done, Run.done.injEq] at e
      subst e
      exact ⟨q, false, hh, by simp [sent_values_append, received_values_append,
        sent_values, received_values, hl]⟩
  | receive =>
    cases q with
    | cons x q1 =>
      obtain ⟨tx1, e1, _, h1⟩ := transport.tx_receive_value hh
      simp only [step, e1, Run.map_done, Run.done.injEq] at e
      subst e
      exact ⟨q1, m, h1, by simp [sent_values_append, received_values_append,
        sent_values, received_values, hl, recv_result.of_value]⟩
    | nil =>
      cases m with
      | true =>
        obtain ⟨tx1, e1, _, h1⟩ := transport.tx_receive_marker hh
        simp only [step, e1, Run.map_done, Run.done.injEq] at e
        subst e
        exact ⟨[], false, h1, by simp [sent_values_append, received_values_append,
          sent_values, received_values, hl, recv_result.of_status]⟩
      | false =>
        have := (transport.tx_receive_empty hh).1
        simp [step, this] at e
  | try_receive =>
    cases q with
    | cons x q1 =>
      obtain ⟨tx1, _, e1, h1⟩ := transport.tx_receive_value hh
      simp only [step, e1, Run.map_done, Run.done.injEq] at e
      subst e
      exact ⟨q1, m, h1, by simp [sent_values_append, received_values_append,
        sent_values, received_values, hl, recv_result.of_value]⟩
    | nil =>
      cases m with
      | true =>
        obtain ⟨tx1, _, e1, h1⟩ := transport.tx_receive_marker hh
        simp only [step, e1, Run.map_done, Run.done.injEq] at e
        subst e
        exact ⟨[], false, h1, by simp [sent_values_append, received_values_append,
          sent_values, received_values, hl, recv_result.of_status]⟩
      | false =>
        have e1 := (transport.tx_receive_empty hh).2
        simp only [step, e1, Run.map_done, Run.done.injEq] at e
        subst e
        exact ⟨[], false, hh, by simp [sent_values_append, received_values_append,
          sent_values, received_values, hl, recv_result.of_status]⟩
  | clone =>
    by_cases hs : c.senders = 0
    · simp [step, hs] at e
    have hk : 1 ≤ c.senders := by omega
    simp only [step, hs, if_false, Run.done.injEq] at e
    subst e
    exact ⟨q, m, transport.tx_connect_holds hh hk, by
      simp [sent_values_append, received_values_append, sent_values, received_values, hl]⟩
  | drop =>
    by_cases hs : c.senders = 0
    · simp [step, hs] at e
    have hm : m = false := by
      cases m with
      | false => rfl
      | true => exact absurd (transport.holds_marker hh) hs
    subst hm
    obtain ⟨k, hk⟩ : ∃ k, c.senders = k + 1 := ⟨c.senders - 1, by omega⟩
    rw [hk] at hh
    obtain ⟨tx1, e1, h1⟩ := transport.tx_disconnect_holds hh
    simp only [step, hs, if_false, e1, Run.map_done, Run.done.injEq] at e
    subst e
    refine ⟨q, decide (k = 0), ?_, by
      simp [sent_values_append, received_values_append, sent_values, received_values, hl]⟩
    have : c.senders - 1 = k := by omega
    simpa [this] using h1

theorem exec_inv {cap : Option Nat} (os : List (op T)) {c c1 : client T} (h : c.inv cap)
    (e : exec os c = Run.done c1) : c1.inv cap := by
  induction os generalizing c with
  | nil =>
    simp only [exec, Run.done.injEq] at e
    subst e
    exact h
  | cons o os ih =>
    simp only [exec] at e
    obtain ⟨c2, e1, e2⟩ := Run.bind_eq_done e
    exact ih (step_inv h o e1) e2

theorem exec_drops {cap : Option Nat} (k : Nat) : ∀ (tx : transport T)
    (log : List (outcome T)) (q : List T), tx.holds cap q (k + 1) false →
    ∃ tx1, exec (List.replicate (k + 1) op.drop) ⟨tx, k + 1, log⟩
        = Run.done ⟨tx1, 0, log ++ List.replicate (k + 1) outcome.handle⟩ ∧
      tx1.holds cap q 0 true := by
  induction k with
  | zero =>
    intro tx log q h
    obtain ⟨tx1, e1, h1⟩ := transport.tx_disconnect_holds h
    exact ⟨tx1, by simp [exec, step, e1], by simpa using h1⟩
  | succ k ih =>
    intro tx log q h
    obtain ⟨tx1, e1, h1⟩ := transport.tx_disconnect_holds h
    have h2 : tx1.holds cap q (k + 1) false := by simpa using h1
    obtain ⟨tx2, e2, h3⟩ := ih tx1 (log ++ [outcome.handle]) q h2
    refine ⟨tx2, ?_, h3⟩
    rw [List.replicate_succ, exec]
    simp only [step, Nat.add_eq_zero, one_ne_zero, and_false, if_false, e1, Run.map_done,
      Run.done_bind, Nat.add_sub_cancel]
    rw [e2]
    simp [List.replicate_succ]

theorem exec_drain {cap : Option Nat} {k : Nat} {m : Bool} (q : List T) :
    ∀ (tx : transport T) (log : List (outcome T)), tx.holds cap q k m →
    ∃ tx1, exec (List.replicate q.length op.receive) ⟨tx, k, log⟩
        = Run.done ⟨tx1, k, log ++ q.map (fun v => outcome.received (recv_result.of_value v))⟩ ∧
      tx1.holds cap [] k m := by
  induction q with
  | nil =>
    intro tx log h
    exact ⟨tx, by simp [exec], h⟩
  | cons x q ih =>
    intro tx log h
    obtain ⟨tx1, e1, _, h1⟩ := transport.tx_receive_value h
    obtain ⟨tx2, e2, h2⟩ := ih tx1 (log ++ [outcome.received (recv_result.of_value x)]) h1
    refine ⟨tx2, ?_, h2⟩
    simp only [List.length_cons, List.replicate_succ, exec, step, e1, Run.map_done,
      Run.done_bind]
    rw [e2]
    simp

theorem exec_closed {cap : Option Nat} {k : Nat} {tx : transport T} (log : List (outcome T))
    (h : tx.holds cap [] k true) :
    ∃ tx1, exec [op.receive] ⟨tx, k, log⟩
        = Run.done ⟨tx1, k, log ++ [outcome.received (recv_result.of_status status.CLOSED)]⟩ ∧
      tx1.holds cap [] k false := by
  obtain ⟨tx1, e1, _, h1⟩ := transport.tx_receive_marker h
  exact ⟨tx1, by simp [exec, step, e1], h1⟩

theorem channel_holds {capacity : Int} {tx : transport T} {s : sender} {r : receiver}
    (hc : capacity = unbounded ∨ 1 ≤ capacity)
    (h : (channel capacity : Run (channel_result T)) = Run.done (.pair tx s r)) :
    tx.holds (if capacity = unbounded then none else some capacity.toNat) [] 1 false := by
  rcases hc with hc | hc
  · subst hc
    simp only [channel, if_true, Run.done.injEq, channel_result.pair.injEq] at h
    obtain ⟨h1, _, _⟩ := h
    subst h1
    exact ⟨by simp, none, [], unbounded_channel.ub_holds_new⟩
  · have h1 : capacity ≠ unbounded := by
      unfold unbounded
      omega
    have h2 : capacity ≠ 0 := by omega
    have h3 : 0 < capacity := by omega
    simp only [channel, h1, h2, h3, if_true, if_false] at h
    by_cases hmax : capacity.toNat ≤ 4294967295
    · obtain ⟨b, F, e, hh⟩ := bounded_channel.bd_holds_new (T := T) hmax
      rw [e] at h
      simp only [Run.map_done, Run.done.injEq, channel_result.pair.injEq] at h
      obtain ⟨h4, _, _⟩ := h
      subst h4
      exact ⟨capacity.toNat, none, [], F, by simp [h1], hh⟩
    · have e : (bounded_channel.new capacity.toNat : Run (bounded_channel T)) = Run.fault :=
        bounded_channel.new_fault (by omega)
      rw [e] at h
      simp at h

theorem run_inv {capacity : Int} {script : List (op T)} {c : client T}
    (hc : capacity = unbounded ∨ 1 ≤ capacity) (h : run capacity script = Run.done c) :
    c.inv (if capacity = unbounded then none else some capacity.toNat) := by
  unfold run at h
  obtain ⟨r, e1, e2⟩ := Run.bind_eq_done h
  cases r with
  | invalid_capacity => simp at e2
  | pair tx s r =>
    simp only at e2
    have h0 := channel_holds hc e1
    exact exec_inv script ⟨[], false, h0, by simp [start, sent_values, received_values]⟩ e2

theorem inv_live {cap : Option Nat} {c : client T} (h : c.inv cap) (hs : 1 ≤ c.senders) :
    c.tx.holds cap (pending c.log) c.senders false ∧
      sent_values c.log = received_values c.log ++ pending c.log := by
  obtain ⟨q, m, hh, hl⟩ := h
  have hm : m = false := by
    cases m with
    | false => rfl
    | true =>
      have := transport.holds_marker hh
      omega
  subst hm
  rw [pending_eq hl]
  exact ⟨hh, hl⟩

end client

/-! ## The factory -/

theorem bounded_new_length {c : Nat} {s : bounded_channel T} {v0 : Option T}
    {L F : List (Nat × Option T)} {q : List T} (h : bounded_channel.holds c s v0 L F q 1 false) :
    s.producer_sem._data.value + q.length = c ∧ F.length = s.producer_sem._data.value + 1 :=
  ⟨(h.tail (le_refl 1)).2.2.2.2, (h.tail (le_refl 1)).2.2.2.1⟩

/-- C1 fails as stated: the constructor of the bounded transport builds its
semaphore with `capacity` permits, and the semaphore asserts `desired <= max()`;
for the positive capacity `2^32` the call stops at that assertion and no channel is
built.  The largest capacity that builds one is `2^32 - 1`. -/
theorem channel_above_max :
    (0 : Int) < 4294967296 ∧
    (channel 4294967296 : Run (channel_result Nat)) = Run.fault ∧
    (bounded_channel.new 4294967296 : Run (bounded_channel Nat)) = Run.fault ∧
    (counting_semaphore.new 4294967296 : Run (counting_semaphore 4294967295)) = Run.fault ∧
    (counting_semaphore.new 4294967295 : Run (counting_semaphore 4294967295))
      = Run.done ⟨⟨4294967295, 0⟩⟩ := by
  refine ⟨by decide, ?_, bounded_channel.new_fault (by decide), by decide, by decide⟩
  have e : (bounded_channel.new (4294967296 : Int).toNat : Run (bounded_channel Nat))
      = Run.fault := bounded_channel.new_fault (by decide)
  have h1 : (4294967296 : Int) ≠ unbounded := by decide
  simp only [channel, h1, if_false]
  rw [if_neg (by decide), if_pos (by decide), e]
  rfl

/-- C1, amended: `channel<T>(capacity)` selects the transport by the capacity.  The
sentinel `unbounded` (-1) gives the unbounded transport and 0 the rendezvous
transport.  Every capacity from 1 to `counting_semaphore::max()` gives a bounded
transport of that capacity: open, one sender connected, the queue empty and
`capacity` permits on the producer semaphore.  A capacity above
`counting_semaphore::max()` stops at the assertion of the semaphore constructor.
Every capacity below -1 ends in `invalid_capacity` with no handle pair. -/
theorem channel_dispatch (capacity : Int) :
    (capacity = unbounded →
      (channel capacity : Run (channel_result T))
        = Run.done (.pair (.unbounded unbounded_channel.new) ⟨true⟩ ⟨true⟩)) ∧
    (capacity = 0 →
      (channel capacity : Run (channel_result T))
        = Run.done (.pair (.rendezvous
            { throttle := mutex.new, count := 1, is_open := true, item_lock := ⟨⟨0⟩⟩,
              item_ready := event.new false, item := none, can_leave := event.new false })
            ⟨true⟩ ⟨true⟩)) ∧
    (0 < capacity → capacity ≤ counting_semaphore.max →
      ∃ ch : bounded_channel T,
        (channel capacity : Run (channel_result T))
          = Run.done (.pair (.bounded ch) ⟨true⟩ ⟨true⟩) ∧
        ch.producer_sem._data = ⟨capacity.toNat, 0⟩ ∧ ch.is_open = true ∧ ch.count = 1 ∧
        (transport.bounded ch).holds (some capacity.toNat) [] 1 false) ∧
    (counting_semaphore.max < capacity →
      (channel capacity : Run (channel_result T)) = Run.fault) ∧
    (capacity < -1 →
      (channel capacity : Run (channel_result T)) = Run.done .invalid_capacity) := by
  refine ⟨?_, ?_, ?_, ?_, ?_⟩
  · intro h
    simp [channel, h]
  · intro h
    subst h
    simp [channel, unbounded, rendezvous_channel.new, mutex.new, mutex.lock,
      binary_semaphore.acquire, binary_semaphore.acquire_loop, cas]
  · intro h hmax
    have h1 : capacity ≠ unbounded := by
      unfold unbounded
      omega
    have h2 : capacity ≠ 0 := by omega
    have hc : capacity.toNat ≤ 4294967295 := by
      unfold counting_semaphore.max at hmax
      omega
    obtain ⟨s, F, e, hh⟩ := bounded_channel.bd_holds_new (T := T) hc
    refine ⟨s, by simp [channel, h1, h2, h, e], ?_, hh.opened, by simpa using hh.cnt,
      ⟨capacity.toNat, none, [], F, rfl, hh⟩⟩
    have hv := (bounded_new_length hh).1
    have hw : s.producer_sem._data.waiting = 0 := by
      unfold bounded_channel.new at e
      obtain ⟨sem, e1, e2⟩ := Run.bind_eq_done e
      obtain ⟨r, _, e3⟩ := Run.bind_eq_done e2
      simp only [Run.done.injEq] at e3
      subst e3
      unfold counting_semaphore.new at e1
      obtain ⟨_, _, e4⟩ := Run.bind_eq_done e1
      simp only [Run.done.injEq] at e4
      subst e4
      rfl
    cases hd : s.producer_sem._data with
    | mk value waiting =>
      rw [hd] at hv hw
      simp only [List.length_nil, Nat.add_zero] at hv hw
      rw [hv, hw]
  · intro h
    have h1 : capacity ≠ unbounded := by
      unfold unbounded counting_semaphore.max at *
      omega
    have h2 : capacity ≠ 0 := by
      unfold counting_semaphore.max at h
      omega
    have h3 : 0 < capacity := by
      unfold counting_semaphore.max at h
      omega
    have e : (bounded_channel.new capacity.toNat : Run (bounded_channel T)) = Run.fault :=
      bounded_channel.new_fault (by unfold counting_semaphore.max at h; omega)
    simp [channel, h1, h2, h3, e]
  · intro h
    have h1 : capacity ≠ unbounded := by
      unfold unbounded
      omega
    have h2 : capacity ≠ 0 := by omega
    have h3 : ¬ 0 < capacity := by omega
    simp [channel, h1, h2, h3]

/-- Witness for C1, amended: `channel<int>(4)` builds a bounded transport with four
permits, open, with one sender connected and nothing queued. -/
theorem channel_dispatch_witness :
    (0 : Int) < 4 ∧ (4 : Int) ≤ counting_semaphore.max ∧
    ∃ ch : bounded_channel Nat,
      (channel 4 : Run (channel_result Nat)) = Run.done (.pair (.bounded ch) ⟨true⟩ ⟨true⟩) ∧
      ch.producer_sem._data = ⟨(4 : Int).toNat, 0⟩ ∧ ch.is_open = true ∧ ch.count = 1 ∧
      (transport.bounded ch).holds (some (4 : Int).toNat) [] 1 false :=
  ⟨by decide, by decide, (channel_dispatch 4).2.2.1 (by decide) (by decide)⟩

/-! ## Order of delivery -/

theorem exec_sends {cap : Option Nat} {k : Nat} (hk : 1 ≤ k) (vs : List T) :
    ∀ (tx : transport T) (log : List (outcome T)) (q : List T), tx.holds cap q k false →
    (∀ n, cap = some n → q.length + vs.length ≤ n) →
    ∃ tx1, client.exec (vs.map op.send) ⟨tx, k, log⟩
        = Run.done ⟨tx1, k, log ++ vs.map (fun v => outcome.sent v ⟨status.OK, none⟩)⟩ ∧
      tx1.holds cap (q ++ vs) k false := by
  induction vs with
  | nil =>
    intro tx log q h _
    exact ⟨tx, by simp [client.exec], by simpa using h⟩
  | cons v vs ih =>
    intro tx log q h hroom
    have hroom1 : ∀ n, cap = some n → q.length < n := by
      intro n hn
      have := hroom n hn
      simp only [List.length_cons] at this
      omega
    obtain ⟨tx1, e1, _, h1⟩ := transport.send_ok h hk hroom1 v
    have hroom2 : ∀ n, cap = some n → (q ++ [v]).length + vs.length ≤ n := by
      intro n hn
      have := hroom n hn
      simp only [List.length_cons, List.length_append, List.length_nil] at this ⊢
      omega
    obtain ⟨tx2, e2, h2⟩ := ih tx1 (log ++ [outcome.sent v ⟨status.OK, none⟩]) (q ++ [v]) h1 hroom2
    refine ⟨tx2, ?_, by simpa using h2⟩
    have hk0 : k ≠ 0 := by omega
    simp only [List.map_cons, client.exec, client.step, hk0, if_false, e1, Run.map_done,
      Run.done_bind]
    rw [e2]
    simp

/-- C2: on a fresh unbounded channel, sending the values `vs` in order through the
one sender returns `OK` (with an empty payload) every time, and the `vs.length`
receives that follow return exactly these values, each with status `OK`, in the
order they were sent. -/
theorem unbounded_fifo (vs : List T) :
    ∃ tx, client.run unbounded (vs.map op.send ++ List.replicate vs.length op.receive)
      = Run.done ⟨tx, 1,
          vs.map (fun v => outcome.sent v ⟨status.OK, none⟩) ++
          vs.map (fun v => outcome.received ⟨some v, status.OK⟩)⟩ := by
  have h0 : (transport.unbounded (unbounded_channel.new : unbounded_channel T)).holds
      none [] 1 false := ⟨rfl, none, [], unbounded_channel.ub_holds_new⟩
  obtain ⟨tx1, e1, h1⟩ := exec_sends (le_refl 1) vs _ [] [] h0 (by simp)
  obtain ⟨tx2, e2, _⟩ := client.exec_drain vs tx1
    ([] ++ vs.map (fun v => outcome.sent v ⟨status.OK, none⟩)) (by simpa using h1)
  refine ⟨tx2, ?_⟩
  simp only [client.run, channel, if_true, Run.done_bind, client.exec_append, client.start,
    e1, e2]
  simp [recv_result.of_value]

/-- C3: on an unbounded channel and on a bounded channel of any capacity at least 1,
after any run in which values were sent through cloned senders and received in any
interleaving and a sender is still alive, dropping every sender and then receiving
returns every value still queued, in the order it was sent, and the receive after
the last of them returns `CLOSED` with no payload. -/
theorem drain_after_last_drop (capacity : Int) (script : List (op T)) (c : client T)
    (hcap : capacity = unbounded ∨ 1 ≤ capacity)
    (hrun : client.run capacity script = Run.done c) (hs : 1 ≤ c.senders) :
    sent_values c.log = received_values c.log ++ pending c.log ∧
    ∃ tx1, client.exec
        (List.replicate c.senders op.drop ++
          List.replicate (pending c.log).length op.receive ++ [op.receive]) c
      = Run.done ⟨tx1, 0,
          c.log ++ List.replicate c.senders outcome.handle ++
          (pending c.log).map (fun v => outcome.received ⟨some v, status.OK⟩) ++
          [outcome.received ⟨none, status.CLOSED⟩]⟩ := by
  obtain ⟨hh, hl⟩ := client.inv_live (client.run_inv hcap hrun) hs
  refine ⟨hl, ?_⟩
  obtain ⟨k, hk⟩ : ∃ k, c.senders = k + 1 := ⟨c.senders - 1, by omega⟩
  rw [hk] at hh
  obtain ⟨tx1, e1, h1⟩ := client.exec_drops k c.tx c.log (pending c.log) hh
  obtain ⟨tx2, e2, h2⟩ := client.exec_drain (pending c.log) tx1
    (c.log ++ List.replicate (k + 1) outcome.handle) h1
  obtain ⟨tx3, e3, _⟩ := client.exec_closed
    (c.log ++ List.replicate (k + 1) outcome.handle ++
      (pending c.log).map (fun v => outcome.received (recv_result.of_value v))) h2
  refine ⟨tx3, ?_⟩
  have ec : c = ⟨c.tx, k + 1, c.log⟩ := by
    cases c
    simp only [client.mk.injEq, true_and]
    exact ⟨hk, trivial⟩
  rw [hk, client.exec_append, client.exec_append]
  conv_lhs => rw [ec]
  rw [e1, Run.done_bind, e2, Run.done_bind, e3]
  rfl

/-- Witness for C3: the multiple-senders scenario of the test-suite, where the
bounded queue of capacity 2 is full when the senders are dropped, and a run in
which it is not. -/
theorem drain_after_last_drop_witness :
    ((2 : Int) = unbounded ∨ 1 ≤ (2 : Int)) ∧
    client.run 2 scenario_full = Run.done (client.final 2 scenario_full) ∧
    1 ≤ (client.final 2 scenario_full).senders ∧
    pending (client.final 2 scenario_full).log = [2, 5] ∧
    pending (client.final 2 scenario_room).log = [8] ∧
    (client.final 2 (scenario_full ++ [.drop, .drop, .receive, .receive, .receive])).log
      = [.handle, .sent 1 ⟨status.OK, none⟩, .sent 2 ⟨status.OK, none⟩,
          .sent 3 ⟨status.WOULD_BLOCK, some 3⟩, .sent 4 ⟨status.WOULD_BLOCK, some 4⟩,
          .received ⟨some 1, status.OK⟩, .sent 5 ⟨status.OK, none⟩, .handle, .handle,
          .received ⟨some 2, status.OK⟩, .received ⟨some 5, status.OK⟩,
          .received ⟨none, status.CLOSED⟩] ∧
    (sent_values (client.final 2 scenario_full).log
        = received_values (client.final 2 scenario_full).log
          ++ pending (client.final 2 scenario_full).log ∧
      ∃ tx1, client.exec
          (List.replicate (client.final 2 scenario_full).senders op.drop ++
            List.replicate (pending (client.final 2 scenario_full).log).length op.receive ++
            [op.receive]) (client.final 2 scenario_full)
        = Run.done ⟨tx1, 0,
            (client.final 2 scenario_full).log ++
            List.replicate (client.final 2 scenario_full).senders outcome.handle ++
            (pending (client.final 2 scenario_full).log).map
              (fun v => outcome.received ⟨some v, status.OK⟩) ++
            [outcome.received ⟨none, status.CLOSED⟩]⟩) ∧
    (sent_values (client.final 2 scenario_room).log
        = received_values (client.final 2 scenario_room).log
          ++ pending (client.final 2 scenario_room).log ∧
      ∃ tx1, client.exec
          (List.replicate (client.final 2 scenario_room).senders op.drop ++
            List.replicate (pending (client.final 2 scenario_room).log).length op.receive ++
            [op.receive]) (client.final 2 scenario_room)
        = Run.done ⟨tx1, 0,
            (client.final 2 scenario_room).log ++
            List.replicate (client.final 2 scenario_room).senders outcome.handle ++
            (pending (client.final 2 scenario_room).log).map
              (fun v => outcome.received ⟨some v, status.OK⟩) ++
            [outcome.received ⟨none, status.CLOSED⟩]⟩) :=
  ⟨Or.inr (by decide), by decide, by decide, by decide, by decide, by decide,
    drain_after_last_drop 2 scenario_full (client.final 2 scenario_full)
      (Or.inr (by decide)) (by decide) (by decide),
    drain_after_last_drop 2 scenario_room (client.final 2 scenario_room)
      (Or.inr (by decide)) (by decide) (by decide)⟩

/-! ## Capacity of the bounded channel -/

theorem run_append {capacity : Int} {script : List (op T)} {c : client T}
    (h : client.run capacity script = Run.done c) (more : List (op T)) :
    client.run capacity (script ++ more) = client.exec more c := by
  unfold client.run at h ⊢
  obtain ⟨r, e1, e2⟩ := Run.bind_eq_done h
  rw [e1] at h ⊢
  cases r with
  | invalid_capacity => simp at e2
  | pair tx s r =>
    simp only [Run.done_bind] at h ⊢
    rw [client.exec_append, h]
    rfl

theorem bounded_live {capacity : Int} {script : List (op T)} {c : client T}
    (hcap : 1 ≤ capacity) (hrun : client.run capacity script = Run.done c)
    (hs : 1 ≤ c.senders) :
    c.tx.holds (some capacity.toNat) (pending c.log) c.senders false ∧
      sent_values c.log = received_values c.log ++ pending c.log := by
  have h1 : capacity ≠ unbounded := by
    unfold unbounded
    omega
  have := client.inv_live (client.run_inv (Or.inr hcap) hrun) hs
  simpa [h1] using this

/-- C4: on a bounded channel of capacity `capacity ≥ 1` that is open and has a live
sender, after any single-threaded run of send, try_send and receive calls, the
number of queued items is at most the capacity; `try_send` returns `WOULD_BLOCK`
(handing the item back and changing nothing) if and only if exactly `capacity`
items are queued; with fewer queued it returns `OK` and the item joins the queue;
a successful receive takes exactly one item off the queue, and on a full queue it
makes room for exactly one more send. -/
theorem bounded_try_send_blocks_iff_full (capacity : Int) (script : List (op T))
    (c : client T) (hcap : 1 ≤ capacity) (hrun : client.run capacity script = Run.done c)
    (hs : 1 ≤ c.senders) (v w : T) :
    (pending c.log).length ≤ capacity.toNat ∧
    ((∃ r tx1, c.tx.try_send v = Run.done (r, tx1) ∧ r.result = status.WOULD_BLOCK) ↔
      (pending c.log).length = capacity.toNat) ∧
    ((pending c.log).length = capacity.toNat →
      c.tx.try_send v = Run.done (⟨status.WOULD_BLOCK, some v⟩, c.tx)) ∧
    ((pending c.log).length < capacity.toNat →
      ∃ c1, client.run capacity (script ++ [op.try_send v]) = Run.done c1 ∧
        c1.log = c.log ++ [outcome.sent v ⟨status.OK, none⟩] ∧
        pending c1.log = pending c.log ++ [v]) ∧
    (∀ x rest, pending c.log = x :: rest →
      ∃ c1, client.run capacity (script ++ [op.receive]) = Run.done c1 ∧
        c1.log = c.log ++ [outcome.received ⟨some x, status.OK⟩] ∧
        pending c1.log = rest) ∧
    ((pending c.log).length = capacity.toNat →
      ∃ x c1, client.run capacity (script ++ [op.receive, op.try_send v, op.try_send w])
          = Run.done c1 ∧
        c1.log = c.log ++ [outcome.received ⟨some x, status.OK⟩,
          outcome.sent v ⟨status.OK, none⟩, outcome.sent w ⟨status.WOULD_BLOCK, some w⟩]) := by
  obtain ⟨hh, hl⟩ := bounded_live hcap hrun hs
  have hle := transport.holds_length_le hh hs
  have hs0 : c.senders ≠ 0 := by omega
  have hfull : (pending c.log).length = capacity.toNat →
      c.tx.try_send v = Run.done (⟨status.WOULD_BLOCK, some v⟩, c.tx) := fun hq =>
    (transport.tx_send_full hh hs (by omega) v).2
  have hroom : (pending c.log).length < capacity.toNat →
      ∃ tx1, c.tx.try_send v = Run.done (⟨status.OK, none⟩, tx1) ∧
        tx1.holds (some capacity.toNat) (pending c.log ++ [v]) c.senders false := fun hq => by
    obtain ⟨tx1, _, e, h1⟩ := transport.send_ok hh hs
      (fun n hn => by simp only [Option.some.injEq] at hn; omega) v
    exact ⟨tx1, e, h1⟩
  refine ⟨hle, ⟨?_, ?_⟩, hfull, ?_, ?_, ?_⟩
  · rintro ⟨r, tx1, e, hr⟩
    by_contra hne
    obtain ⟨tx2, e2, _⟩ := hroom (by omega)
    rw [e2] at e
    simp only [Run.done.injEq, Prod.mk.injEq] at e
    rw [← e.1] at hr
    simp at hr
  · intro hq
    exact ⟨_, _, hfull hq, rfl⟩
  · intro hq
    obtain ⟨tx1, e, _⟩ := hroom hq
    refine ⟨⟨tx1, c.senders, c.log ++ [outcome.sent v ⟨status.OK, none⟩]⟩, ?_, rfl, ?_⟩
    · rw [run_append hrun]
      simp [client.exec, client.step, hs0, e]
    · apply pending_eq
      simp [sent_values_append, received_values_append, sent_values, received_values, hl]
  · intro x rest hq
    rw [hq] at hh
    obtain ⟨tx1, e, _, _⟩ := transport.tx_receive_value hh
    refine ⟨⟨tx1, c.senders, c.log ++ [outcome.received ⟨some x, status.OK⟩]⟩, ?_, rfl, ?_⟩
    · rw [run_append hrun]
      simp [client.exec, client.step, e, recv_result.of_value]
    · apply pending_eq
      simp [sent_values_append, received_values_append, sent_values, received_values, hl, hq]
  · intro hq
    cases hp : pending c.log with
    | nil =>
      rw [hp] at hq
      simp only [List.length_nil] at hq
      omega
    | cons x rest =>
      rw [hp] at hh hq
      simp only [List.length_cons] at hq
      obtain ⟨tx1, e1, _, h1⟩ := transport.tx_receive_value hh
      obtain ⟨tx2, _, e2, h2⟩ := transport.send_ok h1 hs
        (fun n hn => by simp only [Option.some.injEq] at hn; omega) v
      have e3 := (transport.tx_send_full h2 hs (by simp; omega) w).2
      refine ⟨x, ⟨tx2, c.senders, c.log ++ [outcome.received ⟨some x, status.OK⟩,
        outcome.sent v ⟨status.OK, none⟩, outcome.sent w ⟨status.WOULD_BLOCK, some w⟩]⟩, ?_, rfl⟩
      rw [run_append hrun]
      simp [client.exec, client.step, hs0, e1, e2, e3, recv_result.of_value]

/-- Witness for C4: the basic scenario of the test-suite on a channel of capacity 1
after `send(42)`, with the items 43 and 44. -/
theorem bounded_try_send_blocks_iff_full_witness :
    (1 : Int) ≤ 1 ∧
    client.run 1 [op.send 42] = Run.done (client.final 1 [op.send (42 : Nat)]) ∧
    1 ≤ (client.final 1 [op.send (42 : Nat)]).senders ∧
    (client.final 1 [op.send (42 : Nat)]).tx.try_send 43
      = Run.done (⟨status.WOULD_BLOCK, some 43⟩, (client.final 1 [op.send (42 : Nat)]).tx) :=
  ⟨le_refl _, by decide, by decide,
    (bounded_try_send_blocks_iff_full 1 [op.send (42 : Nat)] (client.final 1 [op.send 42])
      (le_refl _) (by decide) (by decide) 43 44).2.2.1 (by decide)⟩

/-! ## Sending on a closed channel, and the payload of a send result -/

theorem close_is_open {tx tx1 : transport T} (h : tx.close = Run.done tx1) :
    tx1.is_open = false := by
  cases tx with
  | unbounded s =>
    simp only [transport.close, Run.done.injEq] at h
    subst h
    rfl
  | bounded s =>
    simp only [transport.close] at h
    obtain ⟨b, e, hb⟩ := Run.map_eq_done h
    subst hb
    unfold bounded_channel.close at e
    obtain ⟨_, _, e⟩ := Run.bind_eq_done e
    obtain ⟨_, _, e⟩ := Run.bind_eq_done e
    simp only [Run.done.injEq] at e
    subst e
    rfl
  | rendezvous s =>
    simp only [transport.close, Run.done.injEq] at h
    subst h
    rfl

theorem send_closed {tx : transport T} (h : tx.is_open = false) (v : T) (tp now : Int) :
    tx.send v = Run.done (⟨status.CLOSED, some v⟩, tx) ∧
    tx.try_send v = Run.done (⟨status.CLOSED, some v⟩, tx) ∧
    tx.try_send_until v tp now = Run.done (⟨status.CLOSED, some v⟩, tx) := by
  cases tx with
  | unbounded s =>
    have h1 : s.is_open = false := h
    simp [transport.send, transport.try_send, transport.try_send_until,
      unbounded_channel.try_send, unbounded_channel.try_send_until, unbounded_channel.send, h1]
  | bounded s =>
    have h1 : s.is_open = false := h
    simp [transport.send, transport.try_send, transport.try_send_until,
      bounded_channel.try_send, bounded_channel.try_send_until, bounded_channel.send, h1]
  | rendezvous s =>
    have h1 : s.is_open = false := h
    simp [transport.send, transport.try_send, transport.try_send_until,
      rendezvous_channel.try_send, rendezvous_channel.try_send_until,
      rendezvous_channel.send, h1]

/-- C5: for each of the three transports, `close()` clears the open flag, and on a
transport whose open flag is clear (so after `close()` has been called) every
`send`, `try_send` and `try_send_until` of an item `v` returns `CLOSED` with `v`
in the result and leaves the whole transport state as it was: queue or slot,
producer semaphore and events included. -/
theorem send_after_close (tx tx1 : transport T) (h : tx.close = Run.done tx1) :
    tx1.is_open = false ∧
    ∀ tx2 : transport T, tx2.is_open = false → ∀ (v : T) (tp now : Int),
      tx2.send v = Run.done (⟨status.CLOSED, some v⟩, tx2) ∧
      tx2.try_send v = Run.done (⟨status.CLOSED, some v⟩, tx2) ∧
      tx2.try_send_until v tp now = Run.done (⟨status.CLOSED, some v⟩, tx2) :=
  ⟨close_is_open h, fun _ h2 v tp now => send_closed h2 v tp now⟩

/-- Witness for C5: the receiver-closes test on a fresh bounded channel of
capacity 1, `send(42)` after `close()`. -/
theorem send_after_close_witness :
    ((client.final 1 ([] : List (op Nat))).tx.close
        = Run.done ((client.final 1 ([] : List (op Nat))).tx.close.getD
            (client.final 1 ([] : List (op Nat))).tx)) ∧
    (((client.final 1 ([] : List (op Nat))).tx.close.getD
        (client.final 1 ([] : List (op Nat))).tx).send 42
      = Run.done (⟨status.CLOSED, some 42⟩,
          (client.final 1 ([] : List (op Nat))).tx.close.getD
            (client.final 1 ([] : List (op Nat))).tx)) :=
  ⟨by decide,
    ((send_after_close (client.final 1 ([] : List (op Nat))).tx
      ((client.final 1 ([] : List (op Nat))).tx.close.getD
        (client.final 1 ([] : List (op Nat))).tx) (by decide)).2 _
      (by decide) 42 0 0).1⟩

theorem push_result {s s1 : bounded_channel T} {v : T} {r : send_result T}
    (h : s.push v = Run.done (r, s1)) : r = ⟨status.OK, none⟩ := by
  unfold bounded_channel.push at h
  split at h
  · simp at h
  · obtain ⟨_, _, h⟩ := Run.bind_eq_done h
    obtain ⟨_, _, h⟩ := Run.bind_eq_done h
    obtain ⟨_, _, h⟩ := Run.bind_eq_done h
    simp only [Run.done.injEq, Prod.mk.injEq] at h
    exact h.1.symm

theorem hand_over_result {s s1 : rendezvous_channel T} {v : T} {r : send_result T}
    (h : s.hand_over v = Run.done (r, s1)) : r = ⟨status.OK, none⟩ := by
  unfold rendezvous_channel.hand_over at h
  obtain ⟨_, _, h⟩ := Run.bind_eq_done h
  obtain ⟨_, _, h⟩ := Run.bind_eq_done h
  obtain ⟨_, _, h⟩ := Run.bind_eq_done h
  simp only [Run.done.injEq, Prod.mk.injEq] at h
  exact h.1.symm

/-- The two shapes a send result can have for the item `v`. -/
theorem payload_cases {v : T} {r : send_result T}
    (h : r = ⟨status.OK, none⟩ ∨
      (r.item = some v ∧
        (r.result = status.WOULD_BLOCK ∨ r.result = status.TIMEOUT ∨ r.result = status.CLOSED))) :
    (r.item = none ↔ r.result = status.OK) ∧ (r.result ≠ status.OK → r.item = some v) := by
  rcases h with h | ⟨h1, h2⟩
  · subst h
    simp
  · rcases h2 with h2 | h2 | h2 <;> simp [h1, h2]

theorem unbounded_send_shape {s s1 : unbounded_channel T} {v : T} {r : send_result T}
    (h : s.send v = Run.done (r, s1)) :
    r = ⟨status.OK, none⟩ ∨
      (r.item = some v ∧
        (r.result = status.WOULD_BLOCK ∨ r.result = status.TIMEOUT ∨ r.result = status.CLOSED)) := by
  unfold unbounded_channel.send at h
  split at h
  · simp only [Run.done.injEq, Prod.mk.injEq] at h
    rw [← h.1]
    simp
  · obtain ⟨_, _, h⟩ := Run.bind_eq_done h
    simp only [Run.done.injEq, Prod.mk.injEq] at h
    exact Or.inl h.1.symm

theorem bounded_send_shape {s s1 : bounded_channel T} {v : T} {r : send_result T}
    (tp now : Int)
    (h : s.send v = Run.done (r, s1) ∨ s.try_send v = Run.done (r, s1) ∨
      s.try_send_until v tp now = Run.done (r, s1)) :
    r = ⟨status.OK, none⟩ ∨
      (r.item = some v ∧
        (r.result = status.WOULD_BLOCK ∨ r.result = status.TIMEOUT ∨ r.result = status.CLOSED)) := by
  rcases h with h | h | h
  · unfold bounded_channel.send at h
    split at h
    · simp only [Run.done.injEq, Prod.mk.injEq] at h
      rw [← h.1]
      simp
    · obtain ⟨_, _, h⟩ := Run.bind_eq_done h
      exact Or.inl (push_result h)
  · unfold bounded_channel.try_send at h
    split at h
    · simp only [Run.done.injEq, Prod.mk.injEq] at h
      rw [← h.1]
      simp
    · simp only at h
      split at h
      · simp only [Run.done.injEq, Prod.mk.injEq] at h
        rw [← h.1]
        simp
      · exact Or.inl (push_result h)
  · unfold bounded_channel.try_send_until at h
    split at h
    · simp only [Run.done.injEq, Prod.mk.injEq] at h
      rw [← h.1]
      simp
    · obtain ⟨_, _, h⟩ := Run.bind_eq_done h
      split at h
      · simp only [Run.done.injEq, Prod.mk.injEq] at h
        rw [← h.1]
        simp
      · exact Or.inl (push_result h)

theorem rendezvous_send_shape {s s1 : rendezvous_channel T} {v : T} {r : send_result T}
    (tp now : Int)
    (h : s.send v = Run.done (r, s1) ∨ s.try_send v = Run.done (r, s1) ∨
      s.try_send_until v tp now = Run.done (r, s1)) :
    r = ⟨status.OK, none⟩ ∨
      (r.item = some v ∧
        (r.result = status.WOULD_BLOCK ∨ r.result = status.TIMEOUT ∨ r.result = status.CLOSED)) := by
  rcases h with h | h | h
  · unfold rendezvous_channel.send at h
    split at h
    · simp only [Run.done.injEq, Prod.mk.injEq] at h
      rw [← h.1]
      simp
    · obtain ⟨_, _, h⟩ := Run.bind_eq_done h
      obtain ⟨_, _, h⟩ := Run.bind_eq_done h
      exact Or.inl (hand_over_result h)
  · unfold rendezvous_channel.try_send at h
    split at h
    · simp only [Run.done.injEq, Prod.mk.injEq] at h
      rw [← h.1]
      simp
    · simp only [Run.done.injEq, Prod.mk.injEq] at h
      rw [← h.1]
      simp
  · unfold rendezvous_channel.try_send_until at h
    split at h
    · simp only [Run.done.injEq, Prod.mk.injEq] at h
      rw [← h.1]
      simp
    · obtain ⟨_, _, h⟩ := Run.bind_eq_done h
      split at h
      · simp only [Run.done.injEq, Prod.mk.injEq] at h
        rw [← h.1]
        simp
      · obtain ⟨_, _, h⟩ := Run.bind_eq_done h
        split at h
        · obtain ⟨_, _, h⟩ := Run.bind_eq_done h
          simp only [Run.done.injEq, Prod.mk.injEq] at h
          rw [← h.1]
          simp
        · exact Or.inl (hand_over_result h)

/-- C6: for every move-send call (`send`, `try_send`, `try_send_until`) on any of
the three transports in any state, a result that is returned has an empty payload
exactly when its status is `OK`, and when the status is `WOULD_BLOCK`, `TIMEOUT` or
`CLOSED` the payload holds exactly the item that was passed in. -/
theorem send_result_payload (tx tx1 : transport T) (v : T) (tp now : Int) (r : send_result T)
    (h : tx.send v = Run.done (r, tx1) ∨ tx.try_send v = Run.done (r, tx1) ∨
      tx.try_send_until v tp now = Run.done (r, tx1)) :
    (r.item = none ↔ r.result = status.OK) ∧ (r.result ≠ status.OK → r.item = some v) := by
  apply payload_cases
  cases tx with
  | unbounded s =>
    have h1 : ∃ s1, s.send v = Run.done (r, s1) := by
      rcases h with h | h | h
      · obtain ⟨a, e, ha⟩ := Run.map_eq_done h
        simp only [Prod.mk.injEq] at ha
        exact ⟨a.2, by rw [e, ← ha.1]⟩
      · obtain ⟨a, e, ha⟩ := Run.map_eq_done h
        simp only [Prod.mk.injEq] at ha
        exact ⟨a.2, by rw [← ha.1]; exact e⟩
      · obtain ⟨a, e, ha⟩ := Run.map_eq_done h
        simp only [Prod.mk.injEq] at ha
        exact ⟨a.2, by rw [← ha.1]; exact e⟩
    obtain ⟨s1, e⟩ := h1
    exact unbounded_send_shape e
  | bounded s =>
    have h1 : ∃ s1, s.send v = Run.done (r, s1) ∨ s.try_send v = Run.done (r, s1) ∨
        s.try_send_until v tp now = Run.done (r, s1) := by
      rcases h with h | h | h
      · obtain ⟨a, e, ha⟩ := Run.map_eq_done h
        simp only [Prod.mk.injEq] at ha
        exact ⟨a.2, Or.inl (by rw [e, ← ha.1])⟩
      · obtain ⟨a, e, ha⟩ := Run.map_eq_done h
        simp only [Prod.mk.injEq] at ha
        exact ⟨a.2, Or.inr (Or.inl (by rw [e, ← ha.1]))⟩
      · obtain ⟨a, e, ha⟩ := Run.map_eq_done h
        simp only [Prod.mk.injEq] at ha
        exact ⟨a.2, Or.inr (Or.inr (by rw [e, ← ha.1]))⟩
    obtain ⟨s1, e⟩ := h1
    exact bounded_send_shape tp now e
  | rendezvous s =>
    have h1 : ∃ s1, s.send v = Run.done (r, s1) ∨ s.try_send v = Run.done (r, s1) ∨
        s.try_send_until v tp now = Run.done (r, s1) := by
      rcases h with h | h | h
      · obtain ⟨a, e, ha⟩ := Run.map_eq_done h
        simp only [Prod.mk.injEq] at ha
        exact ⟨a.2, Or.inl (by rw [e, ← ha.1])⟩
      · obtain ⟨a, e, ha⟩ := Run.map_eq_done h
        simp only [Prod.mk.injEq] at ha
        exact ⟨a.2, Or.inr (Or.inl (by rw [e, ← ha.1]))⟩
      · obtain ⟨a, e, ha⟩ := Run.map_eq_done h
        simp only [Prod.mk.injEq] at ha
        exact ⟨a.2, Or.inr (Or.inr (by rw [e, ← ha.1]))⟩
    obtain ⟨s1, e⟩ := h1
    exact rendezvous_send_shape tp now e

/-- Witness for C6: on a bounded channel of capacity 1 holding 42, `try_send(43)`
returns `WOULD_BLOCK` and the result carries 43 (the `should_fail` check of the
test-suite).  The other three statuses are returned as well: `TIMEOUT` with the
item by `try_send_until` on the same full channel, `OK` with an empty payload on
the fresh channel, `CLOSED` with the item by a rendezvous `try_send_until` after
`close()`. -/
theorem send_result_payload_witness :
    (client.final 1 [op.send (42 : Nat)]).tx.try_send 43
      = Run.done (⟨status.WOULD_BLOCK, some 43⟩, (client.final 1 [op.send (42 : Nat)]).tx) ∧
    (((⟨status.WOULD_BLOCK, some 43⟩ : send_result Nat).item = none ↔
        (⟨status.WOULD_BLOCK, some 43⟩ : send_result Nat).result = status.OK) ∧
      ((⟨status.WOULD_BLOCK, some 43⟩ : send_result Nat).result ≠ status.OK →
        (⟨status.WOULD_BLOCK, some 43⟩ : send_result Nat).item = some 43)) ∧
    ((client.final 1 [op.send (42 : Nat)]).tx.try_send_until 43 5000000 0).map Prod.fst
      = Run.done ⟨status.TIMEOUT, some 43⟩ ∧
    ((client.final 1 ([] : List (op Nat))).tx.try_send_until 43 5000000 0).map Prod.fst
      = Run.done ⟨status.OK, none⟩ ∧
    (((channel 0 : Run (channel_result Nat)).bind fun r =>
        match r with
        | .pair tx _ _ => tx.close.bind fun tx1 => tx1.try_send_until 43 5000000 0
        | .invalid_capacity => Run.fault).map Prod.fst)
      = Run.done ⟨status.CLOSED, some 43⟩ :=
  ⟨by decide,
    send_result_payload (client.final 1 [op.send (42 : Nat)]).tx
      (client.final 1 [op.send (42 : Nat)]).tx 43 0 0 ⟨status.WOULD_BLOCK, some 43⟩
      (Or.inr (Or.inl (by decide))),
    by decide, by decide, by decide⟩

/-! ## After the disconnect marker has been taken -/

theorem quiet_attempt {cap : Option Nat} {k : Nat} {tx tx1 : transport T} {a : attempt}
    {r : recv_result T} (h : tx.holds cap [] k false)
    (e : attempt.call tx a = Run.done (r, tx1)) :
    tx1.holds cap [] k false ∧ r.value = none ∧
      (r.result = status.WOULD_BLOCK ∨ r.result = status.TIMEOUT) := by
  cases a with
  | receive =>
    have := (transport.tx_receive_empty h).1
    simp only [attempt.call] at e
    rw [this] at e
    simp at e
  | try_receive =>
    have := (transport.tx_receive_empty h).2
    simp only [attempt.call] at e
    rw [this] at e
    simp only [Run.done.injEq, Prod.mk.injEq] at e
    obtain ⟨e1, e2⟩ := e
    subst e1 e2
    exact ⟨h, rfl, Or.inl rfl⟩
  | try_receive_until tp now =>
    obtain ⟨h1, h2⟩ := transport.tx_try_receive_until_empty h tp now
    simp only [attempt.call] at e
    by_cases hdt : remaining_ms tp now ≤ 0
    · obtain ⟨tx2, e2, hh⟩ := h1 hdt
      rw [e2] at e
      simp only [Run.done.injEq, Prod.mk.injEq] at e
      obtain ⟨e3, e4⟩ := e
      subst e3 e4
      exact ⟨hh, rfl, Or.inr rfl⟩
    · rw [h2 (by omega)] at e
      simp at e

theorem quiet_attempts {cap : Option Nat} {k : Nat} (as : List attempt) :
    ∀ (tx tx1 : transport T) (rs : List (recv_result T)), tx.holds cap [] k false →
    attempt.calls as tx = Run.done (rs, tx1) →
    ∀ r ∈ rs, r.value = none ∧ (r.result = status.WOULD_BLOCK ∨ r.result = status.TIMEOUT) := by
  induction as with
  | nil =>
    intro tx tx1 rs _ e
    simp only [attempt.calls, Run.done.injEq, Prod.mk.injEq] at e
    intro r hr
    rw [← e.1] at hr
    simp at hr
  | cons a as ih =>
    intro tx tx1 rs h e
    simp only [attempt.calls] at e
    obtain ⟨x, e1, e2⟩ := Run.bind_eq_done e
    obtain ⟨y, e3, e4⟩ := Run.map_eq_done e2
    have e1x : attempt.call tx a = Run.done (x.1, x.2) := e1
    obtain ⟨hh, hv⟩ := quiet_attempt h e1x
    simp only [Prod.mk.injEq] at e4
    intro r hr
    rw [← e4.1] at hr
    simp only [List.mem_cons] at hr
    rcases hr with hr | hr
    · rw [hr]
      exact hv
    · exact ih x.2 y.2 y.1 hh e3 r hr

theorem quiet_try_receives {cap : Option Nat} {k : Nat} {tx : transport T}
    (h : tx.holds cap [] k false) (n : Nat) :
    attempt.calls (List.replicate n attempt.try_receive) tx
      = Run.done (List.replicate n ⟨none, status.WOULD_BLOCK⟩, tx) := by
  induction n with
  | zero => rfl
  | succ n ih =>
    have := (transport.tx_receive_empty h).2
    simp [List.replicate_succ, attempt.calls, attempt.call, this, ih, recv_result.of_status]

/-- C7, as the code has it: on an unbounded or bounded channel, once every sender
has been dropped and the receiver has drained the queued values and observed
`CLOSED`, that `CLOSED` is not observed again.  The head then has no successor:
`receive` blocks, any number of `try_receive` calls return `WOULD_BLOCK` and leave
the transport unchanged, and every receive attempt of any kind that returns, in
any sequence of further attempts, carries no payload and has status `WOULD_BLOCK`
or `TIMEOUT`. -/
theorem closed_observed_once (capacity : Int) (script : List (op T)) (c : client T)
    (hcap : capacity = unbounded ∨ 1 ≤ capacity)
    (hrun : client.run capacity script = Run.done c) (hs : 1 ≤ c.senders) :
    ∃ c1, client.exec
        (List.replicate c.senders op.drop ++
          List.replicate (pending c.log).length op.receive ++ [op.receive]) c = Run.done c1 ∧
      c1.log.getLast? = some (outcome.received ⟨none, status.CLOSED⟩) ∧
      c1.tx.receive = Run.blocked ∧
      (∀ n, attempt.calls (List.replicate n attempt.try_receive) c1.tx
        = Run.done (List.replicate n ⟨none, status.WOULD_BLOCK⟩, c1.tx)) ∧
      (∀ (as : List attempt) (rs : List (recv_result T)) (tx2 : transport T),
        attempt.calls as c1.tx = Run.done (rs, tx2) →
        ∀ r ∈ rs, r.value = none ∧
          (r.result = status.WOULD_BLOCK ∨ r.result = status.TIMEOUT)) := by
  obtain ⟨hh, hl⟩ := client.inv_live (client.run_inv hcap hrun) hs
  obtain ⟨k, hk⟩ : ∃ k, c.senders = k + 1 := ⟨c.senders - 1, by omega⟩
  rw [hk] at hh
  obtain ⟨tx1, e1, h1⟩ := client.exec_drops k c.tx c.log (pending c.log) hh
  obtain ⟨tx2, e2, h2⟩ := client.exec_drain (pending c.log) tx1
    (c.log ++ List.replicate (k + 1) outcome.handle) h1
  obtain ⟨tx3, e3, h3⟩ := client.exec_closed
    (c.log ++ List.replicate (k + 1) outcome.handle ++
      (pending c.log).map (fun v => outcome.received (recv_result.of_value v))) h2
  have ec : c = ⟨c.tx, k + 1, c.log⟩ := by
    cases c
    simp only [client.mk.injEq, true_and]
    exact ⟨hk, trivial⟩
  refine ⟨⟨tx3, 0, c.log ++ List.replicate (k + 1) outcome.handle ++
      (pending c.log).map (fun v => outcome.received (recv_result.of_value v)) ++
      [outcome.received (recv_result.of_status status.CLOSED)]⟩, ?_, ?_,
    (transport.tx_receive_empty h3).1, quiet_try_receives h3,
    fun as rs tx4 e => quiet_attempts as tx3 tx4 rs h3 e⟩
  · rw [hk, client.exec_append, client.exec_append]
    conv_lhs => rw [ec]
    rw [e1, Run.done_bind, e2, Run.done_bind, e3]
  · simp [recv_result.of_status]

/-- Witness for C7 as amended: the one-sender-disconnect test on a bounded channel
of capacity 1, continued after the `CLOSED`. -/
theorem closed_observed_once_witness :
    ((1 : Int) = unbounded ∨ 1 ≤ (1 : Int)) ∧
    client.run 1 [op.send 5] = Run.done (client.final 1 [op.send (5 : Nat)]) ∧
    1 ≤ (client.final 1 [op.send (5 : Nat)]).senders ∧
    ∃ c1, client.exec
        (List.replicate (client.final 1 [op.send (5 : Nat)]).senders op.drop ++
          List.replicate (pending (client.final 1 [op.send (5 : Nat)]).log).length op.receive ++
          [op.receive]) (client.final 1 [op.send (5 : Nat)]) = Run.done c1 ∧
      c1.log.getLast? = some (outcome.received ⟨none, status.CLOSED⟩) ∧
      c1.tx.receive = Run.blocked ∧
      (∀ n, attempt.calls (List.replicate n attempt.try_receive) c1.tx
        = Run.done (List.replicate n ⟨none, status.WOULD_BLOCK⟩, c1.tx)) ∧
      (∀ (as : List attempt) (rs : List (recv_result Nat)) (tx2 : transport Nat),
        attempt.calls as c1.tx = Run.done (rs, tx2) →
        ∀ r ∈ rs, r.value = none ∧
          (r.result = status.WOULD_BLOCK ∨ r.result = status.TIMEOUT)) :=
  ⟨Or.inr (le_refl _), by decide, by decide,
    closed_observed_once 1 [op.send (5 : Nat)] (client.final 1 [op.send 5])
      (Or.inr (le_refl _)) (by decide) (by decide)⟩

/-- Counterexample to C7 as stated: on a fresh unbounded channel and on a fresh
bounded channel of capacity 1, the sender is dropped and the receiver observes
`CLOSED`; the next `try_receive` returns `WOULD_BLOCK`, a `try_receive_until`
whose deadline has passed returns `TIMEOUT`, and a further `receive` never
returns. -/
theorem closed_not_repeated :
    (client.final unbounded [op.drop, op.receive, op.try_receive] : client Nat).log
      = [outcome.handle, outcome.received ⟨none, status.CLOSED⟩,
          outcome.received ⟨none, status.WOULD_BLOCK⟩] ∧
    (client.final 1 [op.drop, op.receive, op.try_receive] : client Nat).log
      = [outcome.handle, outcome.received ⟨none, status.CLOSED⟩,
          outcome.received ⟨none, status.WOULD_BLOCK⟩] ∧
    (client.final unbounded [op.drop, op.receive] : client Nat).tx.receive = Run.blocked ∧
    (client.final 1 [op.drop, op.receive] : client Nat).tx.receive = Run.blocked ∧
    ((client.final unbounded [op.drop, op.receive] : client Nat).tx.try_receive_until 0 0).map
      Prod.fst = Run.done ⟨none, status.TIMEOUT⟩ ∧
    ((client.final 1 [op.drop, op.receive] : client Nat).tx.try_receive_until 0 0).map
      Prod.fst = Run.done ⟨none, status.TIMEOUT⟩ := by
  refine ⟨by decide, by decide, by decide, by decide, by decide, by decide⟩

/-! ## What `try_receive` finds behind the head -/

theorem linked_iff {tx : transport T} {cap : Option Nat} {q : List T} {k : Nat} {m : Bool}
    (h : tx.holds cap q k m) : tx.linked = true ↔ (q ≠ [] ∨ m = true) := by
  have key : ∀ (L : List (Nat × Option T)), L.map Prod.snd = q.map some ++ marks m →
      ((hd L none).isSome = true ↔ (q ≠ [] ∨ m = true)) := by
    intro L hv
    cases L with
    | nil =>
      simp only [List.map_nil] at hv
      have h1 := List.append_eq_nil.mp hv.symm
      have hq : q = [] := by simpa using h1.1
      have hm : m = false := by
        cases m with
        | false => rfl
        | true => simp [marks] at h1
      simp [hd, hq, hm]
    | cons y L1 =>
      have hne : q.map some ++ marks m ≠ [] := by
        rw [← hv]
        simp
      have : q ≠ [] ∨ m = true := by
        by_contra hcon
        push_neg at hcon
        obtain ⟨hq, hm⟩ := hcon
        have hm2 : m = false := by simpa using hm
        apply hne
        simp [hq, hm2, marks]
      simp [hd, this]
  cases tx with
  | unbounded s =>
    obtain ⟨_, v0, L, hh⟩ := h
    have h0 : s.mem[s.first]? = some (some ⟨v0, hd L none⟩) := hh.chain.1
    simp only [transport.linked, h0]
    exact key L hh.vals
  | bounded s =>
    obtain ⟨c, v0, L, F, _, hh⟩ := h
    have h0 : s.mem[s.first]? = some (some ⟨v0, hd L none⟩) := hh.chain.1
    simp only [transport.linked, h0]
    exact key L hh.vals
  | rendezvous s => exact h.elim

/-- C9, as the code has it: on an unbounded or bounded channel in any state reached
by a single-threaded run, `try_receive` returns `WOULD_BLOCK` with no payload, and
leaves the transport unchanged, exactly when no node is linked after the head.
Otherwise it takes the node after the head: when values are queued it returns the
oldest one with status `OK` and removes it; when the queue is empty the linked node
is the disconnect marker (every sender is gone) and it returns `CLOSED` with no
payload. -/
theorem try_receive_cases (capacity : Int) (script : List (op T)) (c : client T)
    (hcap : capacity = unbounded ∨ 1 ≤ capacity)
    (hrun : client.run capacity script = Run.done c) :
    (c.tx.linked = false →
      c.tx.try_receive = Run.done (⟨none, status.WOULD_BLOCK⟩, c.tx)) ∧
    ((∃ r tx1, c.tx.try_receive = Run.done (r, tx1) ∧ r.result = status.WOULD_BLOCK) ↔
      c.tx.linked = false) ∧
    (c.tx.linked = true →
      (∃ x rest c1, pending c.log = x :: rest ∧
        client.run capacity (script ++ [op.try_receive]) = Run.done c1 ∧
        c1.log = c.log ++ [outcome.received ⟨some x, status.OK⟩] ∧ pending c1.log = rest) ∨
      (∃ c1, pending c.log = [] ∧ c.senders = 0 ∧
        client.run capacity (script ++ [op.try_receive]) = Run.done c1 ∧
        c1.log = c.log ++ [outcome.received ⟨none, status.CLOSED⟩])) := by
  obtain ⟨q, m, hh, hl⟩ := client.run_inv hcap hrun
  have hp := pending_eq hl
  have hlk := linked_iff hh
  have hcases : (q = [] ∧ m = false) ∨ (q = [] ∧ m = true) ∨ ∃ x rest, q = x :: rest := by
    cases q with
    | nil => cases m <;> simp
    | cons x rest => exact Or.inr (Or.inr ⟨x, rest, rfl⟩)
  rcases hcases with ⟨hq, hm⟩ | ⟨hq, hm⟩ | ⟨x, rest, hq⟩
  · subst hq hm
    have e := (transport.tx_receive_empty hh).2
    have hl0 : c.tx.linked = false := by
      cases hb : c.tx.linked with
      | false => rfl
      | true => simpa using hlk.mp hb
    refine ⟨fun _ => e, ⟨fun _ => hl0, fun _ => ⟨_, _, e, rfl⟩⟩, ?_⟩
    intro hb
    rw [hl0] at hb
    simp at hb
  · subst hq hm
    obtain ⟨tx1, _, e, _⟩ := transport.tx_receive_marker hh
    have hl1 : c.tx.linked = true := hlk.mpr (Or.inr rfl)
    refine ⟨fun hb => by rw [hl1] at hb; simp at hb, ⟨?_, fun hb => by rw [hl1] at hb; simp at hb⟩,
      fun _ => Or.inr ?_⟩
    · rintro ⟨r, tx2, e2, hr⟩
      rw [e] at e2
      simp only [Run.done.injEq, Prod.mk.injEq] at e2
      rw [← e2.1] at hr
      simp [recv_result.of_status] at hr
    · refine ⟨⟨tx1, c.senders, c.log ++ [outcome.received ⟨none, status.CLOSED⟩]⟩, hp,
        transport.holds_marker hh, ?_, rfl⟩
      rw [run_append hrun]
      simp [client.exec, client.step, e, recv_result.of_status]
  · subst hq
    obtain ⟨tx1, _, e, _⟩ := transport.tx_receive_value hh
    have hl1 : c.tx.linked = true := hlk.mpr (Or.inl (by simp))
    refine ⟨fun hb => by rw [hl1] at hb; simp at hb, ⟨?_, fun hb => by rw [hl1] at hb; simp at hb⟩,
      fun _ => Or.inl ?_⟩
    · rintro ⟨r, tx2, e2, hr⟩
      rw [e] at e2
      simp only [Run.done.injEq, Prod.mk.injEq] at e2
      rw [← e2.1] at hr
      simp [recv_result.of_value] at hr
    · refine ⟨x, rest, ⟨tx1, c.senders, c.log ++ [outcome.received ⟨some x, status.OK⟩]⟩, hp,
        ?_, rfl, ?_⟩
      · rw [run_append hrun]
        simp [client.exec, client.step, e, recv_result.of_value]
      · apply pending_eq
        simp [sent_values_append, received_values_append, sent_values, received_values, hl]

/-- Witness for C9 as amended: the basic scenario of the test-suite on a bounded
channel of capacity 1, where `try_receive` finds 42 behind the head. -/
theorem try_receive_cases_witness :
    ((1 : Int) = unbounded ∨ 1 ≤ (1 : Int)) ∧
    client.run 1 [op.send 42] = Run.done (client.final 1 [op.send (42 : Nat)]) ∧
    (client.final 1 [op.send (42 : Nat)]).tx.linked = true ∧
    ((∃ r tx1, (client.final 1 [op.send (42 : Nat)]).tx.try_receive = Run.done (r, tx1) ∧
        r.result = status.WOULD_BLOCK) ↔
      (client.final 1 [op.send (42 : Nat)]).tx.linked = false) :=
  ⟨Or.inr (le_refl _), by decide, by decide,
    (try_receive_cases 1 [op.send (42 : Nat)] (client.final 1 [op.send 42])
      (Or.inr (le_refl _)) (by decide)).2.1⟩

/-- Counterexample to C9 as stated: on a fresh unbounded channel and on a fresh
bounded channel of capacity 1 whose only sender has been dropped, a node (the
disconnect marker) is linked after the head, and `try_receive` returns neither
`WOULD_BLOCK` nor a value with status `OK` but `CLOSED` with no payload. -/
theorem try_receive_marker_closed :
    (client.final unbounded [op.drop] : client Nat).tx.linked = true ∧
    ((client.final unbounded [op.drop] : client Nat).tx.try_receive).map Prod.fst
      = Run.done ⟨none, status.CLOSED⟩ ∧
    (client.final 1 [op.drop] : client Nat).tx.linked = true ∧
    ((client.final 1 [op.drop] : client Nat).tx.try_receive).map Prod.fst
      = Run.done ⟨none, status.CLOSED⟩ := by
  refine ⟨by decide, by decide, by decide, by decide⟩

/-! ## Sender handles and the producer count -/

theorem connect_count (tx : transport T) : tx.connect.count = tx.count + 1 := by
  cases tx <;> rfl

theorem disconnect_count {tx tx1 : transport T} (h : tx.disconnect = Run.done tx1) :
    tx1.count = tx.count - 1 := by
  cases tx with
  | unbounded s =>
    obtain ⟨a, e, ha⟩ := Run.map_eq_done h
    subst ha
    unfold unbounded_channel.disconnect at e
    split at e
    · obtain ⟨_, _, e⟩ := Run.bind_eq_done e
      simp only [Run.done.injEq] at e
      subst e
      rfl
    · simp only [Run.done.injEq] at e
      subst e
      rfl
  | bounded s =>
    obtain ⟨a, e, ha⟩ := Run.map_eq_done h
    subst ha
    unfold bounded_channel.disconnect at e
    split at e
    · simp only at e
      split at e
      · split at e
        · simp at e
        · obtain ⟨_, _, e⟩ := Run.bind_eq_done e
          obtain ⟨_, _, e⟩ := Run.bind_eq_done e
          obtain ⟨_, _, e⟩ := Run.bind_eq_done e
          simp only [Run.done.injEq] at e
          subst e
          rfl
      · obtain ⟨_, _, e⟩ := Run.bind_eq_done e
        simp only [Run.done.injEq] at e
        subst e
        rfl
    · simp only [Run.done.injEq] at e
      subst e
      rfl
  | rendezvous s =>
    simp only [transport.disconnect, Run.done.injEq] at h
    subst h
    simp only [transport.count, rendezvous_channel.disconnect]
    split <;> rfl

theorem live_erase (l : List sender) : ∀ (i : Nat) (x : sender), l[i]? = some x →
    ((l.eraseIdx i).filter fun h => h._channel).length + (if x._channel then 1 else 0)
      = (l.filter fun h => h._channel).length := by
  induction l with
  | nil => intro i x h; simp at h
  | cons y l ih =>
    intro i x h
    cases i with
    | zero =>
      simp only [List.getElem?_cons_zero, Option.some.injEq] at h
      subst h
      cases hy : y._channel <;> simp [List.filter, hy]
    | succ i =>
      simp only [List.getElem?_cons_succ] at h
      have := ih i x h
      cases hy : y._channel <;> simp [List.filter, hy] <;> omega

theorem live_set (l : List sender) : ∀ (i : Nat) (x y : sender), l[i]? = some x →
    ((l.set i y).filter fun h => h._channel).length + (if x._channel then 1 else 0)
      = (l.filter fun h => h._channel).length + (if y._channel then 1 else 0) := by
  induction l with
  | nil => intro i x y h; simp at h
  | cons z l ih =>
    intro i x y h
    cases i with
    | zero =>
      simp only [List.getElem?_cons_zero, Option.some.injEq] at h
      subst h
      cases hz : z._channel <;> cases hy : y._channel <;> simp [List.filter, hz, hy]
    | succ i =>
      simp only [List.getElem?_cons_succ] at h
      have := ih i x y h
      cases hz : z._channel <;> simp [List.filter, hz] <;> omega

/-- The paths that do keep the count: copy construction, move construction and
destruction preserve "producer count = number of handles referring to the
transport", and so do the two assignments when the assigned-to handle is empty. -/
theorem construct_destroy_keep_count (w w1 : handles T) (i j : Nat)
    (h : w.tx.count = (sender.live w : Int)) :
    (sender.copy_construct w i = Run.done w1 → w1.tx.count = (sender.live w1 : Int)) ∧
    (sender.move_construct w i = Run.done w1 → w1.tx.count = (sender.live w1 : Int)) ∧
    (sender.destroy w i = Run.done w1 → w1.tx.count = (sender.live w1 : Int)) ∧
    (w.senders[i]? = some ⟨false⟩ → sender.copy_assign w i j = Run.done w1 →
      w1.tx.count = (sender.live w1 : Int)) ∧
    (w.senders[i]? = some ⟨false⟩ → sender.move_assign w i j = Run.done w1 →
      w1.tx.count = (sender.live w1 : Int)) := by
  unfold sender.live at h ⊢
  refine ⟨?_, ?_, ?_, ?_, ?_⟩
  · intro e
    unfold sender.copy_construct at e
    split at e
    · simp at e
    · rename_i other ho
      split at e
      · rename_i hc
        simp only [Run.done.injEq] at e
        subst e
        simp only [connect_count, h, List.filter_append, List.length_append]
        simp [List.filter, hc]
      · simp at e
  · intro e
    unfold sender.move_construct at e
    split at e
    · simp at e
    · rename_i other ho
      simp only [Run.done.injEq] at e
      subst e
      have := live_set w.senders i other ⟨false⟩ ho
      simp only [h, List.filter_append, List.length_append]
      cases hc : other._channel <;> simp [List.filter, hc] at this ⊢ <;> omega
  · intro e
    unfold sender.destroy at e
    split at e
    · simp at e
    · rename_i x hx
      have := live_erase w.senders i x hx
      split at e
      · rename_i hc
        obtain ⟨tx1, e1, e2⟩ := Run.map_eq_done e
        subst e2
        simp only [disconnect_count e1, h]
        simp [hc] at this
        omega
      · rename_i hc
        simp only [Run.done.injEq] at e
        subst e
        simp only [h]
        simp [hc] at this
        omega
  · intro hi e
    unfold sender.copy_assign at e
    split at e
    · rename_i a rhs ha hr
      split at e
      · rename_i hc
        simp only [Run.done.injEq] at e
        subst e
        have := live_set w.senders i ⟨false⟩ ⟨true⟩ hi
        simp only [connect_count, h, hc]
        simp at this
        omega
      · simp at e
    · simp at e
  · intro hi e
    unfold sender.move_assign at e
    split at e
    · rename_i a rhs ha hr
      split at e
      · simp only [Run.done.injEq] at e
        subst e
        exact h
      · rename_i hij
        simp only [Run.done.injEq] at e
        subst e
        have hi2 : (w.senders.set j ⟨false⟩)[i]? = some ⟨false⟩ := by
          rw [List.getElem?_set_ne (Ne.symm hij)]
          exact hi
        have h1 := live_set (w.senders.set j ⟨false⟩) i ⟨false⟩ ⟨rhs._channel⟩ hi2
        have h2 := live_set w.senders j rhs ⟨false⟩ hr
        simp only [h]
        cases hc : rhs._channel <;> simp [hc] at h1 h2 ⊢ <;> omega
    · simp at e

/-- C10 fails on the code.  After `sender s2 = s; s = s2;` two handles refer to the
transport and the producer count is 3; after `s = std::move(s2)` one handle does
and the count is 2.  Once both handles are destroyed no handle is left, yet the
count is 1, no disconnect marker is linked and `receive` never returns.  Without
the assignment the same two destructions bring the count to 0 and publish the
marker. -/
theorem assignment_leaks_producer_count :
    ((sender.copy_construct sender.fresh 0).bind fun w1 => sender.copy_assign w1 0 1).map
        (fun w => (w.tx.count, sender.live w)) = Run.done (3, 2) ∧
    ((sender.copy_construct sender.fresh 0).bind fun w1 => sender.move_assign w1 0 1).map
        (fun w => (w.tx.count, sender.live w)) = Run.done (2, 1) ∧
    sender.copy_assign_scenario.map
        (fun w => (w.tx.count, w.senders, w.tx.linked, w.tx.receive.map Prod.fst))
      = Run.done (1, [], false, Run.blocked) ∧
    sender.move_assign_scenario.map
        (fun w => (w.tx.count, w.senders, w.tx.linked, w.tx.receive.map Prod.fst))
      = Run.done (1, [], false, Run.blocked) ∧
    ((sender.copy_construct sender.fresh 0).bind fun w1 =>
        (sender.destroy w1 0).bind fun w2 => sender.destroy w2 0).map
        (fun w => (w.tx.count, w.senders, w.tx.linked, w.tx.receive.map Prod.fst))
      = Run.done (0, [], true, Run.done ⟨none, status.CLOSED⟩) := by
  refine ⟨by decide, by decide, by decide, by decide, by decide⟩

/-! ## The rendezvous transport -/

theorem mutex.unlock_eq (m : mutex) : m.unlock = Run.done ⟨⟨1⟩⟩ := by
  simp [mutex.unlock, binary_semaphore.release, assert]

theorem mutex.lock_free : (⟨⟨1⟩⟩ : mutex).lock = Run.done ⟨⟨0⟩⟩ := by
  simp [mutex.lock, binary_semaphore.bin_acquire_cases]

/-- C12: on a rendezvous transport in any state, `try_send(v)` returns `v` in its
result and leaves the whole transport, the slot included, as it was; the status is
`WOULD_BLOCK` while the open flag is set and `CLOSED` once `close` has cleared it,
through the virtual call and the receiver destructor as well. -/
theorem rendezvous_try_send (s : rendezvous_channel T) (v : T) :
    s.try_send v
      = Run.done (⟨if s.is_open then status.WOULD_BLOCK else status.CLOSED, some v⟩, s) ∧
    s.close.try_send v = Run.done (⟨status.CLOSED, some v⟩, s.close) ∧
    s.close.item = s.item ∧
    (transport.rendezvous s).try_send v
      = Run.done (⟨if s.is_open then status.WOULD_BLOCK else status.CLOSED, some v⟩,
          transport.rendezvous s) ∧
    ((receiver.destroy (transport.rendezvous s) ⟨true⟩).bind fun tx => tx.try_send v)
      = Run.done (⟨status.CLOSED, some v⟩, transport.rendezvous s.close) := by
  refine ⟨?_, ?_, rfl, ?_, ?_⟩
  · cases h : s.is_open <;> simp [rendezvous_channel.try_send, h]
  · simp [rendezvous_channel.try_send, rendezvous_channel.close]
  · cases h : s.is_open <;> simp [transport.try_send, rendezvous_channel.try_send, h]
  · simp [receiver.destroy, transport.close, transport.try_send, rendezvous_channel.try_send,
      rendezvous_channel.close]

/-- C13 fails on the code: `try_receive` of the rendezvous transport returns
`WOULD_BLOCK` in every state, without looking at the open flag or at `item_ready`.
On a fresh channel it still answers `WOULD_BLOCK` after `close`, and after the only
sender was dropped, where `receive` and `try_receive_until` report `CLOSED` and the
sibling `try_send` reports `CLOSED` after `close`. -/
theorem rendezvous_try_receive_ignores_close :
    (∀ s : rendezvous_channel Nat,
      s.try_receive = Run.done (recv_result.of_status status.WOULD_BLOCK, s)) ∧
    (rendezvous_channel.new.bind fun s : rendezvous_channel Nat => s.close.try_receive).map
        (fun r => (r.1, r.2.is_open)) = Run.done (⟨none, status.WOULD_BLOCK⟩, false) ∧
    (rendezvous_channel.new.bind fun s : rendezvous_channel Nat => s.disconnect.try_receive).map
        (fun r => (r.1, r.2.count, event.is_signaled r.2.item_ready._value))
      = Run.done (⟨none, status.WOULD_BLOCK⟩, 0, true) ∧
    (client.run 0 [op.drop, op.try_receive] : Run (client Nat)).map (fun c => c.log)
      = Run.done [outcome.handle, outcome.received ⟨none, status.WOULD_BLOCK⟩] ∧
    (client.run 0 [op.drop, op.receive] : Run (client Nat)).map (fun c => c.log)
      = Run.done [outcome.handle, outcome.received ⟨none, status.CLOSED⟩] ∧
    (rendezvous_channel.new.bind fun s : rendezvous_channel Nat =>
        s.disconnect.try_receive_until 0 0).map Prod.fst
      = Run.done ⟨none, status.CLOSED⟩ ∧
    (rendezvous_channel.new.bind fun s : rendezvous_channel Nat => s.close.try_send 7).map
        Prod.fst = Run.done ⟨status.CLOSED, some 7⟩ := by
  refine ⟨fun s => rfl, by decide, by decide, by decide, by decide, by decide, by decide⟩

theorem rv_disconnect_many (n : Nat) : ∀ (s : rendezvous_channel T) (j : Nat),
    s.count = n + 1 → j ≤ n →
    Nat.iterate rendezvous_channel.disconnect j s = { s with count := s.count - j } := by
  intro s j hc hj
  induction j with
  | zero => simp
  | succ j ih =>
    rw [Function.iterate_succ_apply', ih (by omega)]
    have h1 : ¬ (s.count - (j : Int) = 1) := by omega
    simp only [rendezvous_channel.disconnect, h1, if_false]
    simp only [rendezvous_channel.mk.injEq, and_true, true_and]
    push_cast
    omega

/-- C14: on a rendezvous transport with `n + 1` connected senders and an empty slot,
each of the first `n` drops changes the producer count only; the last drop brings
the count to zero and signals `item_ready`, the slot staying empty; and the
`receive` that follows returns `CLOSED` with no payload (it does not park: it
consumes the signal, and leaves the slot empty and `item_lock` released). -/
theorem rendezvous_last_drop (s : rendezvous_channel T) (n : Nat)
    (hc : s.count = n + 1) (hi : s.item = none) :
    (∀ j, j ≤ n →
      Nat.iterate rendezvous_channel.disconnect j s = { s with count := s.count - j }) ∧
    Nat.iterate rendezvous_channel.disconnect (n + 1) s
      = { s with count := 0, item_ready := s.item_ready.signal.1 } ∧
    event.is_signaled s.item_ready.signal.1._value = true ∧
    (Nat.iterate rendezvous_channel.disconnect (n + 1) s).receive
      = Run.done (recv_result.of_status status.CLOSED,
          { s with count := 0, item := none, item_lock := ⟨⟨1⟩⟩,
                   item_ready := ⟨(s.item_ready.signal.1._value + 1) % 4294967296⟩,
                   can_leave := s.can_leave.signal.1 }) ∧
    (transport.rendezvous (Nat.iterate rendezvous_channel.disconnect (n + 1) s)).receive.map
        Prod.fst = Run.done ⟨none, status.CLOSED⟩ := by
  have h1 := rv_disconnect_many n s
  have h2 : Nat.iterate rendezvous_channel.disconnect (n + 1) s
      = { s with count := 0, item_ready := s.item_ready.signal.1 } := by
    rw [Function.iterate_succ_apply', h1 n hc (le_refl n)]
    have : s.count - (n : Int) = 1 := by omega
    simp [rendezvous_channel.disconnect, this]
  have h3 := event.signal_signaled s.item_ready
  have h4 : (Nat.iterate rendezvous_channel.disconnect (n + 1) s).receive
      = Run.done (recv_result.of_status status.CLOSED,
          { s with count := 0, item := none, item_lock := ⟨⟨1⟩⟩,
                   item_ready := ⟨(s.item_ready.signal.1._value + 1) % 4294967296⟩,
                   can_leave := s.can_leave.signal.1 }) := by
    rw [h2]
    simp [rendezvous_channel.receive, mutex.unlock_eq, event.wait_signaled h3, mutex.lock_free,
      rendezvous_channel.take, hi]
  refine ⟨fun j hj => h1 j hc hj, h2, h3, h4, ?_⟩
  show (((Nat.iterate rendezvous_channel.disconnect (n + 1) s).receive.map
    fun r => (r.1, transport.rendezvous r.2)).map Prod.fst) = _
  rw [h4]
  rfl

/-- Witness for C14: the channel `channel<T>(0)` returns, with two more senders
cloned, and the client run of the same drops. -/
theorem rendezvous_last_drop_witness :
    (client.final 0 ([op.clone, op.clone] : List (op Nat))).tx
      = transport.rendezvous
          { throttle := mutex.new, count := 3, is_open := true, item_lock := ⟨⟨0⟩⟩,
            item_ready := event.new false, item := none, can_leave := event.new false } ∧
    (client.run 0 [op.clone, op.clone, op.drop, op.drop, op.drop, op.receive] :
        Run (client Nat)).map (fun c => c.log)
      = Run.done [.handle, .handle, .handle, .handle, .handle,
          outcome.received ⟨none, status.CLOSED⟩] ∧
    (transport.rendezvous (Nat.iterate rendezvous_channel.disconnect (2 + 1)
        ({ throttle := mutex.new, count := 3, is_open := true, item_lock := ⟨⟨0⟩⟩,
           item_ready := event.new false, item := none, can_leave := event.new false } :
          rendezvous_channel Nat))).receive.map Prod.fst = Run.done ⟨none, status.CLOSED⟩ :=
  ⟨by decide, by decide,
    (rendezvous_last_drop
      ({ throttle := mutex.new, count := 3, is_open := true, item_lock := ⟨⟨0⟩⟩,
         item_ready := event.new false, item := none, can_leave := event.new false } :
        rendezvous_channel Nat) 2 (by decide) rfl).2.2.2.2⟩

/-- C16: the blocking class a handle reports is the constant its transport variant
returns, whatever the state of the transport: `NEVER` for sending and `SOMETIMES`
for receiving on the unbounded transport, `SOMETIMES` for both on the bounded one,
`ALWAYS` for both on the rendezvous one. -/
theorem blocking_class (tx : transport T) :
    sender.blocks tx ⟨true⟩ = Run.done tx.send_blocks ∧
    receiver.blocks tx ⟨true⟩ = Run.done tx.recv_blocks ∧
    (tx.send_blocks, tx.recv_blocks) =
      match tx with
      | .unbounded _ => (blocking.NEVER, blocking.SOMETIMES)
      | .bounded _ => (blocking.SOMETIMES, blocking.SOMETIMES)
      | .rendezvous _ => (blocking.ALWAYS, blocking.ALWAYS) := by
  refine ⟨rfl, rfl, ?_⟩
  cases tx <;> rfl

/-! ## The drain iterator -/

theorem for_loop_stop (n : Nat) (tx : transport T) (seen : List T) :
    receiver.for_loop (n + 1) ⟨true, recv_result.of_status status.CLOSED⟩ receiver.end_ tx seen
      = Run.done (seen, ⟨true, recv_result.of_status status.CLOSED⟩, tx) := by
  simp [receiver.for_loop, receiver.iterator.ne, receiver.end_, recv_result.of_status]

theorem for_loop_drain {cap : Option Nat} {k : Nat} (q : List T) :
    ∀ (tx : transport T) (x : T) (seen : List T) (n : Nat), tx.holds cap q k true →
    q.length + 2 ≤ n →
    ∃ tx1, receiver.for_loop n ⟨true, recv_result.of_value x⟩ receiver.end_ tx seen
        = Run.done (seen ++ x :: q, ⟨true, recv_result.of_status status.CLOSED⟩, tx1) ∧
      tx1.holds cap [] k false := by
  induction q with
  | nil =>
    intro tx x seen n h hn
    obtain ⟨tx1, e1, _, h1⟩ := transport.tx_receive_marker h
    obtain ⟨m, hm⟩ : ∃ m, n = m + 2 := ⟨n - 2, by simp at hn; omega⟩
    subst hm
    refine ⟨tx1, ?_, h1⟩
    rw [receiver.for_loop]
    simp only [receiver.iterator.ne, receiver.end_, recv_result.of_value, recv_result.of_status,
      Option.isSome_some, Option.isSome_none, Bool.or_false, if_true, receiver.iterator.deref,
      Run.done_bind, receiver.iterator.increment, e1, Run.map_done]
    simpa [receiver.end_, recv_result.of_status] using for_loop_stop m tx1 (seen ++ [x])
  | cons y q ih =>
    intro tx x seen n h hn
    obtain ⟨tx1, e1, _, h1⟩ := transport.tx_receive_value h
    obtain ⟨m, hm⟩ : ∃ m, n = m + 1 := ⟨n - 1, by simp at hn; omega⟩
    subst hm
    obtain ⟨tx2, e2, h2⟩ := ih tx1 y (seen ++ [x]) m h1 (by simp at hn ⊢; omega)
    refine ⟨tx2, ?_, h2⟩
    rw [receiver.for_loop]
    simp only [receiver.iterator.ne, receiver.end_, recv_result.of_value, recv_result.of_status,
      Option.isSome_some, Option.isSome_none, Bool.or_false, if_true, receiver.iterator.deref,
      Run.done_bind, receiver.iterator.increment, e1, Run.map_done]
    simpa [receiver.end_, recv_result.of_value, recv_result.of_status] using e2

theorem range_for_drain {cap : Option Nat} {k : Nat} (q : List T) (tx : transport T) (n : Nat)
    (h : tx.holds cap q k true) (hn : q.length + 1 ≤ n) :
    ∃ tx1, receiver.range_for n tx ⟨true⟩
        = Run.done (q, ⟨true, recv_result.of_status status.CLOSED⟩, tx1) ∧
      tx1.holds cap [] k false := by
  cases q with
  | nil =>
    obtain ⟨tx1, e1, _, h1⟩ := transport.tx_receive_marker h
    obtain ⟨m, hm⟩ : ∃ m, n = m + 1 := ⟨n - 1, by simp at hn; omega⟩
    subst hm
    refine ⟨tx1, ?_, h1⟩
    simp only [receiver.range_for, receiver.begin, if_true, e1, Run.map_done, Run.done_bind]
    exact for_loop_stop m tx1 []
  | cons x q =>
    obtain ⟨tx1, e1, _, h1⟩ := transport.tx_receive_value h
    obtain ⟨tx2, e2, h2⟩ := for_loop_drain q tx1 x [] n h1 (by simp at hn ⊢; omega)
    refine ⟨tx2, ?_, h2⟩
    simp only [receiver.range_for, receiver.begin, if_true, e1, Run.map_done, Run.done_bind]
    simpa using e2

theorem iterator_ne_end (it : receiver.iterator T) :
    it.ne receiver.end_ = it._result.value.isSome := by
  simp [receiver.iterator.ne, receiver.end_, recv_result.of_status]

theorem rv_range_for_closed (s : rendezvous_channel T) (j n : Nat)
    (hc : s.count = j + 1) (hi : s.item = none) :
    receiver.range_for (n + 1)
        (transport.rendezvous (Nat.iterate rendezvous_channel.disconnect (j + 1) s)) ⟨true⟩
      = Run.done ([], ⟨true, recv_result.of_status status.CLOSED⟩,
          transport.rendezvous
            { s with count := 0, item := none, item_lock := ⟨⟨1⟩⟩,
                     item_ready := ⟨(s.item_ready.signal.1._value + 1) % 4294967296⟩,
                     can_leave := s.can_leave.signal.1 }) := by
  have h2 : Nat.iterate rendezvous_channel.disconnect (j + 1) s
      = { s with count := 0, item_ready := s.item_ready.signal.1 } := by
    rw [Function.iterate_succ_apply', rv_disconnect_many j s j hc (le_refl j)]
    have : s.count - (j : Int) = 1 := by omega
    simp [rendezvous_channel.disconnect, this]
  rw [h2]
  have h3 := event.signal_signaled s.item_ready
  simp only [receiver.range_for, receiver.begin, if_true, transport.receive,
    rendezvous_channel.receive, mutex.unlock_eq, Run.done_bind, event.wait_signaled h3,
    mutex.lock_free, rendezvous_channel.take, hi, Run.map_done]
  exact for_loop_stop n _ []

/-- C11: on an unbounded channel and on a bounded channel of any capacity at least
1, after any run of sends and receives through cloned senders that leaves a sender
alive, once every sender has been dropped the loop `for (auto&& v : recv)` visits
exactly the values sent and not yet received, in the order they were sent, and
stops: with any number of iterations above their count it ends holding the first
`CLOSED` result, where the iterator no longer differs from `end`.  An iterator
differs from `end` exactly when the result it holds carries a value.  On a
rendezvous channel, where no value can be left behind by a send that returned, the
loop run after the last drop visits nothing and stops at `CLOSED`. -/
theorem drain_iterator (capacity : Int) (script : List (op T)) (c : client T)
    (hcap : capacity = unbounded ∨ 1 ≤ capacity)
    (hrun : client.run capacity script = Run.done c) (hs : 1 ≤ c.senders) :
    (∀ it : receiver.iterator T, it.ne receiver.end_ = it._result.value.isSome) ∧
    sent_values c.log = received_values c.log ++ pending c.log ∧
    (∃ tx0, client.exec (List.replicate c.senders op.drop) c
        = Run.done ⟨tx0, 0, c.log ++ List.replicate c.senders outcome.handle⟩ ∧
      ∀ n, (pending c.log).length + 1 ≤ n →
        ∃ tx1, receiver.range_for n tx0 ⟨true⟩
          = Run.done (pending c.log, ⟨true, ⟨none, status.CLOSED⟩⟩, tx1) ∧
          (⟨true, ⟨none, status.CLOSED⟩⟩ : receiver.iterator T).ne receiver.end_ = false) ∧
    (∀ (s : rendezvous_channel T) (j n : Nat), s.count = j + 1 → s.item = none →
      ∃ tx1, receiver.range_for (n + 1)
          (transport.rendezvous (Nat.iterate rendezvous_channel.disconnect (j + 1) s)) ⟨true⟩
        = Run.done ([], ⟨true, ⟨none, status.CLOSED⟩⟩, tx1)) := by
  obtain ⟨hh, hl⟩ := client.inv_live (client.run_inv hcap hrun) hs
  refine ⟨iterator_ne_end, hl, ?_, fun s j n hc hi => ⟨_, rv_range_for_closed s j n hc hi⟩⟩
  obtain ⟨k, hk⟩ : ∃ k, c.senders = k + 1 := ⟨c.senders - 1, by omega⟩
  rw [hk] at hh
  obtain ⟨tx0, e0, h0⟩ := client.exec_drops k c.tx c.log (pending c.log) hh
  have ec : c = ⟨c.tx, k + 1, c.log⟩ := by
    cases c
    simp only [client.mk.injEq, true_and]
    exact ⟨hk, trivial⟩
  refine ⟨tx0, ?_, fun n hn => ?_⟩
  · rw [hk]
    conv_lhs => rw [ec]
    exact e0
  · obtain ⟨tx1, e1, _⟩ := range_for_drain (pending c.log) tx0 n h0 hn
    exact ⟨tx1, e1, by simp [iterator_ne_end]⟩

/-- Witness for C11: three values sent through two senders on a bounded channel of
capacity 3, one of them received before the senders are dropped. -/
theorem drain_iterator_witness :
    client.run 3 [op.clone, op.send 10, op.send 20, op.send 30, op.receive]
      = Run.done (client.final 3 [op.clone, op.send (10 : Nat), op.send 20, op.send 30,
          op.receive]) ∧
    pending (client.final 3 [op.clone, op.send (10 : Nat), op.send 20, op.send 30,
        op.receive]).log = [20, 30] ∧
    ((client.run 3 [op.clone, op.send (10 : Nat), op.send 20, op.send 30, op.receive, op.drop,
        op.drop]).bind fun c => receiver.range_for 3 c.tx ⟨true⟩).map
        (fun r => (r.1, r.2.1))
      = Run.done ([20, 30], ⟨true, ⟨none, status.CLOSED⟩⟩) ∧
    (∃ tx0, client.exec (List.replicate (client.final 3 [op.clone, op.send (10 : Nat),
          op.send 20, op.send 30, op.receive]).senders op.drop)
          (client.final 3 [op.clone, op.send (10 : Nat), op.send 20, op.send 30, op.receive])
        = Run.done ⟨tx0, 0, (client.final 3 [op.clone, op.send (10 : Nat), op.send 20,
            op.send 30, op.receive]).log ++
            List.replicate (client.final 3 [op.clone, op.send (10 : Nat), op.send 20,
              op.send 30, op.receive]).senders outcome.handle⟩ ∧
      ∀ n, (pending (client.final 3 [op.clone, op.send (10 : Nat), op.send 20, op.send 30,
          op.receive]).log).length + 1 ≤ n →
        ∃ tx1, receiver.range_for n tx0 ⟨true⟩
          = Run.done (pending (client.final 3 [op.clone, op.send (10 : Nat), op.send 20,
              op.send 30, op.receive]).log, ⟨true, ⟨none, status.CLOSED⟩⟩, tx1) ∧
          (⟨true, ⟨none, status.CLOSED⟩⟩ : receiver.iterator Nat).ne receiver.end_ = false) :=
  ⟨by decide, by decide, by decide,
    (drain_iterator 3 [op.clone, op.send (10 : Nat), op.send 20, op.send 30, op.receive]
      (client.final 3 [op.clone, op.send 10, op.send 20, op.send 30, op.receive])
      (Or.inr (by decide)) (by decide) (by decide)).2.2.1⟩

end mpsc

/-! ## Semaphore calls -/

namespace counting_semaphore

variable {lmv : Int}

/-- C17: for a counting semaphore whose two counters are 32-bit values,
`try_acquire` returns `false` exactly when `value` is zero; when it returns `true`
the semaphore is left at `(value - 1, waiting)`, and when it returns `false` the
semaphore is unchanged.  The call is a plain function of the semaphore: it makes
no call of the wait/wake substrate, so it neither parks nor wakes. -/
theorem try_acquire_fast_path (s : counting_semaphore lmv)
    (hv : s._data.value < 4294967296) (hw : s._data.waiting < 4294967296) :
    (s.try_acquire.1 = false ↔ s._data.value = 0) ∧
    (s.try_acquire.1 = true →
      s.try_acquire.2._data = ⟨s._data.value - 1, s._data.waiting⟩) ∧
    (s.try_acquire.1 = false → s.try_acquire.2 = s) := by
  by_cases h : s._data.value = 0
  · simp [try_acquire_zero s h, h]
  · have e1 : to_u32 ((s._data.value : Int) + -1) = s._data.value - 1 :=
      to_u32_pred h (by omega)
    have e2 : to_u32 (s._data.waiting : Int) = s._data.waiting := by
      unfold to_u32
      omega
    simp [try_acquire_pos s h, h, data.add, e1, e2]

/-- Witness for C17: the semaphore of the test-suite after its `acquire`, one permit
left, and the same semaphore once that permit is taken. -/
theorem try_acquire_fast_path_witness :
    ((⟨⟨1, 0⟩⟩ : counting_semaphore 4294967295).try_acquire = (true, ⟨⟨0, 0⟩⟩)) ∧
    ((⟨⟨0, 0⟩⟩ : counting_semaphore 4294967295).try_acquire = (false, ⟨⟨0, 0⟩⟩)) ∧
    ((⟨⟨1, 3⟩⟩ : counting_semaphore 4294967295).try_acquire.1 = true →
      (⟨⟨1, 3⟩⟩ : counting_semaphore 4294967295).try_acquire.2._data = ⟨1 - 1, 3⟩) :=
  ⟨by decide, by decide,
    (try_acquire_fast_path (⟨⟨1, 3⟩⟩ : counting_semaphore 4294967295)
      (by decide) (by decide)).2.1⟩

/-- C18 fails as stated: `release(n)` asserts `n < max()` and `value + n <=
least_max_value`, so on a `counting_semaphore<2>` holding 2 permits `release(1)`
stops at the assertion, and so does `release(max())` on an empty semaphore; and
the sum is formed in 32 bits, so on the default semaphore holding `2^32 - 1`
permits `release(1)` passes both assertions and leaves the value at 0. -/
theorem release_outside_bounds :
    (⟨⟨2, 0⟩⟩ : counting_semaphore 2).release 1 = Run.fault ∧
    (⟨⟨0, 0⟩⟩ : counting_semaphore 4294967295).release 4294967295 = Run.fault ∧
    (⟨⟨4294967295, 0⟩⟩ : counting_semaphore 4294967295).release 1
      = Run.done (⟨⟨0, 0⟩⟩, []) := by
  refine ⟨by decide, by decide, by decide⟩

/-- C18, amended: for every `n` with `0 < n < max()` and `value + n <=
least_max_value` (the two conditions `release` asserts), `release(n)` returns and
leaves the semaphore at `(value + n, waiting)`; it issues no wake when `waiting` is
zero and otherwise exactly one wake request, for `min(n, waiting)` threads.
`release(0)` changes nothing and issues no wake. -/
theorem release_within_bounds (s : counting_semaphore lmv) (n : Int)
    (hlmv : lmv ≤ max) (hn : 0 < n) (hmax : n < max) (hsum : s._data.value + n ≤ lmv) :
    s.release n = Run.done (⟨⟨s._data.value + n.toNat, s._data.waiting⟩⟩,
        if s._data.waiting = 0 then []
        else [wake_call.wake (min n.toNat s._data.waiting)]) ∧
    s.release 0 = Run.done (s, []) := by
  unfold max at hlmv hmax
  have e1 : to_u32 n = n.toNat := by
    unfold to_u32
    omega
  have e2 : (s._data.value + n.toNat) % 4294967296 = s._data.value + n.toNat := by omega
  have e3 : n ⊔ 0 = n := max_eq_left (le_of_lt hn)
  have hn0 : n ≠ 0 := by omega
  refine ⟨?_, by simp [release]⟩
  by_cases hw : s._data.waiting = 0
  · simp [release, hn0, assert, max, hn, hmax, e1, e2, e3, hsum, data.add_value, hw]
  · simp [release, hn0, assert, max, hn, hmax, e1, e2, e3, hsum, data.add_value, hw]

/-- Witness for C18, amended: `release(2)` of the test-suite on the emptied
semaphore, and a release with three waiters parked. -/
theorem release_within_bounds_witness :
    ((⟨⟨0, 0⟩⟩ : counting_semaphore 4294967295).release 2 = Run.done (⟨⟨2, 0⟩⟩, [])) ∧
    ((⟨⟨0, 3⟩⟩ : counting_semaphore 4294967295).release 2
        = Run.done (⟨⟨0 + (2 : Int).toNat, 3⟩⟩,
            if (3 : Nat) = 0 then [] else [wake_call.wake (min (2 : Int).toNat 3)]) ∧
      (⟨⟨0, 3⟩⟩ : counting_semaphore 4294967295).release 0 = Run.done (⟨⟨0, 3⟩⟩, [])) :=
  ⟨by decide,
    release_within_bounds (⟨⟨0, 3⟩⟩ : counting_semaphore 4294967295) 2
      (by decide) (by decide) (by decide) (by decide)⟩

end counting_semaphore

/-! ## Signal, then wait -/

namespace event

theorem signals_odd (e : event) (k : Nat) :
    is_signaled (Nat.iterate (fun x : event => x.signal.1) (k + 1) e)._value = true := by
  rw [Function.iterate_succ_apply']
  exact signal_signaled _

/-- What holds of C20 on the code: after one or more `signal()` calls on an event in
any state, `wait()` returns and leaves the counter even (unsignaled); a second
`wait()` parks on the substrate; and `wait_until` / `wait_for` on that unsignaled
event return `false` when less than a millisecond remains to the deadline, and
otherwise park in the same untimed wait instead of returning `false`. -/
theorem wait_after_signal (e : event) (k : Nat) :
    ∃ e1, (Nat.iterate (fun x : event => x.signal.1) (k + 1) e).wait = Run.done e1 ∧
      is_signaled e1._value = false ∧ e1._value % 2 = 0 ∧
      e1.wait = Run.blocked ∧
      (∀ t now, e1.wait_until t now
        = if remaining_ms t now ≤ 0 then Run.done (false, e1) else Run.blocked) ∧
      (∀ d now0 now, e1.wait_for d now0 now
        = if remaining_ms (now0 + d) now ≤ 0 then Run.done (false, e1) else Run.blocked) := by
  have h1 := signals_odd e k
  have h2 := not_signaled_succ h1
  refine ⟨_, wait_signaled h1, h2, ?_, wait_unsignaled h2,
    fun t now => wait_until_unsignaled t now h2,
    fun d now0 now => wait_until_unsignaled (now0 + d) now h2⟩
  have h3 := (is_signaled_iff _).1 h1
  simp only
  omega

/-- C20 fails on the code in its last clause.  On a fresh event, after `signal()`
and `wait()` the event is unsignaled and a second `wait()` parks, as claimed; but
`wait_until` with the deadline 10 ms ahead, and `wait_for(10ms)`, park for good in
the untimed `wait` of the substrate instead of returning `false`.  They return
`false` only when less than a millisecond remains at the check. -/
theorem wait_until_parks :
    (event.new false).signal.1.wait = Run.done ⟨2⟩ ∧
    (⟨2⟩ : event).wait = Run.blocked ∧
    (⟨2⟩ : event).wait_until 10000000 0 = Run.blocked ∧
    (⟨2⟩ : event).wait_for 10000000 0 1000 = Run.blocked ∧
    (⟨2⟩ : event).wait_for 1000000 0 1000 = Run.done (false, ⟨2⟩) ∧
    (⟨2⟩ : event).wait_until 0 0 = Run.done (false, ⟨2⟩) := by
  refine ⟨by decide, by decide, by decide, by decide, by decide, by decide⟩

end event

/-! ## The counter of the event -/

theorem or_one_even (x : Nat) (h : x % 2 = 0) : x ||| 1 = x + 1 := by
  apply Nat.eq_of_testBit_eq
  intro i
  rw [Nat.testBit_or]
  cases i with
  | zero =>
    simp [Nat.testBit_zero]
    omega
  | succ i =>
    simp only [Nat.testBit_succ]
    have : (x + 1) / 2 = x / 2 := by omega
    rw [this]
    simp

theorem or_one_odd (x : Nat) (h : x % 2 = 1) : x ||| 1 = x := by
  apply Nat.eq_of_testBit_eq
  intro i
  rw [Nat.testBit_or]
  cases i with
  | zero =>
    simp [Nat.testBit_zero]
    omega
  | succ i =>
    simp only [Nat.testBit_succ]
    simp

namespace event

/-- C27: for every 32-bit counter value `v`, `signal()` stores `(v + 1) | 1` formed
in 32 bits.  The stored value is again a 32-bit value and is odd (signaled); it is
`v + 1` when `v` is even and `v + 2` modulo `2^32` when `v` is odd (so `v + 2`
itself except at `v = 2^32 - 1`, where it is 1); and the wake requests issued are
one wake-all when `v` is even and none when `v` is odd. -/
theorem signal_value (v : Nat) (hv : v < 4294967296) :
    (signal ⟨v⟩).1._value = ((v + 1) % 4294967296) ||| 1 ∧
    (signal ⟨v⟩).1._value < 4294967296 ∧
    (signal ⟨v⟩).1._value % 2 = 1 ∧
    is_signaled (signal ⟨v⟩).1._value = true ∧
    (v % 2 = 0 → (signal ⟨v⟩).1._value = v + 1) ∧
    (v % 2 = 1 → (signal ⟨v⟩).1._value = (v + 2) % 4294967296) ∧
    (v % 2 = 1 → v ≠ 4294967295 → (signal ⟨v⟩).1._value = v + 2) ∧
    ((signal ⟨v⟩).2 = [wake_call.wake_all] ↔ v % 2 = 0) ∧
    ((signal ⟨v⟩).2 = [] ↔ v % 2 = 1) := by
  have hval : (signal ⟨v⟩).1._value = ((v + 1) % 4294967296) ||| 1 := rfl
  have hs := signal_signaled ⟨v⟩
  have hodd := (is_signaled_iff _).1 hs
  have hev : v % 2 = 0 → (signal ⟨v⟩).1._value = v + 1 := by
    intro h
    rw [hval, or_one_odd _ (by omega)]
    omega
  have hod : v % 2 = 1 → (signal ⟨v⟩).1._value = (v + 2) % 4294967296 := by
    intro h
    rw [hval, or_one_even _ (by omega)]
    omega
  have hw : (signal ⟨v⟩).2 = if v % 2 = 1 then [] else [wake_call.wake_all] := by
    cases h : is_signaled v with
    | true =>
      have := (is_signaled_iff v).1 h
      simp [signal, h, this]
    | false =>
      have : ¬ v % 2 = 1 := fun e => by
        rw [(is_signaled_iff v).2 e] at h
        exact Bool.noConfusion h
      simp [signal, h, this]
  refine ⟨hval, ?_, hodd, hs, hev, hod, ?_, ?_, ?_⟩
  · rcases Nat.mod_two_eq_zero_or_one v with h | h
    · rw [hev h]
      omega
    · rw [hod h]
      omega
  · intro h hne
    rw [hod h]
    omega
  · rw [hw]
    by_cases h : v % 2 = 1
    · simp [h]
    · simp [h]
      omega
  · rw [hw]
    by_cases h : v % 2 = 1
    · simp [h]
    · simp [h]

/-- Witness for C27: the largest counter value, which is odd; the stored value
wraps to 1 and no wake is issued. -/
theorem signal_value_witness :
    (signal ⟨4294967295⟩).1._value = 1 ∧ (signal ⟨4294967295⟩).2 = [] ∧
    (signal ⟨4⟩).1._value = 5 ∧ (signal ⟨4⟩).2 = [wake_call.wake_all] ∧
    (signal ⟨5⟩).1._value = 7 ∧
    (signal ⟨4294967295⟩).1._value % 2 = 1 :=
  ⟨by decide, by decide, by decide, by decide, by decide,
    (signal_value 4294967295 (by decide)).2.2.1⟩

/-- C21 fails on the code: `wait_until` parks its caller with the untimed `wait` of
the substrate.  On an unsignaled event it returns `false` only when less than a
millisecond remains at the check; with a millisecond or more to go the call parks
and, no signal arriving, never returns, for every deadline.  `wait_for` is the same
call.  The timed acquire of the semaphore, which blocks with `wait_for` of the
substrate, does return `false` at its deadline. -/
theorem wait_until_untimed :
    (∀ (e : event) (t now : Int), e.wait_until t now =
      if is_signaled e._value then Run.done (true, ⟨(e._value + 1) % 4294967296⟩)
      else if remaining_ms t now ≤ 0 then Run.done (false, e) else Run.blocked) ∧
    (∀ (e : event) (d now0 now : Int), e.wait_for d now0 now = e.wait_until (now0 + d) now) ∧
    (event.new false).wait_until 10000000 0 = Run.blocked ∧
    (event.new false).wait_for 5000000000 0 0 = Run.blocked ∧
    (event.new false).wait_until 999999 0 = Run.done (false, event.new false) ∧
    (⟨⟨0, 0⟩⟩ : counting_semaphore 4294967295).try_acquire_until 10000000 0
      = Run.done (false, ⟨⟨0, 0⟩⟩, 10000000) := by
  refine ⟨fun e t now => ?_, fun e d now0 now => rfl, by decide, by decide, by decide,
    by decide⟩
  cases h : is_signaled e._value with
  | true => simp [wait_until_signaled t now h]
  | false => simp [wait_until_unsignaled t now h]

end event

/-! ## The timed acquire at its deadline -/

namespace counting_semaphore

variable {lmv : Int}

/-- C29: on a semaphore in state `(0, w)`, `w` a 32-bit value, `try_acquire_until`
called with its deadline already reached returns `false` with no time passing (it
makes no wait) and leaves the state `(0, w)`: the waiting count is incremented and
then decremented again.  With `value > 0` it returns `true` and leaves
`(value - 1, waiting)`, whatever the deadline. -/
theorem try_acquire_until_deadline (s : counting_semaphore lmv) (t now : Int)
    (hv : s._data.value < 4294967296) (hw : s._data.waiting < 4294967296) :
    (s._data.value = 0 → remaining_ms t now ≤ 0 →
      s.try_acquire_until t now = Run.done (false, s, now) ∧
      (s._data.add 0 1).waiting = (s._data.waiting + 1) % 4294967296 ∧
      ((s._data.add 0 1).add 0 (-1)) = s._data) ∧
    (0 < s._data.value →
      s.try_acquire_until t now
        = Run.done (true, ⟨⟨s._data.value - 1, s._data.waiting⟩⟩, now)) := by
  have e2 : to_u32 ((s._data.waiting : Int) + 0) = s._data.waiting := by
    unfold to_u32
    omega
  refine ⟨fun h0 hdt => ?_, fun hpos => ?_⟩
  · have e1 : (s._data.add 0 1).add 0 (-1) = s._data := by
      cases s with
      | mk d =>
        cases d with
        | mk value waiting =>
          simp only at h0 hw
          subst h0
          simp only [data.add, data.mk.injEq, to_u32]
          omega
    refine ⟨?_, ?_, e1⟩
    · rw [try_acquire_until_eq, e1]
      simp [h0, hdt]
    · simp only [data.add, to_u32]
      omega
  · have hne : s._data.value ≠ 0 := by omega
    have e1 : to_u32 ((s._data.value : Int) + -1) = s._data.value - 1 :=
      to_u32_pred hne (by omega)
    rw [try_acquire_until_eq]
    simp only [hne, ne_eq, not_false_eq_true, if_true, data.add, e1, e2]

/-- Witness for C29: an empty semaphore with three waiters and a deadline already
reached, and the two timed acquires of the test-suite after `release(2)`. -/
theorem try_acquire_until_deadline_witness :
    ((⟨⟨0, 3⟩⟩ : counting_semaphore 4294967295).try_acquire_until 0 5
      = Run.done (false, ⟨⟨0, 3⟩⟩, 5)) ∧
    ((⟨⟨0, 4294967295⟩⟩ : counting_semaphore 4294967295).try_acquire_until 0 5
      = Run.done (false, ⟨⟨0, 4294967295⟩⟩, 5)) ∧
    ((⟨⟨2, 0⟩⟩ : counting_semaphore 4294967295).try_acquire_until 0 5
      = Run.done (true, ⟨⟨1, 0⟩⟩, 5)) ∧
    ((0 : Nat) < 2 →
      (⟨⟨2, 0⟩⟩ : counting_semaphore 4294967295).try_acquire_until 0 5
        = Run.done (true, ⟨⟨2 - 1, 0⟩⟩, 5)) :=
  ⟨by decide, by decide, by decide,
    (try_acquire_until_deadline (⟨⟨2, 0⟩⟩ : counting_semaphore 4294967295) 0 5
      (by decide) (by decide)).2⟩

end counting_semaphore

/-! ## The three states of the binary semaphore -/

namespace binary_semaphore

theorem bin_call_ternary (s s1 : binary_semaphore) (c : call)
    (hv : s._value = 1 ∨ s._value = 0 ∨ s._value = -1) (h : call.run s c = Run.done s1) :
    s1._value = 1 ∨ s1._value = 0 ∨ s1._value = -1 := by
  cases c with
  | release update =>
    obtain ⟨r, e, hr⟩ := Run.map_eq_done h
    subst hr
    unfold release at e
    split at e
    · simp only [Run.done.injEq] at e
      subst e
      exact hv
    · obtain ⟨_, _, e⟩ := Run.bind_eq_done e
      simp only [Run.done.injEq] at e
      subst e
      exact Or.inl rfl
  | acquire =>
    simp only [call.run, bin_acquire_cases] at h
    split at h
    · simp only [Run.done.injEq] at h
      subst h
      exact Or.inr (Or.inl rfl)
    · simp at h
  | try_acquire =>
    simp only [call.run, Run.done.injEq] at h
    subst h
    unfold try_acquire
    split
    · exact Or.inr (Or.inl rfl)
    · exact hv
  | try_acquire_until t now =>
    simp only [call.run, bin_try_acquire_until_eq] at h
    split at h
    · simp only [Run.map_done, Run.done.injEq] at h
      subst h
      exact Or.inr (Or.inl rfl)
    · simp only [Run.map_done, Run.done.injEq] at h
      subst h
      exact Or.inr (Or.inr rfl)

theorem bin_calls_ternary (cs : List call) : ∀ (s s1 : binary_semaphore),
    (s._value = 1 ∨ s._value = 0 ∨ s._value = -1) → calls cs s = Run.done s1 →
    s1._value = 1 ∨ s1._value = 0 ∨ s1._value = -1 := by
  induction cs with
  | nil =>
    intro s s1 hv h
    simp only [calls, Run.done.injEq] at h
    subst h
    exact hv
  | cons c cs ih =>
    intro s s1 hv h
    simp only [calls] at h
    obtain ⟨s2, e1, e2⟩ := Run.bind_eq_done h
    exact ih s2 s1 (bin_call_ternary s s2 c hv e1) e2

theorem acquire_loop_pass (n : Nat) (s : binary_semaphore) (next prev : Int) :
    acquire_loop (n + 1) s next prev =
      match acquire_pass s next prev with
      | .acquired s1 => Run.done s1
      | .waits s1 e nx =>
        (detail.concurrency.wait s1._value e).bind fun _ => acquire_loop n s1 nx s1._value
      | .retry p => acquire_loop n s next p := by
  simp only [acquire_loop, acquire_pass]
  generalize (if prev = 1 then cas s._value prev next else (false, s._value, prev)) = c1
  cases h1 : c1.1 with
  | true => simp
  | false =>
    simp only [Bool.false_eq_true, if_false]
    generalize (if c1.2.2 = -1 then (true, s._value, c1.2.2)
      else cas s._value c1.2.2 (-1)) = c2
    cases h2 : c2.1 <;> simp

theorem try_acquire_until_loop_pass (n : Nat) (s : binary_semaphore) (next prev t now : Int) :
    try_acquire_until_loop (n + 1) s next prev t now =
      match try_acquire_until_pass s next prev t now with
      | .acquired s1 => Run.done (true, s1, now)
      | .timed_out s1 => Run.done (false, s1, now)
      | .waits s1 e nx =>
        try_acquire_until_loop n s1 nx s1._value t
          (advance now (detail.concurrency.wait_for s1._value e (remaining_ms t now)))
      | .retry p => try_acquire_until_loop n s next p t now := by
  simp only [try_acquire_until_loop, try_acquire_until_pass]
  generalize (if prev = 1 then cas s._value prev next else (false, s._value, prev)) = c1
  cases h1 : c1.1 with
  | true => simp
  | false =>
    simp only [Bool.false_eq_true, if_false]
    generalize (if c1.2.2 = -1 then (true, s._value, c1.2.2)
      else cas s._value c1.2.2 (-1)) = c2
    cases h2 : c2.1 with
    | false => simp
    | true =>
      simp only [if_true]
      by_cases hdt : remaining_ms t now ≤ 0 <;> simp [hdt]

theorem acquire_pass_eq (s : binary_semaphore) (next prev : Int) :
    acquire_pass s next prev =
      if prev = 1 then
        if s._value = 1 then pass.acquired ⟨next⟩ else pass.waits ⟨-1⟩ s._value (-1)
      else if prev = -1 then pass.waits s (-1) (-1)
      else if s._value = prev then pass.waits ⟨-1⟩ prev (-1)
      else pass.retry s._value := by
  by_cases h1 : prev = 1
  · subst h1
    by_cases h2 : s._value = 1
    · simp [acquire_pass, cas, h2]
    · by_cases h3 : s._value = -1
      · simp [acquire_pass, cas, h3]
      · simp [acquire_pass, cas, h2, h3]
  · by_cases h3 : prev = -1
    · subst h3
      simp [acquire_pass, cas]
    · by_cases h4 : s._value = prev
      · simp [acquire_pass, cas, h1, h3, h4]
      · simp [acquire_pass, cas, h1, h3, h4]

theorem try_acquire_until_pass_eq (s : binary_semaphore) (next prev t now : Int) :
    try_acquire_until_pass s next prev t now =
      if prev = 1 then
        if s._value = 1 then timed_pass.acquired ⟨next⟩
        else if remaining_ms t now ≤ 0 then timed_pass.timed_out ⟨-1⟩
        else timed_pass.waits ⟨-1⟩ s._value (-1)
      else if prev = -1 then
        if remaining_ms t now ≤ 0 then timed_pass.timed_out s
        else timed_pass.waits s (-1) (-1)
      else if s._value = prev then
        if remaining_ms t now ≤ 0 then timed_pass.timed_out ⟨-1⟩
        else timed_pass.waits ⟨-1⟩ prev (-1)
      else timed_pass.retry s._value := by
  by_cases hdt : remaining_ms t now ≤ 0 <;> by_cases h1 : prev = 1
  · subst h1
    by_cases h2 : s._value = 1
    · simp [try_acquire_until_pass, cas, h2]
    · by_cases h3 : s._value = -1
      · simp [try_acquire_until_pass, cas, h3, hdt]
      · simp [try_acquire_until_pass, cas, h2, h3, hdt]
  · by_cases h3 : prev = -1
    · subst h3
      simp [try_acquire_until_pass, cas, hdt]
    · by_cases h4 : s._value = prev
      · simp [try_acquire_until_pass, cas, h1, h3, h4, hdt]
      · simp [try_acquire_until_pass, cas, h1, h3, h4]
  · subst h1
    by_cases h2 : s._value = 1
    · simp [try_acquire_until_pass, cas, h2]
    · by_cases h3 : s._value = -1
      · simp [try_acquire_until_pass, cas, h3, hdt]
      · simp [try_acquire_until_pass, cas, h2, h3, hdt]
  · by_cases h3 : prev = -1
    · subst h3
      simp [try_acquire_until_pass, cas, hdt]
    · by_cases h4 : s._value = prev
      · simp [try_acquire_until_pass, cas, h1, h3, h4, hdt]
      · simp [try_acquire_until_pass, cas, h1, h3, h4]

theorem pass_ternary (s : binary_semaphore) (waited : Bool) (prev : Int)
    (hv : s._value = 1 ∨ s._value = 0 ∨ s._value = -1) :
    ((acquire_pass s (if waited then -1 else 0) prev).state s)._value = 1 ∨
    ((acquire_pass s (if waited then -1 else 0) prev).state s)._value = 0 ∨
    ((acquire_pass s (if waited then -1 else 0) prev).state s)._value = -1 := by
  rw [acquire_pass_eq]
  split
  · split
    · cases waited <;> simp [pass.state]
    · simp [pass.state]
  · split
    · simpa [pass.state] using hv
    · split
      · simp [pass.state]
      · simpa [pass.state] using hv

theorem timed_pass_ternary (s : binary_semaphore) (waited : Bool) (prev t now : Int)
    (hv : s._value = 1 ∨ s._value = 0 ∨ s._value = -1) :
    ((try_acquire_until_pass s (if waited then -1 else 0) prev t now).state s)._value = 1 ∨
    ((try_acquire_until_pass s (if waited then -1 else 0) prev t now).state s)._value = 0 ∨
    ((try_acquire_until_pass s (if waited then -1 else 0) prev t now).state s)._value = -1 := by
  rw [try_acquire_until_pass_eq]
  split
  · split
    · cases waited <;> simp [timed_pass.state]
    · split <;> simp [timed_pass.state]
  · split
    · split <;> simpa [timed_pass.state] using hv
    · split
      · split <;> simp [timed_pass.state]
      · simpa [timed_pass.state] using hv

theorem step_ternary (s s1 : binary_semaphore) (x : step)
    (hv : s._value = 1 ∨ s._value = 0 ∨ s._value = -1) (h : step.run s x = Run.done s1) :
    s1._value = 1 ∨ s1._value = 0 ∨ s1._value = -1 := by
  cases x with
  | call c => exact bin_call_ternary s s1 c hv h
  | pass waited prev =>
    simp only [step.run, Run.done.injEq] at h
    subst h
    exact pass_ternary s waited prev hv
  | timed_pass waited prev t now =>
    simp only [step.run, Run.done.injEq] at h
    subst h
    exact timed_pass_ternary s waited prev t now hv

theorem steps_ternary (xs : List step) : ∀ (s s1 : binary_semaphore),
    (s._value = 1 ∨ s._value = 0 ∨ s._value = -1) → steps xs s = Run.done s1 →
    s1._value = 1 ∨ s1._value = 0 ∨ s1._value = -1 := by
  induction xs with
  | nil =>
    intro s s1 hv h
    simp only [steps, Run.done.injEq] at h
    subst h
    exact hv
  | cons x xs ih =>
    intro s s1 hv h
    simp only [steps] at h
    obtain ⟨s2, e1, e2⟩ := Run.bind_eq_done h
    exact ih s2 s1 (step_ternary s s2 x hv e1) e2

theorem acquire_woken_free (s : binary_semaphore) (next : Int) (h : s._value = 1) :
    s.acquire_woken next = Run.done ⟨next⟩ := by
  simp [acquire_woken, acquire_loop_pass, acquire_pass_eq, h]

/-- C28: a binary semaphore constructed by `counting_semaphore<1>(desired)` holds 1,
0 or -1 after every sequence of steps made on it by any number of threads: calls
of `release`, `try_acquire`, `acquire` and `try_acquire_until` that return, and
single passes through the loop of an `acquire` or `try_acquire_until` that waits,
entered with any stale `prev` and with `next` at 0 before the first wait and at -1
after it.  The two loops are exactly iterations of these passes, a pass that waits
sets `next` to -1, and an acquire woken on an available semaphore stores its
`next`, so 0 at first and -1 once it has waited.  In each such state `release()`
stores 1 and issues one wake request, for one waiter, exactly when the state was
-1; `try_acquire` returns `true` exactly when the state was 1, leaving 0, and
otherwise leaves the state as it was. -/
theorem ternary_state (desired : Int) (xs : List step) (s0 s : binary_semaphore)
    (h0 : new desired = Run.done s0) (h : steps xs s0 = Run.done s) :
    (s._value = 1 ∨ s._value = 0 ∨ s._value = -1) ∧
    s.release 1 = Run.done (⟨1⟩, if s._value = -1 then [wake_call.wake 1] else []) ∧
    (s.try_acquire.1 = true ↔ s._value = 1) ∧
    (s._value = 1 → s.try_acquire = (true, ⟨0⟩)) ∧
    (s._value ≠ 1 → s.try_acquire = (false, s)) ∧
    (∀ (n : Nat) (next prev : Int),
      acquire_loop (n + 1) s next prev =
        match acquire_pass s next prev with
        | .acquired s1 => Run.done s1
        | .waits s1 e nx =>
          (detail.concurrency.wait s1._value e).bind fun _ => acquire_loop n s1 nx s1._value
        | .retry p => acquire_loop n s next p) ∧
    (∀ (n : Nat) (next prev t now : Int),
      try_acquire_until_loop (n + 1) s next prev t now =
        match try_acquire_until_pass s next prev t now with
        | .acquired s1 => Run.done (true, s1, now)
        | .timed_out s1 => Run.done (false, s1, now)
        | .waits s1 e nx =>
          try_acquire_until_loop n s1 nx s1._value t
            (advance now (detail.concurrency.wait_for s1._value e (remaining_ms t now)))
        | .retry p => try_acquire_until_loop n s next p t now) ∧
    (∀ (next prev : Int) (s1 : binary_semaphore) (e nx : Int),
      acquire_pass s next prev = pass.waits s1 e nx → nx = -1) ∧
    (∀ (next prev t now : Int) (s1 : binary_semaphore) (e nx : Int),
      try_acquire_until_pass s next prev t now = timed_pass.waits s1 e nx → nx = -1) ∧
    (s._value = 1 → ∀ next : Int, s.acquire_woken next = Run.done ⟨next⟩) := by
  have hv0 : s0._value = 1 ∨ s0._value = 0 ∨ s0._value = -1 := by
    unfold new at h0
    obtain ⟨_, _, e⟩ := Run.bind_eq_done h0
    simp only [Run.done.injEq] at e
    subst e
    simp only
    split
    · exact Or.inl rfl
    · exact Or.inr (Or.inl rfl)
  refine ⟨steps_ternary xs s0 s hv0 h, by simp [release, assert], ?_, ?_, ?_,
    fun n next prev => acquire_loop_pass n s next prev,
    fun n next prev t now => try_acquire_until_loop_pass n s next prev t now, ?_, ?_,
    fun h1 next => acquire_woken_free s next h1⟩
  · by_cases h1 : s._value = 1 <;> simp [try_acquire, h1]
  · intro h1
    simp [try_acquire, h1]
  · intro h1
    simp [try_acquire, h1]
  · intro next prev s1 e nx hp
    rw [acquire_pass_eq] at hp
    split at hp
    · split at hp
      · simp at hp
      · simp only [pass.waits.injEq] at hp
        exact hp.2.2.symm
    · split at hp
      · simp only [pass.waits.injEq] at hp
        exact hp.2.2.symm
      · split at hp
        · simp only [pass.waits.injEq] at hp
          exact hp.2.2.symm
        · simp at hp
  · intro next prev t now s1 e nx hp
    rw [try_acquire_until_pass_eq] at hp
    split at hp
    · split at hp
      · simp at hp
      · split at hp
        · simp at hp
        · simp only [timed_pass.waits.injEq] at hp
          exact hp.2.2.symm
    · split at hp
      · split at hp
        · simp at hp
        · simp only [timed_pass.waits.injEq] at hp
          exact hp.2.2.symm
      · split at hp
        · split at hp
          · simp at hp
          · simp only [timed_pass.waits.injEq] at hp
            exact hp.2.2.symm
        · simp at hp

/-- Witness for C28: a semaphore constructed available is taken by `try_acquire`; a
second thread enters `acquire`, stores -1 and waits; `release` stores 1 and wakes
it; its next pass, with `next = -1`, takes the semaphore and leaves -1. -/
theorem ternary_state_witness :
    new 1 = Run.done ⟨1⟩ ∧
    steps [step.call call.try_acquire, step.pass false 0] ⟨1⟩ = Run.done ⟨-1⟩ ∧
    acquire_pass ⟨0⟩ 0 0 = pass.waits ⟨-1⟩ 0 (-1) ∧
    (⟨-1⟩ : binary_semaphore).release 1 = Run.done (⟨1⟩, [wake_call.wake 1]) ∧
    acquire_pass ⟨1⟩ (-1) 1 = pass.acquired ⟨-1⟩ ∧
    (⟨1⟩ : binary_semaphore).acquire_woken (-1) = Run.done ⟨-1⟩ ∧
    steps [step.call call.try_acquire, step.pass false 0, step.call (call.release 1),
        step.pass true 1] ⟨1⟩ = Run.done ⟨-1⟩ ∧
    steps [step.call call.try_acquire, step.timed_pass false 0 0 0,
        step.call (call.release 1), step.call call.acquire] ⟨1⟩ = Run.done ⟨0⟩ ∧
    (((-1 : Int) = 1 ∨ (-1 : Int) = 0 ∨ (-1 : Int) = -1) ∧
      (⟨-1⟩ : binary_semaphore).release 1
        = Run.done (⟨1⟩, if (-1 : Int) = -1 then [wake_call.wake 1] else [])) :=
  ⟨by decide, by decide, by decide, by decide, by decide, by decide, by decide, by decide,
    (ternary_state 1 [step.call call.try_acquire, step.pass false 0,
        step.call (call.release 1), step.pass true 1] ⟨1⟩ ⟨-1⟩ (by decide) (by decide)).1,
    (ternary_state 1 [step.call call.try_acquire, step.pass false 0,
        step.call (call.release 1), step.pass true 1] ⟨1⟩ ⟨-1⟩ (by decide) (by decide)).2.1⟩

end binary_semaphore

/-! ## The latch -/

namespace latch

theorem arrive_count_down (l : latch) (n : Int) :
    (l.count_down n).map Prod.fst = call.arrive l (call.count_down n) := by
  unfold count_down call.arrive call.amount
  cases assert (decide (0 ≤ n) && decide (n ≤ max)) <;> rfl

theorem arrive_of_arrive_and_wait (l : latch) (n : Int) (r : latch × List wake_call)
    (h : l.arrive_and_wait n = Run.done r) :
    call.arrive l (call.arrive_and_wait n) = Run.done r.1 := by
  unfold arrive_and_wait at h
  unfold call.arrive call.amount
  obtain ⟨_, ha, e⟩ := Run.bind_eq_done h
  rw [ha]
  simp only [Run.done_bind] at e ⊢
  split at e
  · simp only [Run.done.injEq] at e
    subst e
    rfl
  · obtain ⟨_, _, e⟩ := Run.map_eq_done e
    subst e
    rfl

theorem latch_wait_cases (l : latch) :
    l.wait = if l._value = 0 then Run.done () else Run.blocked := by
  by_cases h : l._value = 0 <;> simp [wait, wait_loop, detail.concurrency.wait, h]

theorem arrive_in_range (l : latch) (x : call) (hv : l._value < 4294967296)
    (h0 : 0 ≤ x.amount) (hle : x.amount ≤ l._value) :
    call.arrive l x = Run.done ⟨(l._value - x.amount).toNat⟩ := by
  have h1 : x.amount ≤ max := by
    unfold max
    omega
  have e : to_u32 ((l._value : Int) - (to_u32 x.amount : Nat)) = (l._value - x.amount).toNat := by
    unfold to_u32
    omega
  simp [call.arrive, assert, h0, h1, fetch_sub, e]

theorem total_nonneg (cs : List call) (hpos : ∀ x ∈ cs, 0 ≤ x.amount) : 0 ≤ total cs := by
  induction cs with
  | nil => simp [total]
  | cons d ds ih =>
    have := hpos d (List.mem_cons_self d ds)
    have := ih (fun x hx => hpos x (List.mem_cons_of_mem d hx))
    simp only [total]
    omega

theorem arrivals_in_range (cs : List call) : ∀ (l : latch), l._value < 4294967296 →
    (∀ x ∈ cs, 0 ≤ x.amount) → total cs ≤ l._value →
    arrivals cs l = Run.done ⟨(l._value - total cs).toNat⟩ := by
  induction cs with
  | nil =>
    intro l _ _ _
    simp [arrivals, total]
  | cons c cs ih =>
    intro l hv hpos hsum
    have hc : 0 ≤ c.amount := hpos c (List.mem_cons_self c cs)
    have hcs : ∀ x ∈ cs, 0 ≤ x.amount := fun x hx => hpos x (List.mem_cons_of_mem c hx)
    have ht := total_nonneg cs hcs
    simp only [total] at hsum
    rw [arrivals, arrive_in_range l c hv hc (by omega), Run.done_bind,
      ih _ (by simp only; omega) hcs (by simp only; omega)]
    simp only [total, Run.done.injEq, latch.mk.injEq]
    omega

theorem arrive_and_wait_cases (l : latch) (n : Int) (hv : l._value < 4294967296)
    (hn : 0 ≤ n) (hle : n ≤ l._value) :
    l.arrive_and_wait n
      = if n = l._value then Run.done (⟨0⟩, [wake_call.wake_all]) else Run.blocked := by
  have hnm : n ≤ max := by
    unfold max
    omega
  have e1 : to_u32 ((l._value : Int) - (to_u32 n : Nat)) = (l._value - n).toNat := by
    unfold to_u32
    omega
  by_cases h : n = l._value
  · have e2 : ((l._value : Int) - n).toNat = 0 := by omega
    rw [if_pos h]
    simp only [arrive_and_wait, assert, hn, hnm, decide_True, Bool.and_self, if_true,
      Run.done_bind, fetch_sub, e1, e2]
  · have e2 : ((l._value : Int) - n).toNat ≠ 0 := by omega
    rw [if_neg h]
    simp only [arrive_and_wait, assert, hn, hnm, decide_True, Bool.and_self, if_true,
      Run.done_bind, fetch_sub, e1, e2, if_false, arrive_loop, detail.concurrency.wait,
      Run.blocked_bind, Run.map_blocked]

/-- C22: for a latch constructed with count `c` and any sequence of `count_down` and
`arrive_and_wait` arrivals with amounts `n >= 0` whose sum stays at most `c`, the
counter is `c` minus the sum; `try_wait` returns `true` exactly when the sum equals
`c`; `wait` returns when the sum equals `c` and parks otherwise; and a further
`arrive_and_wait(n)` returns (issuing a wake-all) when it brings the sum to `c` and
parks when it leaves the sum below `c`. -/
theorem opens_at_count (c : Int) (cs : List call) (l0 : latch) (n : Int)
    (h0 : new c = Run.done l0) (hpos : ∀ x ∈ cs, 0 ≤ x.amount) (hn : 0 ≤ n)
    (hsum : total cs + n ≤ c) :
    ∃ l, arrivals cs l0 = Run.done l ∧ (l._value : Int) = c - total cs ∧
      (l.try_wait = true ↔ total cs = c) ∧
      l.wait = (if total cs = c then Run.done () else Run.blocked) ∧
      l.arrive_and_wait n
        = (if total cs + n = c then Run.done (⟨0⟩, [wake_call.wake_all]) else Run.blocked) ∧
      (l.count_down n).map Prod.fst = Run.done ⟨(c - total cs - n).toNat⟩ := by
  have hc : 0 ≤ c ∧ c ≤ 4294967295 ∧ l0 = ⟨c.toNat⟩ := by
    unfold new at h0
    obtain ⟨_, ha, e⟩ := Run.bind_eq_done h0
    simp only [Run.done.injEq] at e
    unfold assert at ha
    split at ha
    · rename_i hd
      simp only [Bool.and_eq_true, decide_eq_true_eq, max] at hd
      refine ⟨hd.1, hd.2, ?_⟩
      rw [← e]
      simp only [latch.mk.injEq, to_u32]
      omega
    · simp at ha
  obtain ⟨hc0, hc1, hl0⟩ := hc
  subst hl0
  have ht := total_nonneg cs hpos
  have e0 := arrivals_in_range cs ⟨c.toNat⟩ (by simp only; omega) hpos (by simp only; omega)
  simp only at e0
  obtain ⟨v, hv⟩ : ∃ v : Nat, ((c.toNat : Int) - total cs).toNat = v := ⟨_, rfl⟩
  rw [hv] at e0
  have hval : (v : Int) = c - total cs := by omega
  refine ⟨⟨v⟩, e0, hval, ?_, ?_, ?_, ?_⟩
  · simp only [try_wait, beq_iff_eq]
    omega
  · rw [latch_wait_cases]
    by_cases h : total cs = c
    · have : v = 0 := by omega
      simp [h, this]
    · have : v ≠ 0 := by omega
      simp [h, this]
  · rw [arrive_and_wait_cases ⟨v⟩ n (by simp only; omega) hn (by simp only; omega)]
    by_cases h : total cs + n = c
    · have : n = (v : Int) := by omega
      rw [if_pos h, if_pos this]
    · have : ¬ n = (v : Int) := by omega
      rw [if_neg h, if_neg this]
  · rw [arrive_count_down, arrive_in_range ⟨v⟩ (call.count_down n) (by simp only; omega)
      (by simpa [call.amount] using hn) (by simp only [call.amount]; omega)]
    simp only [call.amount, Run.done.injEq, latch.mk.injEq]
    omega

/-- Witness for C22: the test `basic invariants` (a latch of count 1 after
`count_down(1)`, and `arrive_and_wait()` on a fresh latch of count 1), and a latch
of count 5 reached by a `count_down(1)`, an `arrive_and_wait(2)` and a final
`arrive_and_wait(2)`. -/
theorem opens_at_count_witness :
    ((⟨1⟩ : latch).count_down 1).map Prod.fst = Run.done ⟨0⟩ ∧
    (⟨0⟩ : latch).wait = Run.done () ∧ (⟨0⟩ : latch).try_wait = true ∧
    (⟨1⟩ : latch).arrive_and_wait 1 = Run.done (⟨0⟩, [wake_call.wake_all]) ∧
    new 5 = Run.done ⟨5⟩ ∧
    arrivals [call.count_down 1, call.arrive_and_wait 2] ⟨5⟩ = Run.done ⟨2⟩ ∧
    (⟨2⟩ : latch).wait = Run.blocked ∧
    (⟨2⟩ : latch).arrive_and_wait 2 = Run.done (⟨0⟩, [wake_call.wake_all]) ∧
    (∃ l, arrivals [call.count_down 1, call.arrive_and_wait 2] (⟨5⟩ : latch) = Run.done l ∧
      (l._value : Int) = 5 - total [call.count_down 1, call.arrive_and_wait 2] ∧
      (l.try_wait = true ↔ total [call.count_down 1, call.arrive_and_wait 2] = 5) ∧
      l.wait = (if total [call.count_down 1, call.arrive_and_wait 2] = (5 : Int)
        then Run.done () else Run.blocked) ∧
      l.arrive_and_wait 2
        = (if total [call.count_down 1, call.arrive_and_wait 2] + 2 = (5 : Int)
            then Run.done (⟨0⟩, [wake_call.wake_all]) else Run.blocked) ∧
      (l.count_down 2).map Prod.fst
        = Run.done ⟨((5 : Int) - total [call.count_down 1, call.arrive_and_wait 2] - 2).toNat⟩) :=
  ⟨by decide, by decide, by decide, by decide, by decide, by decide, by decide, by decide,
    opens_at_count 5 [call.count_down 1, call.arrive_and_wait 2] ⟨5⟩ 2 (by decide)
      (by simp [call.amount]) (by decide) (by decide)⟩

theorem arrive_and_wait_phases (l : latch) (n : Int) :
    l.arrive_and_wait n =
      (call.arrive l (call.arrive_and_wait n)).bind fun l1 =>
        if l1._value = 0 then Run.done (l1, [wake_call.wake_all])
        else (arrive_loop 1 l1 l1._value).map fun _ => (l1, []) := by
  unfold arrive_and_wait call.arrive call.amount
  cases assert (decide (0 ≤ n) && decide (n ≤ max)) <;> rfl

theorem count_down_in_range (l : latch) (n : Int) (hv : l._value < 4294967296)
    (h0 : 0 ≤ n) (hle : n ≤ l._value) :
    l.count_down n = Run.done (⟨(l._value - n).toNat⟩,
      if n = l._value then [wake_call.wake_all] else []) := by
  have h1 : n ≤ max := by
    unfold max
    omega
  have e : to_u32 ((l._value : Int) - (to_u32 n : Nat)) = (l._value - n).toNat := by
    unfold to_u32
    omega
  simp [count_down, assert, h0, h1, fetch_sub, e]

theorem runs_zero (cs : List call) (hcs : ∀ y ∈ cs, y.amount = 0) :
    runs cs ⟨0⟩ = Run.done ⟨0⟩ := by
  induction cs with
  | nil => rfl
  | cons c cs ih =>
    have hc := hcs c (List.mem_cons_self c cs)
    have e : call.run ⟨0⟩ c = Run.done ⟨0⟩ := by
      cases c with
      | count_down n =>
        simp only [call.amount] at hc
        subst hc
        decide
      | arrive_and_wait n =>
        simp only [call.amount] at hc
        subst hc
        decide
    rw [runs, e, Run.done_bind]
    exact ih (fun y hy => hcs y (List.mem_cons_of_mem c hy))

/-- C23 fails as stated: the subtraction is made in 32 bits with no check against
the counter, so a second `count_down(1)` on a latch of count 1 takes the counter
from 0 to `2^32 - 1`: the count has grown, `try_wait` is `false` again and `wait`
parks. -/
theorem count_wraps_below_zero :
    ((new 1).bind (runs [call.count_down 1])) = Run.done ⟨0⟩ ∧
    ((new 1).bind (runs [call.count_down 1, call.count_down 1]))
      = Run.done ⟨4294967295⟩ ∧
    (⟨0⟩ : latch).count_down 1 = Run.done (⟨4294967295⟩, []) ∧
    (⟨4294967295⟩ : latch).try_wait = false ∧
    (⟨4294967295⟩ : latch).wait = Run.blocked ∧
    (⟨0⟩ : latch).arrive_and_wait 1 = Run.blocked ∧
    call.arrive (⟨0⟩ : latch) (call.arrive_and_wait 1) = Run.done ⟨4294967295⟩ := by
  refine ⟨by decide, by decide, by decide, by decide, by decide, by decide, by decide⟩

/-- C23, amended: for a latch with a 32-bit counter and every `n` with
`0 <= n <= count`: `count_down(n)` returns and leaves `count - n`, at most the count
before it; `arrive_and_wait(n)` first subtracts, leaving `count - n`, and then
returns at once if that is zero and parks otherwise, so it returns exactly when
`n = count`, leaving zero.  Once the count is zero the calls within that range are
those with `n = 0`: each returns and leaves zero, any number of them in a row
leave zero, `try_wait` stays `true` and `wait` returns at once. -/
theorem count_non_increasing (l : latch) (n : Int) (hv : l._value < 4294967296)
    (h0 : 0 ≤ n) (hle : n ≤ l._value) :
    l.count_down n = Run.done (⟨(l._value - n).toNat⟩,
      if n = l._value then [wake_call.wake_all] else []) ∧
    l.arrive_and_wait n =
      ((call.arrive l (call.arrive_and_wait n)).bind fun l1 =>
        if l1._value = 0 then Run.done (l1, [wake_call.wake_all])
        else (arrive_loop 1 l1 l1._value).map fun _ => (l1, [])) ∧
    call.arrive l (call.arrive_and_wait n) = Run.done ⟨(l._value - n).toNat⟩ ∧
    l.arrive_and_wait n
      = (if n = l._value then Run.done (⟨0⟩, [wake_call.wake_all]) else Run.blocked) ∧
    ((l._value : Int) - n).toNat ≤ l._value ∧
    (l._value = 0 →
      l.count_down n = Run.done (l, [wake_call.wake_all]) ∧
      l.arrive_and_wait n = Run.done (l, [wake_call.wake_all]) ∧
      l.try_wait = true ∧ l.wait = Run.done () ∧
      ∀ cs : List call, (∀ y ∈ cs, y.amount = 0) → runs cs l = Run.done l) := by
  have hcd := count_down_in_range l n hv h0 hle
  have haw := arrive_and_wait_cases l n hv h0 hle
  refine ⟨hcd, arrive_and_wait_phases l n,
    arrive_in_range l (call.arrive_and_wait n) hv h0 hle, haw, by omega, ?_⟩
  intro hz
  have hl : l = ⟨0⟩ := by
    cases l
    simp only [latch.mk.injEq]
    exact hz
  have hn : n = 0 := by omega
  subst hl hn
  refine ⟨by decide, by decide, by decide, by decide, fun cs hcs => runs_zero cs hcs⟩

/-- Witness for C23, amended: `count_down(2)` and `arrive_and_wait(2)` on a latch of
count 5, and `arrive_and_wait(5)`, which returns. -/
theorem count_non_increasing_witness :
    (⟨5⟩ : latch).count_down 2 = Run.done (⟨3⟩, []) ∧
    (⟨5⟩ : latch).arrive_and_wait 2 = Run.blocked ∧
    call.arrive (⟨5⟩ : latch) (call.arrive_and_wait 2) = Run.done ⟨3⟩ ∧
    (⟨5⟩ : latch).arrive_and_wait 5 = Run.done (⟨0⟩, [wake_call.wake_all]) ∧
    runs [call.count_down 2, call.count_down 0, call.arrive_and_wait 3, call.count_down 0]
      ⟨5⟩ = Run.done ⟨0⟩ ∧
    (⟨5⟩ : latch).arrive_and_wait 2
      = (if (2 : Int) = (5 : Nat) then Run.done (⟨0⟩, [wake_call.wake_all])
          else Run.blocked) :=
  ⟨by decide, by decide, by decide, by decide, by decide,
    (count_non_increasing ⟨5⟩ 2 (by decide) (by decide) (by decide)).2.2.2.1⟩

end latch

/-! ## Closing a transport -/

namespace mpsc

open detail

variable {T : Type}

theorem acquire_parks {lmv : Int} (s : counting_semaphore lmv) (h : s._data.value = 0) :
    s.acquire = counting_semaphore.acquire_loop 1 s.parked s._data ∧
      s.acquire = Run.blocked :=
  ⟨by simp [counting_semaphore.acquire, h, counting_semaphore.parked],
    counting_semaphore.acquire_zero s h⟩

theorem bd_close_eq (s : bounded_channel T) (n : node T) (h : s.mem[s.first]? = some (some n)) :
    s.close = Run.done
      { s with
        is_open := false
        producer_sem := ⟨⟨(s.producer_sem._data.value + 1) % 4294967296,
          s.producer_sem._data.waiting⟩⟩ } := by
  have e : to_u32 1 = 1 := by decide
  have hle : ((s.producer_sem._data.value : Int) + 1) % 4294967296 ≤ 4294967295 := by omega
  by_cases hw : s.producer_sem._data.waiting = 0
  · simp [bounded_channel.close, heap.load_of_get h, counting_semaphore.release, assert,
      counting_semaphore.max, e, counting_semaphore.data.add_value, hw, hle]
  · simp [bounded_channel.close, heap.load_of_get h, counting_semaphore.release, assert,
      counting_semaphore.max, e, counting_semaphore.data.add_value, hw, hle]

theorem push_keeps_flag {s s1 : bounded_channel T} {v : T} {r : send_result T}
    (h : s.push v = Run.done (r, s1)) : r = ⟨status.OK, none⟩ ∧ s1.is_open = s.is_open := by
  refine ⟨push_result h, ?_⟩
  unfold bounded_channel.push at h
  split at h
  · simp at h
  · obtain ⟨_, _, h⟩ := Run.bind_eq_done h
    obtain ⟨_, _, h⟩ := Run.bind_eq_done h
    obtain ⟨_, _, h⟩ := Run.bind_eq_done h
    simp only [Run.done.injEq, Prod.mk.injEq] at h
    rw [← h.2]

theorem acquire_woken_eq {lmv : Int} (s : counting_semaphore lmv)
    (hv : s._data.value ≠ 0) :
    s.acquire_woken = Run.done ⟨s._data.add (-1) (-1)⟩ := by
  simp [counting_semaphore.acquire_woken, counting_semaphore.acquire_loop, hv, cas]

theorem try_acquire_until_woken_eq {lmv : Int} (s : counting_semaphore lmv) (t now : Int)
    (hv : s._data.value ≠ 0) :
    s.try_acquire_until_woken t now
      = if remaining_ms t now ≤ 0 then Run.done (false, ⟨s._data.add 0 (-1)⟩, now)
        else Run.done (true, ⟨s._data.add (-1) (-1)⟩, now) := by
  by_cases hdt : remaining_ms t now ≤ 0
  · simp [counting_semaphore.try_acquire_until_woken,
      counting_semaphore.try_acquire_until_loop, hdt]
  · simp [counting_semaphore.try_acquire_until_woken,
      counting_semaphore.try_acquire_until_loop, hdt, hv, cas]

theorem send_parks (s : bounded_channel T) (v : T) (ho : s.is_open = true)
    (hv : s.producer_sem._data.value = 0) :
    s.send v
      = ((counting_semaphore.acquire_loop 1 s.send_parked.producer_sem
            s.producer_sem._data).bind fun sem =>
          bounded_channel.push { s with producer_sem := sem } v) ∧
    s.send v = Run.blocked := by
  have h1 := (acquire_parks s.producer_sem hv).1
  have h2 := (acquire_parks s.producer_sem hv).2
  constructor
  · simp only [bounded_channel.send, ho, Bool.not_true, Bool.false_eq_true, if_false, h1,
      bounded_channel.send_parked]
  · simp [bounded_channel.send, ho, h2]

/-- C25 fails on the code in its second half.  `close` does store `open = false` and
release exactly one permit (on every transport whose head pointer is valid).  A
producer that finds no permit parks inside `acquire`, in the loop that the rest of
its `send` re-enters when it is woken; that rest is the end of `acquire` followed by
`push`, it never reads `open`, and whenever it returns it returns `OK` with an
empty payload.  On a channel of capacity 1 holding 42, with a producer parked in
`send(43)`: after `close` the flag is clear and one permit is free; the woken
producer takes it, links 43 behind 42 in the node kept back as `retired`, leaving
no free node, and returns `OK`; the closed channel then holds two values, which
`receive` hands out in order.  `try_send_until` does the same.  A `send(43)` that
starts after `close` returns `CLOSED` with 43. -/
theorem woken_producer_enqueues :
    (∀ (s : bounded_channel Nat) (n : node Nat), s.mem[s.first]? = some (some n) →
      s.close = Run.done
        { s with
          is_open := false
          producer_sem := ⟨⟨(s.producer_sem._data.value + 1) % 4294967296,
            s.producer_sem._data.waiting⟩⟩ }) ∧
    (∀ (s : bounded_channel Nat) (v : Nat), s.is_open = true →
      s.producer_sem._data.value = 0 →
      s.send v
        = ((counting_semaphore.acquire_loop 1 s.send_parked.producer_sem
              s.producer_sem._data).bind fun sem =>
            bounded_channel.push { s with producer_sem := sem } v) ∧
      s.send v = Run.blocked) ∧
    (∀ (s : bounded_channel Nat) (v : Nat),
      s.send_woken v
        = ((counting_semaphore.acquire_loop 1 s.producer_sem s.producer_sem._data).bind
            fun sem => bounded_channel.push { s with producer_sem := sem } v)) ∧
    (∀ (s s1 : bounded_channel Nat) (v : Nat) (r : send_result Nat),
      s.send_woken v = Run.done (r, s1) → r = ⟨status.OK, none⟩ ∧ s1.is_open = s.is_open) ∧
    ((bounded_channel.new 1).bind fun s : bounded_channel Nat =>
        (s.send 42).bind fun r => r.2.send 43) = Run.blocked ∧
    parked_producer
      = Run.done
          { mem := [some ⟨none, some 1⟩, some ⟨some 42, none⟩, some ⟨none, none⟩],
            first := 0, retired := 2, producer_sem := ⟨⟨0, 1⟩⟩, ready := ⟨1⟩,
            is_open := true, last := 1, available := some 2, count := 1 } ∧
    (parked_producer.bind fun s => s.close).map (fun s => (s.is_open, s.producer_sem._data))
      = Run.done (false, ⟨1, 1⟩) ∧
    (parked_producer.bind fun s => s.close.bind fun s1 => s1.send_woken 43)
      = Run.done (⟨status.OK, none⟩,
          { mem := [some ⟨none, some 1⟩, some ⟨some 42, some 2⟩, some ⟨some 43, none⟩],
            first := 0, retired := 2, producer_sem := ⟨⟨0, 0⟩⟩, ready := ⟨3⟩,
            is_open := false, last := 2, available := none, count := 1 }) ∧
    (parked_producer.bind fun s => s.close.bind fun s1 =>
        (s1.send_woken 43).bind fun r => r.2.receive.bind fun a =>
          a.2.receive.map fun b => (a.1, b.1))
      = Run.done (⟨some 42, status.OK⟩, ⟨some 43, status.OK⟩) ∧
    (parked_producer.bind fun s => s.close.bind fun s1 =>
        s1.try_send_until_woken 43 1000000000 0).map Prod.fst
      = Run.done ⟨status.OK, none⟩ ∧
    (parked_producer.bind fun s => s.close.bind fun s1 => s1.send 43).map Prod.fst
      = Run.done ⟨status.CLOSED, some 43⟩ := by
  refine ⟨bd_close_eq, fun s v ho hv => send_parks s v ho hv, fun s v => rfl,
    fun s s1 v r h => ?_, by decide, by decide, by decide, by decide, by decide, by decide,
    by decide⟩
  unfold bounded_channel.send_woken at h
  obtain ⟨_, _, h⟩ := Run.bind_eq_done h
  simpa using push_keeps_flag h

/-- C26 fails as stated on the bounded transport: every `close` releases a permit.
On a fresh channel of capacity 1 the semaphore holds 2 permits after one `close` and
3 after two. -/
theorem bounded_close_twice :
    ((bounded_channel.new 1).bind fun s : bounded_channel Nat => s.close).map
        (fun s => (s.is_open, s.producer_sem._data.value)) = Run.done (false, 2) ∧
    ((bounded_channel.new 1).bind fun s : bounded_channel Nat => s.close.bind fun s1 =>
        s1.close).map
        (fun s => (s.is_open, s.producer_sem._data.value)) = Run.done (false, 3) := by
  refine ⟨by decide, by decide⟩

/-- C26, amended: on the unbounded and the rendezvous transport, in any state, a
second `close` changes nothing: the state after `close; close` is the state after
one `close`.  On the bounded transport the second `close` leaves the open flag, the
node lists, the event and the producer count as the first one left them and
releases one more permit. -/
theorem close_twice :
    (∀ s : unbounded_channel T, s.close.close = s.close) ∧
    (∀ s : rendezvous_channel T, s.close.close = s.close) ∧
    (∀ s : unbounded_channel T,
      (transport.unbounded s).close.bind transport.close = (transport.unbounded s).close) ∧
    (∀ s : rendezvous_channel T,
      (transport.rendezvous s).close.bind transport.close = (transport.rendezvous s).close) ∧
    (∀ s : bounded_channel T,
      s.close.bind bounded_channel.close
        = s.close.map fun s1 =>
            { s1 with producer_sem :=
                ⟨⟨(s1.producer_sem._data.value + 1) % 4294967296,
                  s1.producer_sem._data.waiting⟩⟩ }) := by
  refine ⟨fun s => rfl, fun s => rfl, fun s => rfl, fun s => rfl, fun s => ?_⟩
  cases hf : s.mem[s.first]? with
  | none => simp [bounded_channel.close, heap.load, hf]
  | some x =>
    cases x with
    | none => simp [bounded_channel.close, heap.load, hf]
    | some n =>
      have h2 := bd_close_eq
        { s with
          is_open := false
          producer_sem := ⟨⟨(s.producer_sem._data.value + 1) % 4294967296,
            s.producer_sem._data.waiting⟩⟩ } n hf
      rw [bd_close_eq s n hf, Run.done_bind, Run.map_done, h2]

/-! ## A timed receive on the rendezvous transport -/

theorem rv_timeout (s : rendezvous_channel T) (tp now : Int)
    (hr : event.is_signaled s.item_ready._value = false) (hdt : remaining_ms tp now ≤ 0) :
    s.try_receive_until tp now
      = Run.done (recv_result.of_status status.TIMEOUT,
          { s with item_lock := ⟨⟨0⟩⟩, can_leave := s.can_leave.signal.1 }) := by
  simp [rendezvous_channel.try_receive_until, mutex.unlock_eq,
    event.wait_until_unsignaled tp now hr, hdt, mutex.lock_free]

/-- C30 fails on the code: `try_receive_until` calls `can_leave.signal()` before it
tests whether the wait timed out.  For every state with `item_ready` unsignaled and
the deadline reached it returns `TIMEOUT` with the slot and `item_ready` untouched
and `item_lock` held again, but with `can_leave` signaled.  On a fresh channel: after
such a `TIMEOUT`, once the consumer is parked in `receive()`, a `send(7)` returns
`OK` at once while 7 is still in the slot; without the `TIMEOUT` the same `send(7)`
parks until the consumer has signaled. -/
theorem timeout_signals_can_leave :
    (∀ (s : rendezvous_channel T) (tp now : Int),
      event.is_signaled s.item_ready._value = false → remaining_ms tp now ≤ 0 →
      s.try_receive_until tp now
        = Run.done (recv_result.of_status status.TIMEOUT,
            { s with item_lock := ⟨⟨0⟩⟩, can_leave := s.can_leave.signal.1 }) ∧
      event.is_signaled s.can_leave.signal.1._value = true) ∧
    (rendezvous_channel.new.map fun s : rendezvous_channel Nat =>
        (s.item, s.item_ready, s.item_lock, s.can_leave))
      = Run.done (none, ⟨0⟩, ⟨⟨0⟩⟩, ⟨0⟩) ∧
    (rendezvous_channel.new.bind fun s : rendezvous_channel Nat =>
        (s.try_receive_until 0 0).map fun r =>
          (r.1, r.2.item, r.2.item_ready, r.2.item_lock, r.2.can_leave))
      = Run.done (⟨none, status.TIMEOUT⟩, none, ⟨0⟩, ⟨⟨0⟩⟩, ⟨1⟩) ∧
    (rendezvous_channel.new.bind fun s : rendezvous_channel Nat =>
        (s.try_receive_until 0 0).bind fun r => r.2.receive_parked.bind fun s2 =>
          (s2.send 7).map fun x => (x.1, x.2.item))
      = Run.done (⟨status.OK, none⟩, some 7) ∧
    (rendezvous_channel.new.bind fun s : rendezvous_channel Nat =>
        s.receive_parked.bind fun s2 => s2.send 7) = Run.blocked := by
  refine ⟨fun s tp now hr hdt => ⟨rv_timeout s tp now hr hdt, event.signal_signaled _⟩,
    by decide, by decide, by decide, by decide⟩

end mpsc

/-! ## The nodes of the bounded transport -/

namespace mpsc

namespace detail

variable {T : Type}

theorem footprint_set {h : heap T} {p : Nat} {n : node T} (x : node T)
    (hp : h[p]? = some (some n)) : heap.footprint (h.set p (some x)) = heap.footprint h := by
  unfold heap.footprint
  apply List.ext_getElem?
  intro i
  simp only [List.getElem?_map, List.getElem?_set]
  by_cases hi : p = i
  · subst hi
    have hlt := heap.lt_of_get hp
    simp [hlt, hp]
  · simp [hi]

theorem footprint_alloc (h : heap T) (x : node T) :
    heap.footprint (heap.alloc h x).1 = heap.footprint h ++ [true] := by
  simp [heap.footprint, heap.alloc]

theorem footprint_set_next {h h1 : heap T} {p : Nat} {q : Option Nat}
    (e : heap.set_next h p q = Run.done h1) : heap.footprint h1 = heap.footprint h := by
  unfold heap.set_next at e
  obtain ⟨n, e1, e2⟩ := Run.bind_eq_done e
  simp only [Run.done.injEq] at e2
  subst e2
  exact footprint_set _ (heap.get_of_load e1)

theorem footprint_store {h h1 : heap T} {p : Nat} {x : node T}
    (e : heap.store h p x = Run.done h1) : heap.footprint h1 = heap.footprint h := by
  unfold heap.store at e
  obtain ⟨n, e1, e2⟩ := Run.bind_eq_done e
  simp only [Run.done.injEq] at e2
  subst e2
  exact footprint_set _ (heap.get_of_load e1)

namespace bounded_channel

theorem footprint_init_free (i : Nat) : ∀ (h h1 : heap T) (p q : Nat),
    init_free i h p = Run.done (h1, q) →
    heap.footprint h1 = heap.footprint h ++ List.replicate i true := by
  induction i with
  | zero =>
    intro h h1 p q e
    simp only [init_free, Run.done.injEq, Prod.mk.injEq] at e
    simp [e.1]
  | succ i ih =>
    intro h h1 p q e
    simp only [init_free] at e
    obtain ⟨h2, e1, e2⟩ := Run.bind_eq_done e
    rw [ih _ _ _ _ e2, footprint_set_next e1, footprint_alloc, List.replicate_succ]
    simp

theorem footprint_new {c : Nat} {s : bounded_channel T} (e : new c = Run.done s) :
    heap.footprint s.mem = List.replicate (c + 2) true := by
  unfold new at e
  obtain ⟨sem, _, e⟩ := Run.bind_eq_done e
  obtain ⟨r, e1, e⟩ := Run.bind_eq_done e
  simp only [Run.done.injEq] at e
  subst e
  simp only
  rw [footprint_init_free c _ _ _ _ e1, footprint_alloc, footprint_alloc]
  simp [heap.footprint, List.replicate_succ]

theorem footprint_push {s s1 : bounded_channel T} {v : T} {r : send_result T}
    (h : s.push v = Run.done (r, s1)) : heap.footprint s1.mem = heap.footprint s.mem := by
  unfold push at h
  split at h
  · simp at h
  · obtain ⟨_, _, h⟩ := Run.bind_eq_done h
    obtain ⟨m1, e1, h⟩ := Run.bind_eq_done h
    obtain ⟨m2, e2, h⟩ := Run.bind_eq_done h
    simp only [Run.done.injEq, Prod.mk.injEq] at h
    rw [← h.2]
    simp only
    rw [footprint_set_next e2]
    exact footprint_store e1

theorem footprint_pop {s s1 : bounded_channel T} {r : recv_result T}
    (h : s.pop = Run.done (r, s1)) : heap.footprint s1.mem = heap.footprint s.mem := by
  unfold pop at h
  simp only at h
  obtain ⟨tn, _, h⟩ := Run.bind_eq_done h
  split at h
  · simp at h
  · obtain ⟨m1, e1, h⟩ := Run.bind_eq_done h
    obtain ⟨m2, e2, h⟩ := Run.bind_eq_done h
    obtain ⟨_, _, h⟩ := Run.bind_eq_done h
    obtain ⟨_, _, h⟩ := Run.bind_eq_done h
    simp only [Run.done.injEq, Prod.mk.injEq] at h
    rw [← h.2]
    simp only
    rw [footprint_set_next e2, footprint_set_next e1]

theorem await_mem (k : Nat) : ∀ (s s1 : bounded_channel T), await k s = Run.done s1 →
    s1.mem = s.mem := by
  induction k with
  | zero =>
    intro s s1 h
    simp [await] at h
  | succ k ih =>
    intro s s1 h
    simp only [await] at h
    obtain ⟨n, _, h⟩ := Run.bind_eq_done h
    split at h
    · simp only [Run.done.injEq] at h
      rw [← h]
    · obtain ⟨e, _, h⟩ := Run.bind_eq_done h
      simpa using ih _ _ h

theorem footprint_send {s s1 : bounded_channel T} {v : T} {r : send_result T}
    (h : s.send v = Run.done (r, s1)) : heap.footprint s1.mem = heap.footprint s.mem := by
  unfold send at h
  split at h
  · simp only [Run.done.injEq, Prod.mk.injEq] at h
    rw [← h.2]
  · obtain ⟨_, _, h⟩ := Run.bind_eq_done h
    simpa using footprint_push h

theorem footprint_try_send {s s1 : bounded_channel T} {v : T} {r : send_result T}
    (h : s.try_send v = Run.done (r, s1)) : heap.footprint s1.mem = heap.footprint s.mem := by
  unfold try_send at h
  split at h
  · simp only [Run.done.injEq, Prod.mk.injEq] at h
    rw [← h.2]
  · simp only at h
    split at h
    · simp only [Run.done.injEq, Prod.mk.injEq] at h
      rw [← h.2]
    · simpa using footprint_push h

theorem footprint_receive {s s1 : bounded_channel T} {r : recv_result T}
    (h : s.receive = Run.done (r, s1)) : heap.footprint s1.mem = heap.footprint s.mem := by
  unfold receive at h
  obtain ⟨s2, e, h⟩ := Run.bind_eq_done h
  rw [footprint_pop h, await_mem 2 s s2 e]

theorem footprint_try_receive {s s1 : bounded_channel T} {r : recv_result T}
    (h : s.try_receive = Run.done (r, s1)) : heap.footprint s1.mem = heap.footprint s.mem := by
  unfold try_receive at h
  obtain ⟨n, _, h⟩ := Run.bind_eq_done h
  split at h
  · exact footprint_pop h
  · simp only [Run.done.injEq, Prod.mk.injEq] at h
    rw [← h.2]

end bounded_channel

end detail

open detail

variable {T : Type}

theorem step_transfer {c c1 : client T} {s : bounded_channel T} {o : op T}
    (htx : c.tx = transport.bounded s) (ho : o.is_transfer = true)
    (e : c.step o = Run.done c1) :
    ∃ s1, c1.tx = transport.bounded s1 ∧
      heap.footprint s1.mem = heap.footprint s.mem ∧ c1.senders = c.senders := by
  cases o with
  | send v =>
    simp only [client.step, htx, transport.send] at e
    split at e
    · simp at e
    · obtain ⟨a, e1, e2⟩ := Run.map_eq_done e
      obtain ⟨b, e3, e4⟩ := Run.map_eq_done e1
      subst e2 e4
      exact ⟨b.2, rfl, bounded_channel.footprint_send e3, rfl⟩
  | try_send v =>
    simp only [client.step, htx, transport.try_send] at e
    split at e
    · simp at e
    · obtain ⟨a, e1, e2⟩ := Run.map_eq_done e
      obtain ⟨b, e3, e4⟩ := Run.map_eq_done e1
      subst e2 e4
      exact ⟨b.2, rfl, bounded_channel.footprint_try_send e3, rfl⟩
  | receive =>
    simp only [client.step, htx, transport.receive] at e
    obtain ⟨a, e1, e2⟩ := Run.map_eq_done e
    obtain ⟨b, e3, e4⟩ := Run.map_eq_done e1
    subst e2 e4
    exact ⟨b.2, rfl, bounded_channel.footprint_receive e3, rfl⟩
  | try_receive =>
    simp only [client.step, htx, transport.try_receive] at e
    obtain ⟨a, e1, e2⟩ := Run.map_eq_done e
    obtain ⟨b, e3, e4⟩ := Run.map_eq_done e1
    subst e2 e4
    exact ⟨b.2, rfl, bounded_channel.footprint_try_receive e3, rfl⟩
  | clone => simp [op.is_transfer] at ho
  | drop => simp [op.is_transfer] at ho

theorem exec_transfer (script : List (op T)) : ∀ (c c1 : client T) (s : bounded_channel T),
    c.tx = transport.bounded s → (∀ o ∈ script, o.is_transfer = true) →
    client.exec script c = Run.done c1 →
    ∃ s1, c1.tx = transport.bounded s1 ∧
      heap.footprint s1.mem = heap.footprint s.mem ∧ c1.senders = c.senders := by
  induction script with
  | nil =>
    intro c c1 s htx _ e
    simp only [client.exec, Run.done.injEq] at e
    subst e
    exact ⟨s, htx, rfl, rfl⟩
  | cons o os ih =>
    intro c c1 s htx hops e
    simp only [client.exec] at e
    obtain ⟨c2, e1, e2⟩ := Run.bind_eq_done e
    obtain ⟨s2, h1, h2, h3⟩ := step_transfer htx (hops o (List.mem_cons_self o os)) e1
    obtain ⟨s3, h4, h5, h6⟩ := ih c2 c1 s2 h1
      (fun x hx => hops x (List.mem_cons_of_mem o hx)) e2
    exact ⟨s3, h4, by rw [h5, h2], by rw [h6, h3]⟩

/-- C24: for a bounded channel built by `channel<T>(capacity)`, `capacity >= 1`, in
every state reached by a single-threaded run of `send`, `try_send`, `receive` and
`try_receive` calls: the live list (the dummy head followed by the queued nodes) and
the free list are linked lists of the heap with no node in common; together they
hold `capacity + 2` nodes; the free list holds
one node more than the semaphore has permits and `available` is its first node;
the heap has handed out `capacity + 2` addresses, all still allocated; and a
further send or receive of either kind leaves that footprint as it is, so it
neither allocates nor frees. -/
theorem bounded_node_budget (capacity : Int) (script : List (op T)) (c : client T)
    (hcap : 1 ≤ capacity) (hops : ∀ o ∈ script, o.is_transfer = true)
    (hrun : client.run capacity script = Run.done c) :
    ∃ (s : bounded_channel T) (v0 : Option T) (L F : List (Nat × Option T)),
      c.tx = transport.bounded s ∧
      seg s.mem ((s.first, v0) :: L) none ∧ seg s.mem F none ∧
      ((s.first :: L.map Prod.fst) ++ F.map Prod.fst).Nodup ∧
      L.map Prod.snd = (pending c.log).map some ∧
      (L.length + 1) + F.length = capacity.toNat + 2 ∧
      F.length = s.producer_sem._data.value + 1 ∧
      s.available = F.head?.map Prod.fst ∧
      heap.footprint s.mem = List.replicate (capacity.toNat + 2) true ∧
      (∀ (o : op T) (c1 : client T), o.is_transfer = true → c.step o = Run.done c1 →
        c1.tx.footprint = c.tx.footprint) := by
  have h1 : capacity ≠ unbounded := by
    unfold unbounded
    omega
  have h2 : capacity ≠ 0 := by omega
  have h3 : 0 < capacity := by omega
  have hrun0 := hrun
  unfold client.run at hrun
  obtain ⟨r, e1, e2⟩ := Run.bind_eq_done hrun
  simp only [channel, h1, h2, h3, if_true, if_false] at e1
  obtain ⟨s0, e0, hr⟩ := Run.map_eq_done e1
  subst hr
  simp only at e2
  obtain ⟨s, htx, hfp, hsend⟩ := exec_transfer script _ c s0 rfl hops e2
  have hs1 : c.senders = 1 := by simpa [client.start] using hsend
  have hlive := (bounded_live hcap hrun0 (by omega)).1
  rw [htx, hs1] at hlive
  obtain ⟨c', v0, L, F, hc', hh⟩ := hlive
  simp only [Option.some.injEq] at hc'
  subst hc'
  obtain ⟨_, _, hav, hF, hq⟩ := hh.tail (le_refl 1)
  have hvals : L.map Prod.snd = (pending c.log).map some := by
    simpa [marks] using hh.vals
  have hlen : L.length = (pending c.log).length := by
    have := congrArg List.length hvals
    simpa using this
  refine ⟨s, v0, L, F, htx, hh.chain, hh.free, hh.nodup, hvals, by omega, hF, hav, ?_, ?_⟩
  · rw [hfp]
    exact bounded_channel.footprint_new e0
  · intro o c1 ho e
    obtain ⟨s1, h4, h5, _⟩ := step_transfer htx ho e
    rw [h4, htx]
    exact h5

/-- Witness for C24: a run on a channel of capacity 2 that fills the queue, is
refused a third value, receives twice and sends again; one value is queued at the
end, a single permit is free and the 4 nodes are all allocated. -/
theorem bounded_node_budget_witness :
    client.run 2 scenario_transfer = Run.done (client.final 2 scenario_transfer) ∧
    (client.final 2 scenario_transfer).log
      = [.sent 1 ⟨status.OK, none⟩, .sent 2 ⟨status.OK, none⟩,
          .sent 3 ⟨status.WOULD_BLOCK, some 3⟩, .received ⟨some 1, status.OK⟩,
          .received ⟨some 2, status.OK⟩, .sent 5 ⟨status.OK, none⟩] ∧
    (client.final 2 scenario_transfer).tx.footprint = [true, true, true, true] ∧
    (∃ (s : bounded_channel Nat) (v0 : Option Nat) (L F : List (Nat × Option Nat)),
      (client.final 2 scenario_transfer).tx = transport.bounded s ∧
      seg s.mem ((s.first, v0) :: L) none ∧ seg s.mem F none ∧
      ((s.first :: L.map Prod.fst) ++ F.map Prod.fst).Nodup ∧
      L.map Prod.snd = (pending (client.final 2 scenario_transfer).log).map some ∧
      (L.length + 1) + F.length = (2 : Int).toNat + 2 ∧
      F.length = s.producer_sem._data.value + 1 ∧
      s.available = F.head?.map Prod.fst ∧
      heap.footprint s.mem = List.replicate ((2 : Int).toNat + 2) true ∧
      (∀ (o : op Nat) (c1 : client Nat), o.is_transfer = true →
        (client.final 2 scenario_transfer).step o = Run.done c1 →
        c1.tx.footprint = (client.final 2 scenario_transfer).tx.footprint)) :=
  ⟨by decide, by decide, by decide,
    bounded_node_budget 2 scenario_transfer (client.final 2 scenario_transfer)
      (by decide) (by decide) (by decide)⟩

end mpsc

/-! ## The hand-off on the rendezvous transport -/

namespace mpsc

open detail

variable {T : Type}

end mpsc

end jjc
